import Mathlib

/-!
# slurm-exporter: the node-state and scheduler parsers

A shallow embedding of `ParseNodesMetrics` (nodes.go) and of
`ParseSchedulerMetrics` / `ParseRpcStats` (scheduler.go).

Modelling conventions.

* A Go `string` is a `Str`, a list of characters.  `strings.Split`,
  `strings.Contains`, `strings.Join`, `strings.TrimSpace` and `sort.Strings`
  are embedded as list functions of the same name.
* A Go `map[string]float64` is an association list; reading a missing key
  gives the zero value and writing appends the key when it is new.  Go leaves
  the iteration order of a map unspecified, so only the keys and the values
  stored under them are meaningful.
* `float64` and `strconv.ParseFloat` belong to the Go runtime, not to this
  repository: they enter as a parameter `Float64Ops`.  `float64Ops` is their
  model on the non-negative integers, with the rounding and the overflow of
  IEEE 754; `natOps` adds without rounding and serves on small integers.
* An index that is out of range makes Go abort the call with a run-time
  error: a function that indexes a slice returns an `Option`, and `none`
  stands for that abort.
* The regular expressions used by the two files are concatenations of
  literals, single character classes and greedy repetitions of a character
  class, anchored at the start of the text; `matchItems` gives them the
  leftmost-first meaning of Go's `regexp` package.
-/

namespace SlurmExporter

/-- A Go string. -/
abbrev Str := List Char

/-! ## float64, as far as the parsers use it -/

/-- The operations on `float64` the parsers call.  `parseFloat s` is
`strconv.ParseFloat(s, 64)`: `none` when the call reports a syntax error (Go
then returns the value 0), `some f` for the value Go returns otherwise. -/
structure Float64Ops (F : Type) where
  zero : F
  add : F → F → F
  parseFloat : Str → Option F

/-- The value the code keeps from `x, _ := strconv.ParseFloat(s, 64)`. -/
def ParseFloat {F : Type} (ops : Float64Ops F) (s : Str) : F :=
  match ops.parseFloat s with
  | some f => f
  | none => ops.zero

/-- Exact arithmetic in a commutative monoid, with a given reading of
numerals. -/
def exactOps {F : Type} [AddCommMonoid F] (parse : Str → Option F) : Float64Ops F :=
  { zero := 0, add := fun a b => a + b, parseFloat := parse }

/-- Value of a string of decimal digits, most significant digit first. -/
def digitsValue : Nat → Str → Nat
  | acc, [] => acc
  | acc, c :: cs => digitsValue (acc * 10 + (c.toNat - 48)) cs

/-- Reading of unsigned decimal integers of at most fifteen digits, on which
`strconv.ParseFloat` succeeds and is exact; every other string is read as a
syntax error, as `strconv.ParseFloat` does for a string that is not a
floating-point literal.  It serves to evaluate the parsers on reports whose
numbers are such integers. -/
def parseDecimal (s : Str) : Option Nat :=
  if s ≠ [] ∧ s.length ≤ 15 ∧ s.all (fun c => decide ('0' ≤ c ∧ c ≤ '9')) = true then
    some (digitsValue 0 s)
  else none

/-- The instance used to evaluate the parsers on reports whose numbers are
small non-negative integers, on which float64 arithmetic is exact; it is not the
arithmetic of the program on larger numbers, for which see `float64Ops`. -/
def natOps : Float64Ops Nat := exactOps parseDecimal

/-! ## strings -/

/-- The Go function strings.Split(s, sep) for a one-character separator. -/
def Split (sep : Char) : Str → List Str
  | [] => [[]]
  | c :: cs =>
    if c = sep then [] :: Split sep cs
    else
      match Split sep cs with
      | [] => [[c]]
      | h :: t => (c :: h) :: t

/-- The Go function strings.Contains(s, sub). -/
def Contains : Str → Str → Bool
  | [], sub => sub.isEmpty
  | c :: cs, sub => sub.isPrefixOf (c :: cs) || Contains cs sub

/-- The Go function strings.Join(elems, sep). -/
def Join (sep : Str) : List Str → Str
  | [] => []
  | [a] => a
  | a :: b :: r => a ++ sep ++ Join sep (b :: r)

/-- White space in the sense of Go's unicode.IsSpace. -/
def isSpace (c : Char) : Bool :=
  let n := c.toNat
  (9 ≤ n && n ≤ 13) || n = 32 || n = 0x85 || n = 0xA0 || n = 0x1680 ||
  (0x2000 ≤ n && n ≤ 0x200a) || n = 0x2028 || n = 0x2029 || n = 0x202f ||
  n = 0x205f || n = 0x3000

/-- The Go function strings.TrimSpace(s). -/
def TrimSpace (s : Str) : Str :=
  ((s.dropWhile isSpace).reverse.dropWhile isSpace).reverse

/-- Lexicographic comparison `a <= b` of two strings, character by
character. -/
def strLe : Str → Str → Bool
  | [], _ => true
  | _ :: _, [] => false
  | a :: as, b :: bs =>
    if a < b then true
    else if b < a then false
    else strLe as bs

/-- Insertion of a string into a sorted list. -/
def orderedInsert (a : Str) : List Str → List Str
  | [] => [a]
  | b :: l => if strLe a b then a :: b :: l else b :: orderedInsert a l

/-- The Go function sort.Strings(x): the strings of x in increasing order. -/
def sortStrings : List Str → List Str
  | [] => []
  | a :: l => orderedInsert a (sortStrings l)

/-! ## regular expressions -/

/-- One factor of a regular expression. -/
inductive Item where
  /-- A literal text. -/
  | lit (s : Str)
  /-- One character of a class. -/
  | cls (p : Char → Bool)
  /-- Greedy repetition `[...]*` of a class. -/
  | star (p : Char → Bool)
  /-- A capturing group around a greedy repetition, `([...]*)`. -/
  | cap (p : Char → Bool)

/-- Length of the longest prefix of `s` made of characters of the class. -/
def spanLen (p : Char → Bool) : Str → Nat
  | [] => 0
  | c :: cs => if p c then spanLen p cs + 1 else 0

/-- First success of `f k`, `f (k-1)`, ..., `f 0`: a greedy repetition gives
back one character at a time. -/
def tryFrom {α : Type} (f : Nat → Option α) : Nat → Option α
  | 0 => f 0
  | k + 1 =>
    match f (k + 1) with
    | some r => some r
    | none => tryFrom f k

/-- Leftmost-first match of `^items` against the whole of `s` (when `toEnd`,
the expression ends in `$`) or against a prefix of `s`; the result lists the
texts of the capturing groups in order. -/
def matchItems (toEnd : Bool) : List Item → Str → Option (List Str)
  | [], s => if toEnd && !s.isEmpty then none else some []
  | Item.lit l :: r, s =>
    if l.isPrefixOf s then matchItems toEnd r (s.drop l.length) else none
  | Item.cls p :: r, s =>
    match s with
    | [] => none
    | c :: t => if p c then matchItems toEnd r t else none
  | Item.star p :: r, s =>
    tryFrom (fun k => matchItems toEnd r (s.drop k)) (spanLen p s)
  | Item.cap p :: r, s =>
    tryFrom (fun k => (matchItems toEnd r (s.drop k)).map (fun cs => s.take k :: cs))
      (spanLen p s)

/-- A compiled regular expression `^items` or `^items$`. -/
structure Regexp where
  items : List Item
  toEnd : Bool

/-- The Go method (*Regexp).MatchString. -/
def Regexp.MatchString (re : Regexp) (s : Str) : Bool :=
  (matchItems re.toEnd re.items s).isSome

/-- The class `\s` of Go regular expressions: `[\t\n\f\r ]`. -/
def reSpace (c : Char) : Bool :=
  c = '\t' || c = '\n' || c = Char.ofNat 12 || c = '\r' || c = ' '

/-- The class `[0-9]`. -/
def reDigit (c : Char) : Bool := decide ('0' ≤ c ∧ c ≤ '9')

/-- The class `[A-Za-z0-9_]`. -/
def reWord (c : Char) : Bool :=
  decide ('A' ≤ c ∧ c ≤ 'Z') || decide ('a' ≤ c ∧ c ≤ 'z') || reDigit c || c = '_'

/-- The class `.`: any character but the line feed. -/
def reAny (c : Char) : Bool := c ≠ '\n'

/-! ## maps -/

/-- A Go `map[string]float64`. -/
abbrev FMap (F : Type) := List (Str × F)

/-- Reading `m[k]`: the zero value when the key is absent. -/
def mapGet {F : Type} (z : F) : FMap F → Str → F
  | [], _ => z
  | (k', v) :: m, k => if k' = k then v else mapGet z m k

/-- Writing `m[k] = v`. -/
def mapSet {F : Type} : FMap F → Str → F → FMap F
  | [], k, v => [(k, v)]
  | (k', v') :: m, k, v => if k' = k then (k', v) :: m else (k', v') :: mapSet m k v

/-- The keys of a map. -/
def mapKeys {F : Type} (m : FMap F) : List Str := m.map Prod.fst

/-! ## nodes.go -/

/-- The Go struct NodesMetrics. -/
structure NodesMetrics (F : Type) where
  alloc : FMap F
  comp : FMap F
  down : FMap F
  drain : FMap F
  err : FMap F
  fail : FMap F
  idle : FMap F
  maint : FMap F
  mix : FMap F
  resv : FMap F
  other : FMap F
  planned : FMap F
  total : FMap F

/-- The loop of RemoveDuplicates: `m` is the set of strings seen so far and
`t` the slice being built. -/
def RemoveDuplicatesLoop (m : List Str) (t : List Str) : List Str → List Str
  | [] => t
  | v :: s =>
    if ¬ v ∈ m then
      if v.length > 0 then RemoveDuplicatesLoop (v :: m) (t ++ [v]) s
      else RemoveDuplicatesLoop m t s
    else RemoveDuplicatesLoop m t s

/-- The Go function RemoveDuplicates. -/
def RemoveDuplicates (s : List Str) : List Str := RemoveDuplicatesLoop [] [] s

/-- The Go function InitFeatureSet: every map receives the value it already
holds under the key, which creates the key when it is absent. -/
def InitFeatureSet {F : Type} (ops : Float64Ops F) (nm : NodesMetrics F)
    (feature_set : Str) : NodesMetrics F :=
  { alloc := mapSet nm.alloc feature_set (mapGet ops.zero nm.alloc feature_set)
    comp := mapSet nm.comp feature_set (mapGet ops.zero nm.comp feature_set)
    down := mapSet nm.down feature_set (mapGet ops.zero nm.down feature_set)
    drain := mapSet nm.drain feature_set (mapGet ops.zero nm.drain feature_set)
    err := mapSet nm.err feature_set (mapGet ops.zero nm.err feature_set)
    fail := mapSet nm.fail feature_set (mapGet ops.zero nm.fail feature_set)
    idle := mapSet nm.idle feature_set (mapGet ops.zero nm.idle feature_set)
    maint := mapSet nm.maint feature_set (mapGet ops.zero nm.maint feature_set)
    mix := mapSet nm.mix feature_set (mapGet ops.zero nm.mix feature_set)
    resv := mapSet nm.resv feature_set (mapGet ops.zero nm.resv feature_set)
    other := mapSet nm.other feature_set (mapGet ops.zero nm.other feature_set)
    planned := mapSet nm.planned feature_set (mapGet ops.zero nm.planned feature_set)
    total := mapSet nm.total feature_set (mapGet ops.zero nm.total feature_set) }

/-- The statement `m[k] += count`. -/
def mapAdd {F : Type} (ops : Float64Ops F) (m : FMap F) (k : Str) (count : F) : FMap F :=
  mapSet m k (ops.add (mapGet ops.zero m k) count)

/-- The regular expression `^p` for a literal text p. -/
def rePrefix (p : String) : Regexp := { items := [Item.lit p.toList], toEnd := false }

/-- The feature set of a line: the third field split at commas, sorted,
joined again, with `(null)` replaced by `null` (nodes.go, lines 113-118). -/
def featureSetOf (field : Str) : Str :=
  let features := sortStrings (Split ',' field)
  let feature_set := Join [','] features
  if feature_set = "(null)".toList then "null".toList else feature_set

/-- The body of the loop of ParseNodesMetrics for one line (nodes.go, lines
109-157). -/
def ParseNodesLine {F : Type} (ops : Float64Ops F) (nm : NodesMetrics F) (line : Str) :
    Option (NodesMetrics F) :=
  if Contains line ['|'] then
    let split := Split '|' line
    match split[1]? with
    | none => none
    | some state =>
    match split[0]? with
    | none => none
    | some field0 =>
    let count := ParseFloat ops (TrimSpace field0)
    match split[2]? with
    | none => none
    | some field2 =>
    let feature_set := featureSetOf field2
    let nm := InitFeatureSet ops nm feature_set
    let alloc := rePrefix "alloc"
    let comp := rePrefix "comp"
    let down := rePrefix "down"
    let drain := rePrefix "drain"
    let fail := rePrefix "fail"
    let err := rePrefix "err"
    let idle := rePrefix "idle"
    let maint := rePrefix "maint"
    let mix := rePrefix "mix"
    let resv := rePrefix "res"
    let planned := rePrefix "planned"
    if alloc.MatchString state then
      some { nm with alloc := mapAdd ops nm.alloc feature_set count }
    else if comp.MatchString state then
      some { nm with comp := mapAdd ops nm.comp feature_set count }
    else if down.MatchString state then
      some { nm with down := mapAdd ops nm.down feature_set count }
    else if drain.MatchString state then
      some { nm with drain := mapAdd ops nm.drain feature_set count }
    else if fail.MatchString state then
      some { nm with fail := mapAdd ops nm.fail feature_set count }
    else if err.MatchString state then
      some { nm with err := mapAdd ops nm.err feature_set count }
    else if idle.MatchString state then
      some { nm with idle := mapAdd ops nm.idle feature_set count }
    else if maint.MatchString state then
      some { nm with maint := mapAdd ops nm.maint feature_set count }
    else if mix.MatchString state then
      some { nm with mix := mapAdd ops nm.mix feature_set count }
    else if resv.MatchString state then
      some { nm with resv := mapAdd ops nm.resv feature_set count }
    else if planned.MatchString state then
      some { nm with planned := mapAdd ops nm.planned feature_set count }
    else
      some { nm with other := mapAdd ops nm.other feature_set count }
  else some nm

/-- The loop `for _, line := range lines_uniq` of ParseNodesMetrics. -/
def ParseNodesLoop {F : Type} (ops : Float64Ops F) :
    NodesMetrics F → List Str → Option (NodesMetrics F)
  | nm, [] => some nm
  | nm, line :: rest =>
    match ParseNodesLine ops nm line with
    | none => none
    | some nm1 => ParseNodesLoop ops nm1 rest

/-- The thirteen maps as ParseNodesMetrics creates them. -/
def emptyNodesMetrics (F : Type) : NodesMetrics F :=
  { alloc := [], comp := [], down := [], drain := [], err := [], fail := [], idle := [],
    maint := [], mix := [], resv := [], other := [], planned := [], total := [] }

/-- ParseNodesMetrics from the point where the input has been split into
lines (nodes.go, lines 90-159). -/
def ParseNodesLines {F : Type} (ops : Float64Ops F) (lines : List Str) :
    Option (NodesMetrics F) :=
  let lines_uniq := RemoveDuplicates (sortStrings lines)
  ParseNodesLoop ops (emptyNodesMetrics F) lines_uniq

/-- The Go function ParseNodesMetrics. -/
def ParseNodesMetrics {F : Type} (ops : Float64Ops F) (input : Str) :
    Option (NodesMetrics F) :=
  ParseNodesLines ops (Split '\n' input)

/-! ## scheduler.go -/

/-- The Go struct SchedulerMetrics. -/
structure SchedulerMetrics (F : Type) where
  threads : F
  queue_size : F
  dbd_queue_size : F
  last_cycle : F
  mean_cycle : F
  cycle_per_minute : F
  backfill_last_cycle : F
  backfill_mean_cycle : F
  backfill_depth_mean : F
  total_backfilled_jobs_since_start : F
  total_backfilled_jobs_since_cycle : F
  total_backfilled_heterogeneous : F
  rpc_stats_count : FMap F
  rpc_stats_avg_time : FMap F
  rpc_stats_total_time : FMap F
  user_rpc_stats_count : FMap F
  user_rpc_stats_avg_time : FMap F
  user_rpc_stats_total_time : FMap F

/-- The zero value `var sm SchedulerMetrics`. -/
def zeroSchedulerMetrics {F : Type} (ops : Float64Ops F) : SchedulerMetrics F :=
  { threads := ops.zero, queue_size := ops.zero, dbd_queue_size := ops.zero,
    last_cycle := ops.zero, mean_cycle := ops.zero, cycle_per_minute := ops.zero,
    backfill_last_cycle := ops.zero, backfill_mean_cycle := ops.zero,
    backfill_depth_mean := ops.zero, total_backfilled_jobs_since_start := ops.zero,
    total_backfilled_jobs_since_cycle := ops.zero, total_backfilled_heterogeneous := ops.zero,
    rpc_stats_count := [], rpc_stats_avg_time := [], rpc_stats_total_time := [],
    user_rpc_stats_count := [], user_rpc_stats_avg_time := [],
    user_rpc_stats_total_time := [] }

/-- The regular expression `^[\s]+p` for a literal text p, followed by `$`
when `toEnd`. -/
def reIndented (p : String) (toEnd : Bool) : Regexp :=
  { items := [Item.cls reSpace, Item.star reSpace, Item.lit p.toList], toEnd := toEnd }

/-- The expression `^Server thread`. -/
def re_st : Regexp := rePrefix "Server thread"
/-- The expression `^Agent queue`. -/
def re_qs : Regexp := rePrefix "Agent queue"
/-- The expression `^DBD Agent`. -/
def re_dbd : Regexp := rePrefix "DBD Agent"
/-- The expression `^[\s]+Last cycle$`. -/
def re_lc : Regexp := reIndented "Last cycle" true
/-- The expression `^[\s]+Mean cycle$`. -/
def re_mc : Regexp := reIndented "Mean cycle" true
/-- The expression `^[\s]+Cycles per`. -/
def re_cpm : Regexp := reIndented "Cycles per" false
/-- The expression `^[\s]+Depth Mean$`. -/
def re_dpm : Regexp := reIndented "Depth Mean" true
/-- The expression `^[\s]+Total backfilled jobs \(since last slurm start\)`. -/
def re_tbs : Regexp := reIndented "Total backfilled jobs (since last slurm start)" false
/-- The expression `^[\s]+Total backfilled jobs \(since last stats cycle start\)`. -/
def re_tbc : Regexp := reIndented "Total backfilled jobs (since last stats cycle start)" false
/-- The expression `^[\s]+Total backfilled heterogeneous job components`. -/
def re_tbh : Regexp := reIndented "Total backfilled heterogeneous job components" false

/-- The expression
`strconv.ParseFloat(strings.TrimSpace(strings.Split(line, ":")[1]), 64)`. -/
def lineValue {F : Type} (ops : Float64Ops F) (line : Str) : Option F :=
  match (Split ':' line)[1]? with
  | none => none
  | some field => some (ParseFloat ops (TrimSpace field))

/-- The variables of the loop of ParseSchedulerMetrics. -/
structure SchedulerLoop (F : Type) where
  sm : SchedulerMetrics F
  lc_count : Nat
  mc_count : Nat

/-- The body of the loop of ParseSchedulerMetrics for one line (scheduler.go,
lines 85-131). -/
def ParseSchedulerLine {F : Type} (ops : Float64Ops F) (s : SchedulerLoop F) (line : Str) :
    Option (SchedulerLoop F) :=
  if Contains line [':'] then
    match (Split ':' line)[0]? with
    | none => none
    | some state =>
    if re_st.MatchString state then
      (lineValue ops line).map (fun v => { s with sm := { s.sm with threads := v } })
    else if re_qs.MatchString state then
      (lineValue ops line).map (fun v => { s with sm := { s.sm with queue_size := v } })
    else if re_dbd.MatchString state then
      (lineValue ops line).map (fun v => { s with sm := { s.sm with dbd_queue_size := v } })
    else if re_lc.MatchString state then
      let first :=
        if s.lc_count = 0 then
          (lineValue ops line).map
            (fun v => { s with sm := { s.sm with last_cycle := v }, lc_count := 1 })
        else some s
      match first with
      | none => none
      | some s1 =>
        if s1.lc_count = 1 then
          (lineValue ops line).map
            (fun v => { s1 with sm := { s1.sm with backfill_last_cycle := v } })
        else some s1
    else if re_mc.MatchString state then
      let first :=
        if s.mc_count = 0 then
          (lineValue ops line).map
            (fun v => { s with sm := { s.sm with mean_cycle := v }, mc_count := 1 })
        else some s
      match first with
      | none => none
      | some s1 =>
        if s1.mc_count = 1 then
          (lineValue ops line).map
            (fun v => { s1 with sm := { s1.sm with backfill_mean_cycle := v } })
        else some s1
    else if re_cpm.MatchString state then
      (lineValue ops line).map (fun v => { s with sm := { s.sm with cycle_per_minute := v } })
    else if re_dpm.MatchString state then
      (lineValue ops line).map
        (fun v => { s with sm := { s.sm with backfill_depth_mean := v } })
    else if re_tbs.MatchString state then
      (lineValue ops line).map
        (fun v => { s with sm := { s.sm with total_backfilled_jobs_since_start := v } })
    else if re_tbc.MatchString state then
      (lineValue ops line).map
        (fun v => { s with sm := { s.sm with total_backfilled_jobs_since_cycle := v } })
    else if re_tbh.MatchString state then
      (lineValue ops line).map
        (fun v => { s with sm := { s.sm with total_backfilled_heterogeneous := v } })
    else some s
  else some s

/-- The loop `for _, line := range lines` of ParseSchedulerMetrics. -/
def ParseSchedulerLoop {F : Type} (ops : Float64Ops F) :
    SchedulerLoop F → List Str → Option (SchedulerLoop F)
  | s, [] => some s
  | s, line :: rest =>
    match ParseSchedulerLine ops s line with
    | none => none
    | some s1 => ParseSchedulerLoop ops s1 rest

/-- The expression
`^\s*([A-Za-z0-9_]*).*count:([0-9]*)\s*ave_time:([0-9]*)\s\s*total_time:([0-9]*)\s*$`. -/
def stat_line_re : Regexp :=
  { items :=
      [Item.star reSpace, Item.cap reWord, Item.star reAny, Item.lit "count:".toList,
       Item.cap reDigit, Item.star reSpace, Item.lit "ave_time:".toList, Item.cap reDigit,
       Item.cls reSpace, Item.star reSpace, Item.lit "total_time:".toList, Item.cap reDigit,
       Item.star reSpace],
    toEnd := true }

/-- The Go method (*Regexp).FindAllStringSubmatch(s, -1) for an expression of
the form `^...$`: such an expression matches the whole text or nothing, so
there is at most one match; its first entry is the matched text and the others
are the texts of the groups. -/
def Regexp.FindAllStringSubmatch (re : Regexp) (s : Str) : List (List Str) :=
  match matchItems re.toEnd re.items s with
  | none => []
  | some groups => [s :: groups]

/-- The Go function SplitColonValueToFloat. -/
def SplitColonValueToFloat {F : Type} (ops : Float64Ops F) (input : Str) : Option F :=
  let str := Split ':' input
  if str.length = 1 then some ops.zero
  else
    match str[1]? with
    | none => none
    | some field => some (ParseFloat ops (TrimSpace field))

/-- The variables of the loop of ParseRpcStats. -/
structure RpcLoop (F : Type) where
  in_rpc : Bool
  in_rpc_per_user : Bool
  count_stats : FMap F
  avg_stats : FMap F
  total_stats : FMap F
  user_count_stats : FMap F
  user_avg_stats : FMap F
  user_total_stats : FMap F

/-- The header of the section keyed by message type. -/
def rpcTypeHeader : Str := "Remote Procedure Call statistics by message type".toList

/-- The header of the section keyed by user. -/
def rpcUserHeader : Str := "Remote Procedure Call statistics by user".toList

/-- The first statement of the loop body of ParseRpcStats: the section flags
(scheduler.go, lines 179-185). -/
def rpcSection {F : Type} (s : RpcLoop F) (line : Str) : RpcLoop F :=
  if Contains line rpcTypeHeader then { s with in_rpc := true, in_rpc_per_user := false }
  else if Contains line rpcUserHeader then { s with in_rpc := false, in_rpc_per_user := true }
  else s

/-- The second statement of the loop body of ParseRpcStats: the statistics
line (scheduler.go, lines 186-200). -/
def rpcRecord {F : Type} (ops : Float64Ops F) (s : RpcLoop F) (line : Str) :
    Option (RpcLoop F) :=
  if s.in_rpc || s.in_rpc_per_user then
    let re_match := stat_line_re.FindAllStringSubmatch line
    if re_match ≠ [] then
      match re_match[0]? with
      | none => none
      | some re_match_first =>
        match re_match_first[1]?, re_match_first[2]?, re_match_first[3]?,
            re_match_first[4]? with
        | some key, some c, some a, some t =>
          if s.in_rpc then
            some { s with
              count_stats := mapSet s.count_stats key (ParseFloat ops c)
              avg_stats := mapSet s.avg_stats key (ParseFloat ops a)
              total_stats := mapSet s.total_stats key (ParseFloat ops t) }
          else if s.in_rpc_per_user then
            some { s with
              user_count_stats := mapSet s.user_count_stats key (ParseFloat ops c)
              user_avg_stats := mapSet s.user_avg_stats key (ParseFloat ops a)
              user_total_stats := mapSet s.user_total_stats key (ParseFloat ops t) }
          else some s
        | _, _, _, _ => none
    else some s
  else some s

/-- The body of the loop of ParseRpcStats for one line. -/
def ParseRpcLine {F : Type} (ops : Float64Ops F) (s : RpcLoop F) (line : Str) :
    Option (RpcLoop F) :=
  rpcRecord ops (rpcSection s line) line

/-- The loop `for _, line := range lines` of ParseRpcStats. -/
def ParseRpcLoop {F : Type} (ops : Float64Ops F) :
    RpcLoop F → List Str → Option (RpcLoop F)
  | s, [] => some s
  | s, line :: rest =>
    match ParseRpcLine ops s line with
    | none => none
    | some s1 => ParseRpcLoop ops s1 rest

/-- The variables of ParseRpcStats before its loop. -/
def initRpcLoop (F : Type) : RpcLoop F :=
  { in_rpc := false, in_rpc_per_user := false, count_stats := [], avg_stats := [],
    total_stats := [], user_count_stats := [], user_avg_stats := [],
    user_total_stats := [] }

/-- The Go function ParseRpcStats: the six tables in the order of the slice
`rpc_stats_final`. -/
def ParseRpcStats {F : Type} (ops : Float64Ops F) (lines : List Str) :
    Option (List (FMap F)) :=
  match ParseRpcLoop ops (initRpcLoop F) lines with
  | none => none
  | some s =>
    some [s.count_stats, s.avg_stats, s.total_stats, s.user_count_stats, s.user_avg_stats,
      s.user_total_stats]

/-- The Go function ParseSchedulerMetrics. -/
def ParseSchedulerMetrics {F : Type} (ops : Float64Ops F) (input : Str) :
    Option (SchedulerMetrics F) :=
  let lines := Split '\n' input
  match ParseSchedulerLoop ops
      { sm := zeroSchedulerMetrics ops, lc_count := 0, mc_count := 0 } lines with
  | none => none
  | some s =>
    match ParseRpcStats ops lines with
    | none => none
    | some rpc_stats =>
      match rpc_stats[0]?, rpc_stats[1]?, rpc_stats[2]?, rpc_stats[3]?, rpc_stats[4]?,
          rpc_stats[5]? with
      | some m0, some m1, some m2, some m3, some m4, some m5 =>
        some { s.sm with
          rpc_stats_count := m0
          rpc_stats_avg_time := m1
          rpc_stats_total_time := m2
          user_rpc_stats_count := m3
          user_rpc_stats_avg_time := m4
          user_rpc_stats_total_time := m5 }
      | _, _, _, _, _, _ => none

/-! ## definitions used to state the properties -/

/-- The order of sort.Strings as a relation. -/
def StrLe (a b : Str) : Prop := strLe a b = true

instance : DecidableRel StrLe := fun a b => inferInstanceAs (Decidable (strLe a b = true))

/-- The strings RemoveDuplicates appends to its result while it walks
through `s`, when `m` holds the strings seen before. -/
def freshOnes (m : List Str) : List Str → List Str
  | [] => []
  | v :: s =>
    if ¬ v ∈ m ∧ v ≠ [] then v :: freshOnes (v :: m) s else freshOnes m s

/-- The twelve node categories of the specification. -/
inductive NodeCategory where
  | alloc | comp | down | drain | err | fail | idle | maint | mix | resv | planned | other
  deriving DecidableEq

/-- The ordered list of prefixes of the specification, each with its
category. -/
def prefixTable : List (String × NodeCategory) :=
  [("alloc", NodeCategory.alloc), ("comp", NodeCategory.comp), ("down", NodeCategory.down),
   ("drain", NodeCategory.drain), ("fail", NodeCategory.fail), ("err", NodeCategory.err),
   ("idle", NodeCategory.idle), ("maint", NodeCategory.maint), ("mix", NodeCategory.mix),
   ("res", NodeCategory.resv), ("planned", NodeCategory.planned)]

/-- Ordered prefix matching as the specification words it: the category of
the first prefix of the table the token starts with, `other` when it starts
with none. -/
def classify (state : Str) : NodeCategory :=
  match prefixTable.find? (fun p => p.1.toList.isPrefixOf state) with
  | some p => p.2
  | none => NodeCategory.other

/-- The map of a category. -/
def catMap {F : Type} (nm : NodesMetrics F) : NodeCategory → FMap F
  | NodeCategory.alloc => nm.alloc
  | NodeCategory.comp => nm.comp
  | NodeCategory.down => nm.down
  | NodeCategory.drain => nm.drain
  | NodeCategory.err => nm.err
  | NodeCategory.fail => nm.fail
  | NodeCategory.idle => nm.idle
  | NodeCategory.maint => nm.maint
  | NodeCategory.mix => nm.mix
  | NodeCategory.resv => nm.resv
  | NodeCategory.planned => nm.planned
  | NodeCategory.other => nm.other

/-- The count added under a signature to the map of one category, the other
maps being left as they are. -/
def addToCategory {F : Type} (ops : Float64Ops F) (nm : NodesMetrics F) (c : NodeCategory)
    (feature_set : Str) (count : F) : NodesMetrics F :=
  match c with
  | NodeCategory.alloc => { nm with alloc := mapAdd ops nm.alloc feature_set count }
  | NodeCategory.comp => { nm with comp := mapAdd ops nm.comp feature_set count }
  | NodeCategory.down => { nm with down := mapAdd ops nm.down feature_set count }
  | NodeCategory.drain => { nm with drain := mapAdd ops nm.drain feature_set count }
  | NodeCategory.err => { nm with err := mapAdd ops nm.err feature_set count }
  | NodeCategory.fail => { nm with fail := mapAdd ops nm.fail feature_set count }
  | NodeCategory.idle => { nm with idle := mapAdd ops nm.idle feature_set count }
  | NodeCategory.maint => { nm with maint := mapAdd ops nm.maint feature_set count }
  | NodeCategory.mix => { nm with mix := mapAdd ops nm.mix feature_set count }
  | NodeCategory.resv => { nm with resv := mapAdd ops nm.resv feature_set count }
  | NodeCategory.planned => { nm with planned := mapAdd ops nm.planned feature_set count }
  | NodeCategory.other => { nm with other := mapAdd ops nm.other feature_set count }

/-- The twelve categories in the order of the fields of NodesMetrics. -/
def allCategories : List NodeCategory :=
  [NodeCategory.alloc, NodeCategory.comp, NodeCategory.down, NodeCategory.drain,
   NodeCategory.err, NodeCategory.fail, NodeCategory.idle, NodeCategory.maint,
   NodeCategory.mix, NodeCategory.resv, NodeCategory.planned, NodeCategory.other]

/-- A line of the report is well formed when it has at least three fields
once it holds a delimiter. -/
def WellFormedLine (line : Str) : Prop :=
  Contains line ['|'] = true → 3 ≤ (Split '|' line).length

instance (line : Str) : Decidable (WellFormedLine line) := by
  unfold WellFormedLine; infer_instance

/-- The count field of a line, read as the code reads it. -/
def lineCount {F : Type} (ops : Float64Ops F) (line : Str) : F :=
  ParseFloat ops (TrimSpace ((Split '|' line).getD 0 []))

/-- The state token of a line. -/
def lineState (line : Str) : Str := (Split '|' line).getD 1 []

/-- The feature signature of a line. -/
def lineSignature (line : Str) : Str := featureSetOf ((Split '|' line).getD 2 [])

/-- The lines the loop of ParseNodesMetrics acts on: distinct, non-empty and
holding a delimiter. -/
def processedLines (lines : List Str) : List Str :=
  (RemoveDuplicates (sortStrings lines)).filter (fun l => Contains l ['|'])

/-- The effect of the loop body of ParseNodesMetrics on a well-formed line,
written with the fields of the line. -/
def accumulateLine {F : Type} (ops : Float64Ops F) (nm : NodesMetrics F) (line : Str) :
    NodesMetrics F :=
  if Contains line ['|'] then
    addToCategory ops (InitFeatureSet ops nm (lineSignature line)) (classify (lineState line))
      (lineSignature line) (lineCount ops line)
  else nm

/-- A key list after a write under `k`. -/
def addKey (keys : List Str) (k : Str) : List Str := if k ∈ keys then keys else keys ++ [k]

/-- The distinct non-empty strings of a list of lines. -/
def distinctLines (lines : List Str) : List Str :=
  lines.dedup.filter (fun l => decide (l ≠ []))

/-- The scalar labels of the diagnostics report, one for each case of the
switch of ParseSchedulerMetrics. -/
inductive ScalarLabel where
  | st | qs | dbd | lc | mc | cpm | dpm | tbs | tbc | tbh
  deriving DecidableEq

/-- The fixed ordered set of labelled patterns of the specification. -/
def scalarPatterns : List (ScalarLabel × Regexp) :=
  [(ScalarLabel.st, re_st), (ScalarLabel.qs, re_qs), (ScalarLabel.dbd, re_dbd),
   (ScalarLabel.lc, re_lc), (ScalarLabel.mc, re_mc), (ScalarLabel.cpm, re_cpm),
   (ScalarLabel.dpm, re_dpm), (ScalarLabel.tbs, re_tbs), (ScalarLabel.tbc, re_tbc),
   (ScalarLabel.tbh, re_tbh)]

/-- The label of the first pattern of the ordered set that matches. -/
def matchLabel (state : Str) : Option ScalarLabel :=
  match scalarPatterns.find? (fun p => p.2.MatchString state) with
  | some p => some p.1
  | none => none

/-- The text of a line before its first colon. -/
def textBeforeColon (line : Str) : Str := line.takeWhile (fun c => c ≠ ':')

/-- All the text of a line after its first colon. -/
def textAfterColon (line : Str) : Str := (line.dropWhile (fun c => c ≠ ':')).drop 1

/-- The text of a line between its first colon and the next colon, or the end
of the line when there is no other colon. -/
def textBetweenColons (line : Str) : Str := textBeforeColon (textAfterColon line)

/-- The number the code reads on a line: the text between the first two
colons, trimmed and parsed, zero when it is not a number. -/
def valueOf {F : Type} (ops : Float64Ops F) (line : Str) : F :=
  ParseFloat ops (TrimSpace (textBetweenColons line))

/-- What the case of a label does to the variables of the loop, given the
number read on the line. -/
def applyLabel {F : Type} (s : SchedulerLoop F) (v : F) : ScalarLabel → SchedulerLoop F
  | ScalarLabel.st => { s with sm := { s.sm with threads := v } }
  | ScalarLabel.qs => { s with sm := { s.sm with queue_size := v } }
  | ScalarLabel.dbd => { s with sm := { s.sm with dbd_queue_size := v } }
  | ScalarLabel.lc =>
    let s1 : SchedulerLoop F :=
      if s.lc_count = 0 then { s with sm := { s.sm with last_cycle := v }, lc_count := 1 }
      else s
    if s1.lc_count = 1 then { s1 with sm := { s1.sm with backfill_last_cycle := v } } else s1
  | ScalarLabel.mc =>
    let s1 : SchedulerLoop F :=
      if s.mc_count = 0 then { s with sm := { s.sm with mean_cycle := v }, mc_count := 1 }
      else s
    if s1.mc_count = 1 then { s1 with sm := { s1.sm with backfill_mean_cycle := v } } else s1
  | ScalarLabel.cpm => { s with sm := { s.sm with cycle_per_minute := v } }
  | ScalarLabel.dpm => { s with sm := { s.sm with backfill_depth_mean := v } }
  | ScalarLabel.tbs => { s with sm := { s.sm with total_backfilled_jobs_since_start := v } }
  | ScalarLabel.tbc => { s with sm := { s.sm with total_backfilled_jobs_since_cycle := v } }
  | ScalarLabel.tbh => { s with sm := { s.sm with total_backfilled_heterogeneous := v } }

/-- The effect of the loop body of ParseSchedulerMetrics on a line. -/
def scalarStep {F : Type} (ops : Float64Ops F) (s : SchedulerLoop F) (line : Str) :
    SchedulerLoop F :=
  if Contains line [':'] then
    match matchLabel (textBeforeColon line) with
    | some lab => applyLabel s (valueOf ops line) lab
    | none => s
  else s

/-- A line the code recognises under a label: it holds a colon and the switch
takes the case of this label. -/
def isLabelLine (lab : ScalarLabel) (line : Str) : Bool :=
  Contains line [':'] && decide (matchLabel (textBeforeColon line) = some lab)

/-- A recognised `Last cycle` line: it holds a colon and the text before its
first colon matches the expression `lc`. -/
def isLastCycleLine (line : Str) : Bool :=
  Contains line [':'] && re_lc.MatchString (textBeforeColon line)

/-- A recognised `Mean cycle` line: it holds a colon and the text before its
first colon matches the expression `mc`. -/
def isMeanCycleLine (line : Str) : Bool :=
  Contains line [':'] && re_mc.MatchString (textBeforeColon line)

/-- The number of capturing groups of an expression. -/
def groupCount : List Item → Nat
  | [] => 0
  | Item.cap _ :: r => groupCount r + 1
  | Item.lit _ :: r => groupCount r
  | Item.cls _ :: r => groupCount r
  | Item.star _ :: r => groupCount r

/-- The effect of the loop body of ParseRpcStats on a line: the section flags
are updated, then a statistics line is recorded in the tables of the active
section. -/
def rpcStep {F : Type} (ops : Float64Ops F) (s : RpcLoop F) (line : Str) : RpcLoop F :=
  let s1 := rpcSection s line
  match matchItems stat_line_re.toEnd stat_line_re.items line with
  | some [key, c, a, t] =>
    if s1.in_rpc then
      { s1 with
        count_stats := mapSet s1.count_stats key (ParseFloat ops c)
        avg_stats := mapSet s1.avg_stats key (ParseFloat ops a)
        total_stats := mapSet s1.total_stats key (ParseFloat ops t) }
    else if s1.in_rpc_per_user then
      { s1 with
        user_count_stats := mapSet s1.user_count_stats key (ParseFloat ops c)
        user_avg_stats := mapSet s1.user_avg_stats key (ParseFloat ops a)
        user_total_stats := mapSet s1.user_total_stats key (ParseFloat ops t) }
    else s1
  | _ => s1

/-- The field of SchedulerMetrics a label stands for; `Last cycle` and
`Mean cycle` stand for the fields of the main scheduler. -/
def scalarField {F : Type} (sm : SchedulerMetrics F) : ScalarLabel → F
  | ScalarLabel.st => sm.threads
  | ScalarLabel.qs => sm.queue_size
  | ScalarLabel.dbd => sm.dbd_queue_size
  | ScalarLabel.lc => sm.last_cycle
  | ScalarLabel.mc => sm.mean_cycle
  | ScalarLabel.cpm => sm.cycle_per_minute
  | ScalarLabel.dpm => sm.backfill_depth_mean
  | ScalarLabel.tbs => sm.total_backfilled_jobs_since_start
  | ScalarLabel.tbc => sm.total_backfilled_jobs_since_cycle
  | ScalarLabel.tbh => sm.total_backfilled_heterogeneous

/-- The report of the specification with two `Last cycle` lines, valued 100
then 55. -/
def twoCyclesReport : Str := "\tLast cycle: 100\n\tLast cycle: 55".toList

/-- A report with three `Last cycle` lines, valued 100, 55 and 7. -/
def threeCyclesReport : Str := "\tLast cycle: 100\n\tLast cycle: 55\n\tLast cycle: 7".toList

/-- The four lines of the specification with one statistics line in each
section. -/
def rpcReport : List Str :=
  ["Remote Procedure Call statistics by message type".toList,
   "REQUEST_JOB_INFO count:12 ave_time:34 total_time:408".toList,
   "Remote Procedure Call statistics by user".toList,
   "alice count:3 ave_time:10 total_time:30".toList]

/-- A state of the loop of ParseRpcStats inside the user section, with one
entry in the type table of counts. -/
def userSectionState : RpcLoop Nat :=
  { in_rpc := false, in_rpc_per_user := true, count_stats := [("X".toList, 1)],
    avg_stats := [], total_stats := [], user_count_stats := [], user_avg_stats := [],
    user_total_stats := [] }

/-- A report with two lines of each of the labels `Mean cycle` and
`Last cycle`. -/
def cyclesReport : Str :=
  "\tMean cycle: 20\n\tLast cycle: 100\n\tMean cycle: 7\n\tLast cycle: 55".toList

/-- A line that holds one of the two section headers. -/
def isHeaderLine (line : Str) : Bool :=
  Contains line rpcTypeHeader || Contains line rpcUserHeader

/-- A report without section header that holds a line of the statistics
shape. -/
def noHeaderReport : List Str :=
  ["Server thread count: 3".toList, "alice count:3 ave_time:10 total_time:30".toList]

/-- Looking a key up in a map: the value stored under it, if any. -/
def mapFind {F : Type} : FMap F → Str → Option F
  | [], _ => none
  | (k', v) :: m, k => if k' = k then some v else mapFind m k

/-- The identifier of a line of the statistics shape. -/
def statKey (line : Str) : Option Str :=
  match matchItems stat_line_re.toEnd stat_line_re.items line with
  | some (key :: _) => some key
  | _ => none

/-- What the three tables of the type section hold under a key. -/
def typeEntry {F : Type} (s : RpcLoop F) (key : Str) : Option F × Option F × Option F :=
  (mapFind s.count_stats key, mapFind s.avg_stats key, mapFind s.total_stats key)

/-- What the three tables of the user section hold under a key. -/
def userEntry {F : Type} (s : RpcLoop F) (key : Str) : Option F × Option F × Option F :=
  (mapFind s.user_count_stats key, mapFind s.user_avg_stats key,
    mapFind s.user_total_stats key)

/-- The loop body, run on `line` in state `s`, records the line under `key`
in the tables of the type section. -/
def writesType {F : Type} (key : Str) (s : RpcLoop F) (line : Str) : Bool :=
  (rpcSection s line).in_rpc && decide (statKey line = some key)

/-- The loop body, run on `line` in state `s`, records the line under `key`
in the tables of the user section. -/
def writesUser {F : Type} (key : Str) (s : RpcLoop F) (line : Str) : Bool :=
  (!(rpcSection s line).in_rpc && (rpcSection s line).in_rpc_per_user) &&
    decide (statKey line = some key)

/-- No line of the list, read by the loop from state `s` on, is a write in
the sense of `writes`. -/
def noLaterWrite {F : Type} (ops : Float64Ops F) (writes : RpcLoop F → Str → Bool) :
    RpcLoop F → List Str → Bool
  | _, [] => true
  | s, l :: ls => !writes s l && noLaterWrite ops writes (rpcStep ops s l) ls

/-- A user section in which the identifier alice occurs twice, and once more
in a later type section. -/
def repeatedKeyReport : List Str :=
  ["Remote Procedure Call statistics by user".toList,
   "alice count:3 ave_time:10 total_time:30".toList,
   "alice count:5 ave_time:7 total_time:35".toList,
   "Remote Procedure Call statistics by message type".toList,
   "alice count:1 ave_time:1 total_time:1".toList]

/-- The same float64 operations, except that a string that is not a number is
read as the number zero instead of being reported as an error. -/
def readErrorsAsZero {F : Type} (ops : Float64Ops F) : Float64Ops F :=
  { zero := ops.zero, add := ops.add, parseFloat := fun s => some (ParseFloat ops s) }

/-- The fixed literal that stands for an empty feature list in the report. -/
def nullSentinel : Str := "(null)".toList

/-- No map of the value has the sentinel `(null)` among its keys. -/
def noSentinelKey {F : Type} (nm : NodesMetrics F) : Prop :=
  (∀ c, ¬ nullSentinel ∈ mapKeys (catMap nm c)) ∧ ¬ nullSentinel ∈ mapKeys nm.total

/-- A report whose lines have a count that is not a number and the feature
list `(null)`. -/
def oddCountsReport : Str := "x|idle|(null)\n4|idle|(null)\n|alloc|gpu".toList

/-- The strings of a list in the order of their first occurrence, each of
them once. -/
def firstOccurrences : List Str → List Str
  | [] => []
  | v :: s => v :: (firstOccurrences s).filter (fun x => decide (x ≠ v))

/-- Ordered prefix matching over any table of prefixes. -/
def classifyWith (table : List (String × NodeCategory)) (state : Str) : NodeCategory :=
  match table.find? (fun p => p.1.toList.isPrefixOf state) with
  | some p => p.2
  | none => NodeCategory.other

/-- A report with a single `Last cycle` line. -/
def oneCycleReport : Str := "Server thread count: 3\n\tLast cycle: 42\n\tMean cycle: 8".toList

/-- The labels whose pattern starts with `^[\s]+`. -/
def indentedLabels : List ScalarLabel :=
  [ScalarLabel.lc, ScalarLabel.mc, ScalarLabel.cpm, ScalarLabel.dpm, ScalarLabel.tbs,
   ScalarLabel.tbc, ScalarLabel.tbh]

/-- A report whose only lines are two `Last cycle` lines that are not
indented. -/
def unindentedCyclesReport : Str := "Last cycle: 100\nLast cycle: 55".toList

/-- A report whose only line is an indented `Server thread` line. -/
def indentedThreadReport : Str := " Server thread count: 3".toList

/-- Two node reports with the same lines in different orders. -/
def shuffledReport : List Str :=
  ["3|idle|b".toList, [], "5|alloc|a".toList, "2|alloc#|a".toList]

/-! ## a model of float64 on the non-negative integers -/

/-- A float64 whose value is a non-negative integer, or the positive
infinity. -/
inductive Float64 where
  | fin (n : Nat)
  | inf
  deriving DecidableEq

/-- The number of binary digits of `n`, for `n` below two to the power
`fuel`. -/
def bitLength : Nat → Nat → Nat
  | 0, _ => 0
  | fuel + 1, n => if n = 0 then 0 else bitLength fuel (n / 2) + 1

/-- Rounding of a natural number to a significand of 53 binary digits, to the
nearest such number and to the even significand on a tie: the IEEE 754 rounding
that float64 arithmetic and strconv.ParseFloat apply. -/
def roundFloat64 (n : Nat) : Nat :=
  if n < 2 ^ 53 then n
  else
    let e := bitLength (n + 1) n - 53
    let q := n / 2 ^ e
    let r := n % 2 ^ e
    if 2 * r < 2 ^ e then q * 2 ^ e
    else if 2 ^ e < 2 * r then (q + 1) * 2 ^ e
    else if q % 2 = 0 then q * 2 ^ e
    else (q + 1) * 2 ^ e

/-- The float64 nearest to a natural number; a number that rounds to two to
the power 1024 or more, that is to a number of more than 1024 binary digits,
overflows to the infinity. -/
def Float64.ofNat (n : Nat) : Float64 :=
  if bitLength (roundFloat64 n + 1) (roundFloat64 n) ≤ 1024 then Float64.fin (roundFloat64 n)
  else Float64.inf

/-- The float64 addition `a + b`. -/
def Float64.add : Float64 → Float64 → Float64
  | Float64.fin a, Float64.fin b => Float64.ofNat (a + b)
  | _, _ => Float64.inf

/-- The number a float64 stands for; the infinity stands for no number and is
given the value zero. -/
def Float64.toNat : Float64 → Nat
  | Float64.fin n => n
  | Float64.inf => 0

/-- The error of strconv.ParseFloat. -/
inductive NumError where
  | ErrSyntax
  | ErrRange
  deriving DecidableEq

/-- The exponent part of a numeral, `e` or `E`, an optional `+` and decimal
digits: the value of the exponent, if the text has this form. -/
def exponentPart : Str → Option Nat
  | [] => some 0
  | c :: r =>
    if c = 'e' ∨ c = 'E' then
      let digits := match r with
        | '+' :: r1 => r1
        | _ => r
      if digits ≠ [] ∧ digits.all reDigit = true then some (digitsValue 0 digits) else none
    else none

/-- The Go function strconv.ParseFloat(s, 64) on the numerals made of decimal
digits and an optional non-negative exponent: the nearest float64, with the
error ErrRange and the infinity when the numeral is too large (a numeral with
an exponent above 308 and a mantissa that is not zero always is).  A string
that holds no digit at its start, or holds after its digits a character that
cannot occur in a number, is given the error ErrSyntax and the value zero, as
strconv.ParseFloat does.  Signs, fractions, negative exponents, underscores,
hexadecimal numerals and the words Inf and NaN are not modelled: the model is
only evaluated on strings without them. -/
def strconvParseFloat (s : Str) : Float64 × Option NumError :=
  let mantissa := s.takeWhile reDigit
  if mantissa = [] then (Float64.fin 0, some NumError.ErrSyntax)
  else
    match exponentPart (s.dropWhile reDigit) with
    | none => (Float64.fin 0, some NumError.ErrSyntax)
    | some e =>
      let m := digitsValue 0 mantissa
      let f := if m = 0 then Float64.fin 0
        else if 308 < e then Float64.inf
        else Float64.ofNat (m * 10 ^ e)
      (f, if f = Float64.inf then some NumError.ErrRange else none)

/-- The float64 operations on this model: the value the code keeps from
strconv.ParseFloat is the first result, whatever the error. -/
def float64Ops : Float64Ops Float64 :=
  { zero := Float64.fin 0
    add := Float64.add
    parseFloat := fun s =>
      match strconvParseFloat s with
      | (_, some NumError.ErrSyntax) => none
      | (f, _) => some f }

/-- The numbers the loop of ParseNodesMetrics adds under the signature `g` in
the map of the category `c`, in the order in which it adds them, when `count`
gives the number read on a line. -/
def countsAddedWith {F : Type} (count : Str → F) (lines : List Str) (g : Str)
    (c : NodeCategory) : List F :=
  ((RemoveDuplicates (sortStrings lines)).filter
    (fun l => (Contains l ['|'] && decide (lineSignature l = g)) &&
      decide (classify (lineState l) = c))).map count

/-- The numbers the loop of ParseNodesMetrics adds under the signature `g` in
the map of the category `c`. -/
def countsAdded {F : Type} (ops : Float64Ops F) (lines : List Str) (g : Str)
    (c : NodeCategory) : List F :=
  countsAddedWith (lineCount ops) lines g c

/-- Every addition of the accumulation `a + x + y + ...` is exact: the number
its result stands for is the sum of the numbers its operands stand for. -/
def ExactFold {F M : Type} [AddCommMonoid M] (ops : Float64Ops F) (val : F → M) :
    F → List F → Prop
  | _, [] => True
  | a, x :: xs => val (ops.add a x) = val a + val x ∧ ExactFold ops val (ops.add a x) xs

/-- Whether every addition of an accumulation is exact can be decided when
equality of the numbers can. -/
def decExactFold {F M : Type} [AddCommMonoid M] [DecidableEq M] (ops : Float64Ops F)
    (val : F → M) : ∀ (a : F) (xs : List F), Decidable (ExactFold ops val a xs)
  | _, [] => isTrue trivial
  | a, x :: xs =>
    match decEq (val (ops.add a x)) (val a + val x), decExactFold ops val (ops.add a x) xs with
    | isTrue h1, isTrue h2 => isTrue ⟨h1, h2⟩
    | isFalse h1, _ => isFalse fun hh => h1 hh.1
    | _, isFalse h2 => isFalse fun hh => h2 hh.2

instance {F M : Type} [AddCommMonoid M] [DecidableEq M] (ops : Float64Ops F) (val : F → M)
    (a : F) (xs : List F) : Decidable (ExactFold ops val a xs) :=
  decExactFold ops val a xs

/-- Two lines of the same category and signature whose counts add up to a
number that float64 cannot hold. -/
def roundingReport : Str := "1|alloc|a\n10999999999999988|alloc|a".toList

/-- Three lines of the same signature in three categories, with one count equal
to two to the power 53. -/
def threeCategoriesReport : Str := "1|idle|a\n1|mix|a\n9007199254740992|alloc|a".toList

/-- A report with integer counts far below two to the power 53. -/
def smallCountsReport : Str := "5|alloc|b,a\n3|idle|a,b\n5|alloc|b,a\n2|alloc#|a,b\nx\n".toList

/-- The variables of the loop of ParseSchedulerMetrics before its first
line. -/
def initSchedulerLoop {F : Type} (ops : Float64Ops F) : SchedulerLoop F :=
  { sm := zeroSchedulerMetrics ops, lc_count := 0, mc_count := 0 }

/-! # Auxiliary lemmas -/

/-! ## the order of sort.Strings -/

theorem strLe_refl (a : Str) : strLe a a = true := by
  induction a with
  | nil => rfl
  | cons c cs ih => simp [strLe, ih]

theorem strLe_total (a b : Str) : strLe a b = true ∨ strLe b a = true := by
  induction a generalizing b with
  | nil => exact Or.inl rfl
  | cons c cs ih =>
    cases b with
    | nil => exact Or.inr rfl
    | cons d ds =>
      rcases lt_trichotomy c d with h | h | h
      · left; simp [strLe, h]
      · subst h; simpa [strLe] using ih ds
      · right; simp [strLe, h]

theorem strLe_antisymm (a b : Str) (h1 : strLe a b = true) (h2 : strLe b a = true) :
    a = b := by
  induction a generalizing b with
  | nil =>
    cases b with
    | nil => rfl
    | cons d ds => simp [strLe] at h2
  | cons c cs ih =>
    cases b with
    | nil => simp [strLe] at h1
    | cons d ds =>
      rcases lt_trichotomy c d with h | h | h
      · simp [strLe, h, lt_asymm h] at h2
      · subst h
        simp [strLe] at h1 h2
        rw [ih ds h1 h2]
      · simp [strLe, h, lt_asymm h] at h1

theorem strLe_trans (a b c : Str) (h1 : strLe a b = true) (h2 : strLe b c = true) :
    strLe a c = true := by
  induction a generalizing b c with
  | nil => rfl
  | cons x xs ih =>
    cases b with
    | nil => simp [strLe] at h1
    | cons y ys =>
      cases c with
      | nil => simp [strLe] at h2
      | cons z zs =>
        rcases lt_trichotomy x y with hxy | hxy | hxy
        · rcases lt_trichotomy y z with hyz | hyz | hyz
          · simp [strLe, lt_trans hxy hyz]
          · subst hyz; simp [strLe, hxy]
          · simp [strLe, hyz, lt_asymm hyz] at h2
        · subst hxy
          rcases lt_trichotomy x z with hxz | hxz | hxz
          · simp [strLe, hxz]
          · subst hxz
            simp [strLe] at h1 h2 ⊢
            exact ih ys zs h1 h2
          · simp [strLe, hxz, lt_asymm hxz] at h2
        · simp [strLe, hxy, lt_asymm hxy] at h1


theorem orderedInsert_eq (a : Str) (l : List Str) :
    orderedInsert a l = List.orderedInsert StrLe a l := by
  induction l with
  | nil => rfl
  | cons b l ih =>
    by_cases h : strLe a b = true
    · simp [orderedInsert, List.orderedInsert, StrLe, h]
    · simp [orderedInsert, List.orderedInsert, StrLe, h, ih]

theorem sortStrings_eq (l : List Str) : sortStrings l = List.insertionSort StrLe l := by
  induction l with
  | nil => rfl
  | cons a l ih => simp [sortStrings, List.insertionSort, ih, orderedInsert_eq]

theorem sortStrings_perm (l : List Str) : (sortStrings l).Perm l := by
  rw [sortStrings_eq]; exact List.perm_insertionSort StrLe l

theorem sortStrings_sorted (l : List Str) : List.Sorted StrLe (sortStrings l) := by
  haveI : IsTotal Str StrLe := ⟨strLe_total⟩
  haveI : IsTrans Str StrLe := ⟨strLe_trans⟩
  rw [sortStrings_eq]; exact List.sorted_insertionSort StrLe l

theorem eq_of_perm_of_sorted_strLe {l₁ l₂ : List Str} (hp : l₁.Perm l₂)
    (h₁ : List.Sorted StrLe l₁) (h₂ : List.Sorted StrLe l₂) : l₁ = l₂ := by
  haveI : IsAntisymm Str StrLe := ⟨strLe_antisymm⟩
  exact List.eq_of_perm_of_sorted hp h₁ h₂

theorem mem_sortStrings (x : Str) (l : List Str) : x ∈ sortStrings l ↔ x ∈ l :=
  (sortStrings_perm l).mem_iff

theorem sortStrings_congr {l₁ l₂ : List Str} (h : l₁.Perm l₂) :
    sortStrings l₁ = sortStrings l₂ :=
  eq_of_perm_of_sorted_strLe
    (((sortStrings_perm l₁).trans h).trans (sortStrings_perm l₂).symm)
    (sortStrings_sorted l₁) (sortStrings_sorted l₂)

/-! ## RemoveDuplicates -/


theorem RemoveDuplicatesLoop_eq (m t s : List Str) :
    RemoveDuplicatesLoop m t s = t ++ freshOnes m s := by
  induction s generalizing m t with
  | nil => simp [RemoveDuplicatesLoop, freshOnes]
  | cons v s ih =>
    by_cases h1 : v ∈ m
    · simp [RemoveDuplicatesLoop, freshOnes, h1, ih]
    · cases v with
      | nil => simp [RemoveDuplicatesLoop, freshOnes, h1, ih]
      | cons c cs => simp [RemoveDuplicatesLoop, freshOnes, h1, ih]

theorem RemoveDuplicates_eq (s : List Str) : RemoveDuplicates s = freshOnes [] s := by
  simp [RemoveDuplicates, RemoveDuplicatesLoop_eq]

theorem freshOnes_sublist (m s : List Str) : (freshOnes m s).Sublist s := by
  induction s generalizing m with
  | nil => simp [freshOnes]
  | cons v s ih =>
    unfold freshOnes
    split
    · exact (ih _).cons₂ v
    · exact (ih _).cons v

theorem mem_freshOnes (m s : List Str) (x : Str) :
    x ∈ freshOnes m s ↔ x ∈ s ∧ ¬ x ∈ m ∧ x ≠ [] := by
  induction s generalizing m with
  | nil => simp [freshOnes]
  | cons v s ih =>
    unfold freshOnes
    split
    · rename_i h
      simp only [List.mem_cons, ih]
      constructor
      · rintro (rfl | ⟨h1, h2, h3⟩)
        · exact ⟨Or.inl rfl, h.1, h.2⟩
        · exact ⟨Or.inr h1, fun hm => h2 (Or.inr hm), h3⟩
      · rintro ⟨h1 | h1, h2, h3⟩
        · exact Or.inl h1
        · by_cases hx : x = v
          · exact Or.inl hx
          · exact Or.inr ⟨h1, fun hm => hm.elim hx h2, h3⟩
    · rename_i h
      simp only [List.mem_cons, ih]
      constructor
      · rintro ⟨h1, h2, h3⟩
        exact ⟨Or.inr h1, h2, h3⟩
      · rintro ⟨h1 | h1, h2, h3⟩
        · subst h1; exact absurd ⟨h2, h3⟩ h
        · exact ⟨h1, h2, h3⟩

theorem freshOnes_nodup (m s : List Str) : (freshOnes m s).Nodup := by
  induction s generalizing m with
  | nil => simp [freshOnes]
  | cons v s ih =>
    unfold freshOnes
    split
    · refine List.nodup_cons.2 ⟨?_, ih _⟩
      intro hv
      exact ((mem_freshOnes _ _ _).1 hv).2.1 (List.mem_cons_self _ _)
    · exact ih _

theorem RemoveDuplicates_sublist (s : List Str) : (RemoveDuplicates s).Sublist s := by
  rw [RemoveDuplicates_eq]; exact freshOnes_sublist [] s

theorem RemoveDuplicates_nodup (s : List Str) : (RemoveDuplicates s).Nodup := by
  rw [RemoveDuplicates_eq]; exact freshOnes_nodup [] s

theorem mem_RemoveDuplicates (s : List Str) (x : Str) :
    x ∈ RemoveDuplicates s ↔ x ∈ s ∧ x ≠ [] := by
  rw [RemoveDuplicates_eq, mem_freshOnes]; simp

/-- The deduplicated, sorted lines depend only on which strings occur. -/
theorem lines_uniq_congr {l₁ l₂ : List Str} (h : ∀ x, x ∈ l₁ ↔ x ∈ l₂) :
    RemoveDuplicates (sortStrings l₁) = RemoveDuplicates (sortStrings l₂) := by
  apply eq_of_perm_of_sorted_strLe
  · apply (List.perm_ext_iff_of_nodup (RemoveDuplicates_nodup _) (RemoveDuplicates_nodup _)).2
    intro x
    simp [mem_RemoveDuplicates, mem_sortStrings, h x]
  · exact (sortStrings_sorted l₁).sublist (RemoveDuplicates_sublist _)
  · exact (sortStrings_sorted l₂).sublist (RemoveDuplicates_sublist _)

/-! ## strings and regular expressions -/

theorem Contains_singleton (c : Char) (s : Str) : Contains s [c] = true ↔ c ∈ s := by
  induction s with
  | nil => simp [Contains]
  | cons d ds ih =>
    simp only [Contains, Bool.or_eq_true, ih, List.mem_cons]
    constructor
    · rintro (h | h)
      · left
        simpa [List.isPrefixOf] using h
      · exact Or.inr h
    · rintro (h | h)
      · left; subst h; simp [List.isPrefixOf]
      · exact Or.inr h

theorem Split_of_not_mem (c : Char) (s : Str) (h : ¬ c ∈ s) : Split c s = [s] := by
  induction s with
  | nil => rfl
  | cons d ds ih =>
    simp only [List.mem_cons, not_or] at h
    have hd : ¬ d = c := fun e => h.1 e.symm
    simp [Split, hd, ih h.2]

theorem Split_ne_nil (c : Char) (s : Str) : Split c s ≠ [] := by
  cases s with
  | nil => simp [Split]
  | cons d ds =>
    unfold Split
    split
    · simp
    · split <;> simp

theorem mem_of_Split_cons_cons (c : Char) (s a b : Str) (r : List Str)
    (h : Split c s = a :: b :: r) : c ∈ s := by
  by_contra hc
  rw [Split_of_not_mem c s hc] at h
  simp at h

theorem MatchString_rePrefix (p : String) (state : Str) :
    (rePrefix p).MatchString state = p.toList.isPrefixOf state := by
  unfold Regexp.MatchString rePrefix
  simp only [matchItems]
  cases h : p.toList.isPrefixOf state <;> simp

/-! ## one line of the node report -/

theorem ParseNodesLine_fields {F : Type} (ops : Float64Ops F) (nm : NodesMetrics F)
    (line field0 state field2 : Str) (rest : List Str)
    (h : Split '|' line = field0 :: state :: field2 :: rest) :
    ParseNodesLine ops nm line =
      some (addToCategory ops (InitFeatureSet ops nm (featureSetOf field2)) (classify state)
        (featureSetOf field2) (ParseFloat ops (TrimSpace field0))) := by
  have hc : Contains line ['|'] = true :=
    (Contains_singleton _ _).2 (mem_of_Split_cons_cons _ _ _ _ _ h)
  simp only [ParseNodesLine, hc, if_true, h, MatchString_rePrefix]
  simp only [List.getElem?_cons_zero, List.getElem?_cons_succ]
  simp only [classify, prefixTable, List.find?]
  generalize ("alloc".toList.isPrefixOf state) = b1
  generalize ("comp".toList.isPrefixOf state) = b2
  generalize ("down".toList.isPrefixOf state) = b3
  generalize ("drain".toList.isPrefixOf state) = b4
  generalize ("fail".toList.isPrefixOf state) = b5
  generalize ("err".toList.isPrefixOf state) = b6
  generalize ("idle".toList.isPrefixOf state) = b7
  generalize ("maint".toList.isPrefixOf state) = b8
  generalize ("mix".toList.isPrefixOf state) = b9
  generalize ("res".toList.isPrefixOf state) = b10
  generalize ("planned".toList.isPrefixOf state) = b11
  cases b1
  swap
  · simp [addToCategory]
  cases b2
  swap
  · simp [addToCategory]
  cases b3
  swap
  · simp [addToCategory]
  cases b4
  swap
  · simp [addToCategory]
  cases b5
  swap
  · simp [addToCategory]
  cases b6
  swap
  · simp [addToCategory]
  cases b7
  swap
  · simp [addToCategory]
  cases b8
  swap
  · simp [addToCategory]
  cases b9
  swap
  · simp [addToCategory]
  cases b10
  swap
  · simp [addToCategory]
  cases b11 <;> simp [addToCategory]

theorem ParseNodesLine_no_delimiter {F : Type} (ops : Float64Ops F) (nm : NodesMetrics F)
    (line : Str) (h : Contains line ['|'] = false) : ParseNodesLine ops nm line = some nm := by
  simp [ParseNodesLine, h]

/-! ## maps -/

theorem mapKeys_mapSet {F : Type} (m : FMap F) (k : Str) (v : F) :
    mapKeys (mapSet m k v) = addKey (mapKeys m) k := by
  induction m with
  | nil => simp [mapSet, mapKeys, addKey]
  | cons p m ih =>
    obtain ⟨k', v'⟩ := p
    by_cases h : k' = k
    · subst h
      simp only [mapSet, if_true, mapKeys, List.map_cons, addKey, List.mem_cons, true_or]
    · have h' : ¬ k = k' := fun e => h e.symm
      simp only [mapKeys, addKey] at ih
      simp only [mapSet, h, if_false, mapKeys, List.map_cons, addKey, List.mem_cons, h',
        false_or, ih]
      by_cases hm : k ∈ List.map Prod.fst m
      · rw [if_pos hm, if_pos hm]
      · rw [if_neg hm, if_neg hm]; rfl

theorem mapGet_mapSet {F : Type} (z : F) (m : FMap F) (k : Str) (v : F) (g : Str) :
    mapGet z (mapSet m k v) g = if k = g then v else mapGet z m g := by
  induction m with
  | nil => simp [mapSet, mapGet]
  | cons p m ih =>
    obtain ⟨k', v'⟩ := p
    by_cases h : k' = k
    · subst h
      by_cases hg : k' = g <;> simp [mapSet, mapGet, hg]
    · by_cases hg : k' = g
      · subst hg
        have h' : ¬ k = k' := fun e => h e.symm
        simp [mapSet, mapGet, h, h']
      · simp [mapSet, mapGet, h, hg, ih]

theorem addKey_idem (keys : List Str) (k : Str) : addKey (addKey keys k) k = addKey keys k := by
  unfold addKey
  by_cases h : k ∈ keys <;> simp [h]

theorem mem_addKey (keys : List Str) (k g : Str) : g ∈ addKey keys k ↔ g ∈ keys ∨ g = k := by
  unfold addKey
  by_cases h : k ∈ keys
  · simp only [h, if_true]
    constructor
    · exact Or.inl
    · rintro (h1 | h1)
      · exact h1
      · exact h1 ▸ h
  · simp [h]

theorem mem_foldl_addKey (sigs keys : List Str) (g : Str) :
    g ∈ sigs.foldl addKey keys ↔ g ∈ keys ∨ g ∈ sigs := by
  induction sigs generalizing keys with
  | nil => simp
  | cons s sigs ih =>
    simp only [List.foldl_cons, ih, mem_addKey, List.mem_cons]
    tauto

/-! ## the loop of ParseNodesMetrics -/

theorem getD_of_Split_three (line : Str) (h : 3 ≤ (Split '|' line).length) :
    ∃ rest, Split '|' line =
      (Split '|' line).getD 0 [] :: lineState line :: (Split '|' line).getD 2 [] :: rest := by
  unfold lineState
  rcases hs : Split '|' line with _ | ⟨a, _ | ⟨b, _ | ⟨c, r⟩⟩⟩
  · rw [hs] at h; simp at h
  · rw [hs] at h; simp at h
  · rw [hs] at h; simp at h
  · exact ⟨r, by simp⟩

theorem ParseNodesLine_wellFormed {F : Type} (ops : Float64Ops F) (nm : NodesMetrics F)
    (line : Str) (h : WellFormedLine line) :
    ParseNodesLine ops nm line = some (accumulateLine ops nm line) := by
  unfold accumulateLine
  cases hc : Contains line ['|']
  · simp [ParseNodesLine_no_delimiter ops nm line hc]
  · obtain ⟨rest, hs⟩ := getD_of_Split_three line (h hc)
    rw [ParseNodesLine_fields ops nm line _ _ _ rest hs]
    simp [lineSignature, lineCount]

theorem ParseNodesLoop_wellFormed {F : Type} (ops : Float64Ops F) (nm : NodesMetrics F)
    (ls : List Str) (h : ∀ l ∈ ls, WellFormedLine l) :
    ParseNodesLoop ops nm ls = some (ls.foldl (accumulateLine ops) nm) := by
  induction ls generalizing nm with
  | nil => rfl
  | cons l ls ih =>
    have hl := ParseNodesLine_wellFormed ops nm l (h l (List.mem_cons_self _ _))
    simp only [ParseNodesLoop, hl, List.foldl_cons]
    exact ih _ (fun x hx => h x (List.mem_cons_of_mem _ hx))

theorem catMap_InitFeatureSet {F : Type} (ops : Float64Ops F) (nm : NodesMetrics F)
    (fs : Str) (c : NodeCategory) :
    catMap (InitFeatureSet ops nm fs) c =
      mapSet (catMap nm c) fs (mapGet ops.zero (catMap nm c) fs) := by
  cases c <;> rfl

theorem catMap_addToCategory {F : Type} (ops : Float64Ops F) (nm : NodesMetrics F)
    (c' : NodeCategory) (fs : Str) (v : F) (c : NodeCategory) :
    catMap (addToCategory ops nm c' fs v) c =
      if c' = c then mapAdd ops (catMap nm c) fs v else catMap nm c := by
  cases c' <;> cases c <;> rfl

theorem total_addToCategory {F : Type} (ops : Float64Ops F) (nm : NodesMetrics F)
    (c' : NodeCategory) (fs : Str) (v : F) : (addToCategory ops nm c' fs v).total = nm.total := by
  cases c' <;> rfl

theorem mapKeys_catMap_accumulateLine {F : Type} (ops : Float64Ops F) (nm : NodesMetrics F)
    (line : Str) (c : NodeCategory) :
    mapKeys (catMap (accumulateLine ops nm line) c) =
      if Contains line ['|'] then addKey (mapKeys (catMap nm c)) (lineSignature line)
      else mapKeys (catMap nm c) := by
  unfold accumulateLine
  cases hc : Contains line ['|']
  · simp
  · simp only [if_true, catMap_addToCategory, catMap_InitFeatureSet]
    split
    · simp [mapAdd, mapKeys_mapSet, addKey_idem]
    · simp [mapKeys_mapSet]

theorem mapKeys_total_accumulateLine {F : Type} (ops : Float64Ops F) (nm : NodesMetrics F)
    (line : Str) :
    mapKeys (accumulateLine ops nm line).total =
      if Contains line ['|'] then addKey (mapKeys nm.total) (lineSignature line)
      else mapKeys nm.total := by
  unfold accumulateLine
  cases hc : Contains line ['|']
  · simp
  · simp [total_addToCategory, InitFeatureSet, mapKeys_mapSet]

theorem mapGet_catMap_accumulateLine {F : Type} (ops : Float64Ops F) (nm : NodesMetrics F)
    (line : Str) (c : NodeCategory) (g : Str) :
    mapGet ops.zero (catMap (accumulateLine ops nm line) c) g =
      if Contains line ['|'] = true ∧ lineSignature line = g ∧ classify (lineState line) = c
      then ops.add (mapGet ops.zero (catMap nm c) g) (lineCount ops line)
      else mapGet ops.zero (catMap nm c) g := by
  unfold accumulateLine
  cases hc : Contains line ['|']
  · simp
  · simp only [if_true, catMap_addToCategory, catMap_InitFeatureSet, true_and]
    by_cases h1 : classify (lineState line) = c
    · by_cases h2 : lineSignature line = g
      · simp [h1, h2, mapAdd, mapGet_mapSet]
      · simp [h1, h2, mapAdd, mapGet_mapSet]
    · by_cases h2 : lineSignature line = g
      · simp [h1, h2, mapGet_mapSet]
      · simp [h1, h2, mapGet_mapSet]

theorem mapKeys_catMap_foldl {F : Type} (ops : Float64Ops F) (nm : NodesMetrics F)
    (ls : List Str) (c : NodeCategory) :
    mapKeys (catMap (ls.foldl (accumulateLine ops) nm) c) =
      ((ls.filter (fun l => Contains l ['|'])).map lineSignature).foldl addKey
        (mapKeys (catMap nm c)) := by
  induction ls generalizing nm with
  | nil => rfl
  | cons l ls ih =>
    rw [List.foldl_cons, ih, mapKeys_catMap_accumulateLine]
    cases hc : Contains l ['|'] <;> simp [List.filter_cons, hc]

theorem mapKeys_total_foldl {F : Type} (ops : Float64Ops F) (nm : NodesMetrics F)
    (ls : List Str) :
    mapKeys (ls.foldl (accumulateLine ops) nm).total =
      ((ls.filter (fun l => Contains l ['|'])).map lineSignature).foldl addKey
        (mapKeys nm.total) := by
  induction ls generalizing nm with
  | nil => rfl
  | cons l ls ih =>
    rw [List.foldl_cons, ih, mapKeys_total_accumulateLine]
    cases hc : Contains l ['|'] <;> simp [List.filter_cons, hc]

theorem mapGet_catMap_foldl {F : Type} (ops : Float64Ops F) (nm : NodesMetrics F)
    (ls : List Str) (c : NodeCategory) (g : Str) :
    mapGet ops.zero (catMap (ls.foldl (accumulateLine ops) nm) c) g =
      ((ls.filter (fun l => (Contains l ['|'] && decide (lineSignature l = g)) &&
          decide (classify (lineState l) = c))).map (lineCount ops)).foldl ops.add
        (mapGet ops.zero (catMap nm c) g) := by
  induction ls generalizing nm with
  | nil => rfl
  | cons l ls ih =>
    rw [List.foldl_cons, ih, mapGet_catMap_accumulateLine]
    by_cases h : Contains l ['|'] = true ∧ lineSignature l = g ∧ classify (lineState l) = c
    · have hf : ((Contains l ['|'] && decide (lineSignature l = g)) &&
          decide (classify (lineState l) = c)) = true := by
        simp [h.1, h.2.1, h.2.2]
      rw [if_pos h, List.filter_cons, if_pos hf]
      rfl
    · have hf : ¬ ((Contains l ['|'] && decide (lineSignature l = g)) &&
          decide (classify (lineState l) = c)) = true := by
        intro hh
        simp only [Bool.and_eq_true, decide_eq_true_eq] at hh
        exact h ⟨hh.1.1, hh.1.2, hh.2⟩
      rw [if_neg h, List.filter_cons, if_neg hf]

theorem mem_of_mapKeys {F : Type} (z : F) (m : FMap F) (g : Str) (h : g ∈ mapKeys m) :
    (g, mapGet z m g) ∈ m := by
  induction m with
  | nil => simp [mapKeys] at h
  | cons p m ih =>
    obtain ⟨k, v⟩ := p
    by_cases hk : k = g
    · subst hk; simp [mapGet]
    · have hg : g ∈ mapKeys m := by
        simp only [mapKeys, List.map_cons, List.mem_cons] at h
        rcases h with h | h
        · exact absurd h.symm hk
        · exact h
      simp only [mapGet, hk, if_false, List.mem_cons]
      exact Or.inr (ih hg)

theorem lines_uniq_wellFormed (lines : List Str) (h : ∀ l ∈ lines, WellFormedLine l) :
    ∀ l ∈ RemoveDuplicates (sortStrings lines), WellFormedLine l := by
  intro l hl
  exact h l ((mem_sortStrings _ _).1 ((mem_RemoveDuplicates _ _).1 hl).1)

theorem ParseNodesMetrics_wellFormed {F : Type} (ops : Float64Ops F) (input : Str)
    (h : ∀ l ∈ Split '\n' input, WellFormedLine l) :
    ParseNodesMetrics ops input =
      some ((RemoveDuplicates (sortStrings (Split '\n' input))).foldl (accumulateLine ops)
        (emptyNodesMetrics F)) := by
  unfold ParseNodesMetrics ParseNodesLines
  exact ParseNodesLoop_wellFormed ops _ _ (lines_uniq_wellFormed _ h)


/-! ## conservation -/

theorem foldl_exactOps_add {F : Type} [AddCommMonoid F] (parse : Str → Option F) (a : F)
    (l : List F) : l.foldl (exactOps parse).add a = a + l.sum := by
  induction l generalizing a with
  | nil => simp
  | cons b l ih =>
    rw [List.foldl_cons, ih, List.sum_cons]
    show a + b + l.sum = a + (b + l.sum)
    rw [add_assoc]

theorem sum_over_categories {F : Type} [AddCommMonoid F] (cnt : Str → F) (q : Str → Bool)
    (ls : List Str) :
    (allCategories.map (fun c =>
      ((ls.filter (fun l => q l && decide (classify (lineState l) = c))).map cnt).sum)).sum =
      ((ls.filter q).map cnt).sum := by
  induction ls with
  | nil => simp [allCategories]
  | cons l ls ih =>
    cases hq : q l
    · simpa [List.filter_cons, hq] using ih
    · simp only [allCategories, List.map_cons, List.map_nil, List.sum_cons, List.sum_nil,
        List.filter_cons, hq, Bool.true_and, if_true] at ih ⊢
      rw [← ih]
      cases hc : classify (lineState l) <;> simp <;> abel

theorem lines_uniq_perm_distinctLines (lines : List Str) :
    (RemoveDuplicates (sortStrings lines)).Perm (distinctLines lines) := by
  apply (List.perm_ext_iff_of_nodup (RemoveDuplicates_nodup _) ?_).2
  · intro x
    simp [mem_RemoveDuplicates, mem_sortStrings, distinctLines]
  · exact (List.nodup_dedup lines).filter _


/-! ## lines of the diagnostics report -/

theorem Split_eq_takeWhile (c : Char) (s : Str) :
    Split c s = s.takeWhile (fun x => x ≠ c) ::
      (if c ∈ s then Split c ((s.dropWhile (fun x => x ≠ c)).drop 1) else []) := by
  induction s with
  | nil => simp [Split]
  | cons d ds ih =>
    by_cases h : d = c
    · subst h
      simp [Split, List.takeWhile, List.dropWhile]
    · have h' : ¬ c = d := fun e => h e.symm
      rw [Split, if_neg h, ih]
      simp [List.takeWhile, List.dropWhile, h, h']

theorem Split_zero (c : Char) (s : Str) :
    (Split c s)[0]? = some (s.takeWhile (fun x => x ≠ c)) := by
  rw [Split_eq_takeWhile]; simp

theorem Split_one (c : Char) (s : Str) (h : c ∈ s) :
    (Split c s)[1]? =
      some (((s.dropWhile (fun x => x ≠ c)).drop 1).takeWhile (fun x => x ≠ c)) := by
  rw [Split_eq_takeWhile, if_pos h, List.getElem?_cons_succ, Split_zero]

theorem lineValue_eq {F : Type} (ops : Float64Ops F) (line : Str)
    (h : Contains line [':'] = true) : lineValue ops line = some (valueOf ops line) := by
  unfold lineValue
  rw [Split_one ':' line ((Contains_singleton _ _).1 h)]
  rfl

theorem SplitColonValueToFloat_eq {F : Type} (ops : Float64Ops F) (line : Str)
    (h : Contains line [':'] = true) :
    SplitColonValueToFloat ops line = some (valueOf ops line) := by
  have hm : ':' ∈ line := (Contains_singleton _ _).1 h
  have hl : ¬ (Split ':' line).length = 1 := by
    rw [Split_eq_takeWhile, if_pos hm]
    have := Split_ne_nil ':' ((line.dropWhile (fun x => x ≠ ':')).drop 1)
    cases hs : Split ':' ((line.dropWhile (fun x => x ≠ ':')).drop 1) with
    | nil => exact absurd hs this
    | cons a r => simp
  unfold SplitColonValueToFloat
  simp only [hl, if_false, Split_one ':' line hm]
  rfl

theorem ParseSchedulerLine_eq {F : Type} (ops : Float64Ops F) (s : SchedulerLoop F)
    (line : Str) : ParseSchedulerLine ops s line = some (scalarStep ops s line) := by
  unfold ParseSchedulerLine scalarStep
  cases hc : Contains line [':']
  · simp
  · simp only [if_true, Split_zero, lineValue_eq ops line hc, Option.map_some']
    simp only [matchLabel, scalarPatterns, List.find?, textBeforeColon]
    generalize re_st.MatchString (List.takeWhile (fun x => x ≠ ':') line) = b1
    generalize re_qs.MatchString (List.takeWhile (fun x => x ≠ ':') line) = b2
    generalize re_dbd.MatchString (List.takeWhile (fun x => x ≠ ':') line) = b3
    generalize re_lc.MatchString (List.takeWhile (fun x => x ≠ ':') line) = b4
    generalize re_mc.MatchString (List.takeWhile (fun x => x ≠ ':') line) = b5
    generalize re_cpm.MatchString (List.takeWhile (fun x => x ≠ ':') line) = b6
    generalize re_dpm.MatchString (List.takeWhile (fun x => x ≠ ':') line) = b7
    generalize re_tbs.MatchString (List.takeWhile (fun x => x ≠ ':') line) = b8
    generalize re_tbc.MatchString (List.takeWhile (fun x => x ≠ ':') line) = b9
    generalize re_tbh.MatchString (List.takeWhile (fun x => x ≠ ':') line) = b10
    cases b1
    swap
    · simp [applyLabel]
    cases b2
    swap
    · simp [applyLabel]
    cases b3
    swap
    · simp [applyLabel]
    cases b4
    swap
    · by_cases h0 : s.lc_count = 0
      · simp [applyLabel, h0]
      · by_cases h1 : s.lc_count = 1 <;> simp [applyLabel, h0, h1]
    cases b5
    swap
    · by_cases h0 : s.mc_count = 0
      · simp [applyLabel, h0]
      · by_cases h1 : s.mc_count = 1 <;> simp [applyLabel, h0, h1]
    cases b6
    swap
    · simp [applyLabel]
    cases b7
    swap
    · simp [applyLabel]
    cases b8
    swap
    · simp [applyLabel]
    cases b9
    swap
    · simp [applyLabel]
    cases b10 <;> simp [applyLabel]

theorem ParseSchedulerLoop_eq {F : Type} (ops : Float64Ops F) (s : SchedulerLoop F)
    (lines : List Str) :
    ParseSchedulerLoop ops s lines = some (lines.foldl (scalarStep ops) s) := by
  induction lines generalizing s with
  | nil => rfl
  | cons l ls ih => simp only [ParseSchedulerLoop, ParseSchedulerLine_eq, List.foldl_cons, ih]

/-! ## the statistics lines -/

theorem tryFrom_some {α : Type} (f : Nat → Option α) (k : Nat) (r : α)
    (h : tryFrom f k = some r) : ∃ j, f j = some r := by
  induction k with
  | zero => exact ⟨0, h⟩
  | succ k ih =>
    unfold tryFrom at h
    cases hf : f (k + 1) with
    | some r' =>
      rw [hf] at h
      exact ⟨k + 1, by rw [hf]; exact h⟩
    | none =>
      rw [hf] at h
      exact ih h

theorem matchItems_length (toEnd : Bool) (items : List Item) (s : Str) (gs : List Str)
    (h : matchItems toEnd items s = some gs) : gs.length = groupCount items := by
  induction items generalizing s gs with
  | nil =>
    unfold matchItems at h
    split at h
    · exact absurd h (by simp)
    · injection h with h; subst h; rfl
  | cons it r ih =>
    cases it with
    | lit l =>
      unfold matchItems at h
      split at h
      · exact ih _ _ h
      · exact absurd h (by simp)
    | cls p =>
      unfold matchItems at h
      cases s with
      | nil => exact absurd h (by simp)
      | cons c t =>
        simp only at h
        split at h
        · exact ih _ _ h
        · exact absurd h (by simp)
    | star p =>
      unfold matchItems at h
      obtain ⟨j, hj⟩ := tryFrom_some _ _ _ h
      exact ih _ _ hj
    | cap p =>
      unfold matchItems at h
      obtain ⟨j, hj⟩ := tryFrom_some _ _ _ h
      cases hm : matchItems toEnd r (s.drop j) with
      | none => rw [hm] at hj; exact absurd hj (by simp)
      | some cs =>
        rw [hm] at hj
        simp only [Option.map_some', Option.some.injEq] at hj
        subst hj
        simp [groupCount, ih _ _ hm]

theorem stat_line_groups (line : Str) (gs : List Str)
    (h : matchItems stat_line_re.toEnd stat_line_re.items line = some gs) :
    ∃ key c a t, gs = [key, c, a, t] := by
  have hl := matchItems_length _ _ _ _ h
  have h4 : groupCount stat_line_re.items = 4 := rfl
  rw [h4] at hl
  rcases gs with _ | ⟨key, _ | ⟨c, _ | ⟨a, _ | ⟨t, _ | ⟨x, r⟩⟩⟩⟩⟩ <;> simp at hl
  exact ⟨key, c, a, t, rfl⟩

theorem ParseRpcLine_eq {F : Type} (ops : Float64Ops F) (s : RpcLoop F) (line : Str) :
    ParseRpcLine ops s line = some (rpcStep ops s line) := by
  unfold ParseRpcLine rpcRecord rpcStep Regexp.FindAllStringSubmatch
  cases hm : matchItems stat_line_re.toEnd stat_line_re.items line with
  | none => simp
  | some gs =>
    obtain ⟨key, c, a, t, rfl⟩ := stat_line_groups line gs hm
    generalize rpcSection s line = s1
    obtain ⟨ir, iu, m1, m2, m3, m4, m5, m6⟩ := s1
    cases ir <;> cases iu <;> simp

theorem ParseRpcLoop_eq {F : Type} (ops : Float64Ops F) (s : RpcLoop F) (lines : List Str) :
    ParseRpcLoop ops s lines = some (lines.foldl (rpcStep ops) s) := by
  induction lines generalizing s with
  | nil => rfl
  | cons l ls ih => simp only [ParseRpcLoop, ParseRpcLine_eq, List.foldl_cons, ih]

theorem ParseSchedulerMetrics_eq {F : Type} (ops : Float64Ops F) (input : Str) :
    ParseSchedulerMetrics ops input =
      some { ((Split '\n' input).foldl (scalarStep ops)
          { sm := zeroSchedulerMetrics ops, lc_count := 0, mc_count := 0 }).sm with
        rpc_stats_count := ((Split '\n' input).foldl (rpcStep ops) (initRpcLoop F)).count_stats
        rpc_stats_avg_time := ((Split '\n' input).foldl (rpcStep ops) (initRpcLoop F)).avg_stats
        rpc_stats_total_time :=
          ((Split '\n' input).foldl (rpcStep ops) (initRpcLoop F)).total_stats
        user_rpc_stats_count :=
          ((Split '\n' input).foldl (rpcStep ops) (initRpcLoop F)).user_count_stats
        user_rpc_stats_avg_time :=
          ((Split '\n' input).foldl (rpcStep ops) (initRpcLoop F)).user_avg_stats
        user_rpc_stats_total_time :=
          ((Split '\n' input).foldl (rpcStep ops) (initRpcLoop F)).user_total_stats } := by
  unfold ParseSchedulerMetrics ParseRpcStats
  simp only [ParseSchedulerLoop_eq, ParseRpcLoop_eq]
  rfl

/-! ## the label patterns -/

theorem tryFrom_isSome {α : Type} (f : Nat → Option α) (n : Nat) :
    (tryFrom f n).isSome = true ↔ ∃ k, k ≤ n ∧ (f k).isSome = true := by
  induction n with
  | zero =>
    constructor
    · intro h; exact ⟨0, le_refl _, h⟩
    · rintro ⟨k, hk, h⟩
      have : k = 0 := Nat.le_zero.1 hk
      subst this; exact h
  | succ n ih =>
    unfold tryFrom
    cases hf : f (n + 1) with
    | some r =>
      simp only [Option.isSome_some, true_iff]
      exact ⟨n + 1, le_refl _, by rw [hf]; rfl⟩
    | none =>
      simp only [ih]
      constructor
      · rintro ⟨k, hk, h⟩
        exact ⟨k, Nat.le_succ_of_le hk, h⟩
      · rintro ⟨k, hk, h⟩
        rcases Nat.lt_or_ge k (n + 1) with hlt | hge
        · exact ⟨k, Nat.lt_succ_iff.1 hlt, h⟩
        · have : k = n + 1 := le_antisymm hk hge
          subst this
          rw [hf] at h
          exact absurd h (by simp)

theorem matchItems_lit_isSome (toEnd : Bool) (l s : Str) :
    (matchItems toEnd [Item.lit l] s).isSome = true ↔
      l.isPrefixOf s = true ∧ (toEnd = true → s.drop l.length = []) := by
  unfold matchItems
  cases hp : l.isPrefixOf s
  · simp
  · simp only [if_true, true_and, matchItems]
    cases toEnd
    · simp
    · cases hd : s.drop l.length <;> simp

theorem reIndented_matches (p : String) (toEnd : Bool) (s : Str) :
    (reIndented p toEnd).MatchString s = true ↔
      ∃ c t, s = c :: t ∧ reSpace c = true ∧ ∃ k, k ≤ spanLen reSpace t ∧
        p.toList.isPrefixOf (t.drop k) = true ∧
        (toEnd = true → (t.drop k).drop p.toList.length = []) := by
  unfold Regexp.MatchString reIndented
  cases s with
  | nil => simp [matchItems]
  | cons c t =>
    simp only [matchItems]
    cases hc : reSpace c
    · simp [hc]
    · simp only [if_true, tryFrom_isSome]
      constructor
      · rintro ⟨k, hk, h⟩
        exact ⟨c, t, rfl, hc, k, hk,
          (matchItems_lit_isSome toEnd p.toList (t.drop k)).1 (by simpa only [matchItems] using h)⟩
      · rintro ⟨c', t', he, _, k, hk, h⟩
        injection he with h1 h2
        subst h2
        have h' := (matchItems_lit_isSome toEnd p.toList (t.drop k)).2 h
        exact ⟨k, hk, by simpa only [matchItems] using h'⟩

theorem spanLen_of_drop (q : Char → Bool) (t : Str) (k : Nat) (a : Char) (u : Str)
    (hk : k ≤ spanLen q t) (hd : t.drop k = a :: u) (ha : q a = false) : k = spanLen q t := by
  induction t generalizing k with
  | nil => simp at hd
  | cons c t ih =>
    cases k with
    | zero =>
      simp only [List.drop_zero, List.cons.injEq] at hd
      obtain ⟨h1, _⟩ := hd
      subst h1
      simp [spanLen, ha]
    | succ k =>
      unfold spanLen at hk ⊢
      cases hc : q c
      · rw [hc] at hk; simp at hk
      · rw [hc] at hk
        simp only [if_true] at hk ⊢
        rw [ih k (Nat.le_of_succ_le_succ hk) (by simpa using hd)]

theorem reIndented_exclusive (p₁ p₂ : String) (e₁ e₂ : Bool) (s : Str) (a₁ a₂ : Char)
    (u₁ u₂ : Str) (h₁ : p₁.toList = a₁ :: u₁) (h₂ : p₂.toList = a₂ :: u₂)
    (hs₁ : reSpace a₁ = false) (hs₂ : reSpace a₂ = false)
    (hne : ∀ v : Str, ¬ (p₁.toList.isPrefixOf v = true ∧ p₂.toList.isPrefixOf v = true))
    (hm₁ : (reIndented p₁ e₁).MatchString s = true) :
    (reIndented p₂ e₂).MatchString s = false := by
  cases hm₂ : (reIndented p₂ e₂).MatchString s
  · rfl
  · exfalso
    obtain ⟨c, t, hs, _, k, hk, hp, _⟩ := (reIndented_matches p₁ e₁ s).1 hm₁
    obtain ⟨c', t', hs', _, k', hk', hp', _⟩ := (reIndented_matches p₂ e₂ s).1 hm₂
    rw [hs] at hs'
    injection hs' with _ ht
    subst ht
    have d₁ : ∃ w, t.drop k = a₁ :: w := by
      rw [h₁] at hp
      cases hd : t.drop k with
      | nil => rw [hd] at hp; simp [List.isPrefixOf] at hp
      | cons x w =>
        rw [hd] at hp
        simp only [List.isPrefixOf, Bool.and_eq_true, beq_iff_eq] at hp
        exact ⟨w, by rw [hp.1]⟩
    have d₂ : ∃ w, t.drop k' = a₂ :: w := by
      rw [h₂] at hp'
      cases hd : t.drop k' with
      | nil => rw [hd] at hp'; simp [List.isPrefixOf] at hp'
      | cons x w =>
        rw [hd] at hp'
        simp only [List.isPrefixOf, Bool.and_eq_true, beq_iff_eq] at hp'
        exact ⟨w, by rw [hp'.1]⟩
    obtain ⟨w₁, e₁'⟩ := d₁
    obtain ⟨w₂, e₂'⟩ := d₂
    have k₁ := spanLen_of_drop reSpace t k a₁ w₁ hk e₁' hs₁
    have k₂ := spanLen_of_drop reSpace t k' a₂ w₂ hk' e₂' hs₂
    rw [k₂] at hp'
    rw [k₁] at hp
    exact hne _ ⟨hp, hp'⟩

theorem rePrefix_not_indented (p q : String) (e : Bool) (s : Str) (a : Char) (u : Str)
    (hp : p.toList = a :: u) (ha : reSpace a = false)
    (hm : (reIndented q e).MatchString s = true) : (rePrefix p).MatchString s = false := by
  obtain ⟨c, t, hs, hc, _⟩ := (reIndented_matches q e s).1 hm
  rw [MatchString_rePrefix, hp, hs]
  cases h : (a :: u).isPrefixOf (c :: t)
  · rfl
  · simp only [List.isPrefixOf, Bool.and_eq_true, beq_iff_eq] at h
    rw [h.1] at ha
    rw [ha] at hc
    exact absurd hc (by simp)

theorem matchLabel_lc (s : Str) :
    matchLabel s = some ScalarLabel.lc ↔ re_lc.MatchString s = true := by
  constructor
  · intro h
    simp only [matchLabel, scalarPatterns, List.find?] at h
    cases h1 : re_st.MatchString s <;> rw [h1] at h <;> try (simp at h)
    cases h2 : re_qs.MatchString s <;> rw [h2] at h <;> try (simp at h)
    cases h3 : re_dbd.MatchString s <;> rw [h3] at h <;> try (simp at h)
    cases h4 : re_lc.MatchString s
    · rw [h4] at h
      cases h5 : re_mc.MatchString s <;> rw [h5] at h <;> try (simp at h)
      cases h6 : re_cpm.MatchString s <;> rw [h6] at h <;> try (simp at h)
      cases h7 : re_dpm.MatchString s <;> rw [h7] at h <;> try (simp at h)
      cases h8 : re_tbs.MatchString s <;> rw [h8] at h <;> try (simp at h)
      cases h9 : re_tbc.MatchString s <;> rw [h9] at h <;> try (simp at h)
      cases h10 : re_tbh.MatchString s <;> rw [h10] at h <;> simp at h
    · rfl
  · intro h
    have h1 : re_st.MatchString s = false :=
      rePrefix_not_indented "Server thread" "Last cycle" true s 'S' "erver thread".toList rfl
        (by decide) h
    have h2 : re_qs.MatchString s = false :=
      rePrefix_not_indented "Agent queue" "Last cycle" true s 'A' "gent queue".toList rfl
        (by decide) h
    have h3 : re_dbd.MatchString s = false :=
      rePrefix_not_indented "DBD Agent" "Last cycle" true s 'D' "BD Agent".toList rfl
        (by decide) h
    simp [matchLabel, scalarPatterns, List.find?, h1, h2, h3, h]

theorem matchLabel_mc (s : Str) :
    matchLabel s = some ScalarLabel.mc ↔ re_mc.MatchString s = true := by
  constructor
  · intro h
    simp only [matchLabel, scalarPatterns, List.find?] at h
    cases h1 : re_st.MatchString s <;> rw [h1] at h <;> try (simp at h)
    cases h2 : re_qs.MatchString s <;> rw [h2] at h <;> try (simp at h)
    cases h3 : re_dbd.MatchString s <;> rw [h3] at h <;> try (simp at h)
    cases h4 : re_lc.MatchString s <;> rw [h4] at h <;> try (simp at h)
    cases h5 : re_mc.MatchString s
    · rw [h5] at h
      cases h6 : re_cpm.MatchString s <;> rw [h6] at h <;> try (simp at h)
      cases h7 : re_dpm.MatchString s <;> rw [h7] at h <;> try (simp at h)
      cases h8 : re_tbs.MatchString s <;> rw [h8] at h <;> try (simp at h)
      cases h9 : re_tbc.MatchString s <;> rw [h9] at h <;> try (simp at h)
      cases h10 : re_tbh.MatchString s <;> rw [h10] at h <;> simp at h
    · rfl
  · intro h
    have h1 : re_st.MatchString s = false :=
      rePrefix_not_indented "Server thread" "Mean cycle" true s 'S' "erver thread".toList rfl
        (by decide) h
    have h2 : re_qs.MatchString s = false :=
      rePrefix_not_indented "Agent queue" "Mean cycle" true s 'A' "gent queue".toList rfl
        (by decide) h
    have h3 : re_dbd.MatchString s = false :=
      rePrefix_not_indented "DBD Agent" "Mean cycle" true s 'D' "BD Agent".toList rfl
        (by decide) h
    have h4 : re_lc.MatchString s = false :=
      reIndented_exclusive "Mean cycle" "Last cycle" true true s 'M' 'L' "ean cycle".toList
        "ast cycle".toList rfl rfl (by decide) (by decide)
        (by
          intro v hv
          cases v with
          | nil => simp [List.isPrefixOf] at hv
          | cons x w =>
            have a := hv.1
            have b := hv.2
            simp only [String.toList, List.isPrefixOf, Bool.and_eq_true, beq_iff_eq] at a b
            have hx := a.1.trans b.1.symm
            exact absurd hx (by decide)) h
    simp [matchLabel, scalarPatterns, List.find?, h1, h2, h3, h4, h]

theorem isLastCycleLine_eq (line : Str) :
    isLastCycleLine line = isLabelLine ScalarLabel.lc line := by
  unfold isLastCycleLine isLabelLine
  cases h : re_lc.MatchString (textBeforeColon line)
  · have : ¬ matchLabel (textBeforeColon line) = some ScalarLabel.lc := by
      rw [matchLabel_lc, h]; simp
    simp [this]
  · simp [(matchLabel_lc _).2 h]

theorem isMeanCycleLine_eq (line : Str) :
    isMeanCycleLine line = isLabelLine ScalarLabel.mc line := by
  unfold isMeanCycleLine isLabelLine
  cases h : re_mc.MatchString (textBeforeColon line)
  · have : ¬ matchLabel (textBeforeColon line) = some ScalarLabel.mc := by
      rw [matchLabel_mc, h]; simp
    simp [this]
  · simp [(matchLabel_mc _).2 h]

/-! ## the cycle fields -/

theorem scalarStep_of_label {F : Type} (ops : Float64Ops F) (s : SchedulerLoop F) (line : Str)
    (lab : ScalarLabel) (h : isLabelLine lab line = true) :
    scalarStep ops s line = applyLabel s (valueOf ops line) lab := by
  simp only [isLabelLine, Bool.and_eq_true, decide_eq_true_eq] at h
  simp [scalarStep, h.1, h.2]

theorem scalarStep_cases {F : Type} (ops : Float64Ops F) (s : SchedulerLoop F) (line : Str) :
    scalarStep ops s line = s ∨
      ∃ lab, isLabelLine lab line = true ∧
        scalarStep ops s line = applyLabel s (valueOf ops line) lab := by
  unfold scalarStep
  cases hc : Contains line [':']
  · left; simp
  · cases hm : matchLabel (textBeforeColon line) with
    | none => left; simp
    | some lab =>
      right
      exact ⟨lab, by simp [isLabelLine, hc, hm], by simp⟩

theorem scalarStep_lc_other {F : Type} (ops : Float64Ops F) (s : SchedulerLoop F) (line : Str)
    (h : isLastCycleLine line = false) :
    (scalarStep ops s line).lc_count = s.lc_count ∧
      (scalarStep ops s line).sm.last_cycle = s.sm.last_cycle ∧
      (scalarStep ops s line).sm.backfill_last_cycle = s.sm.backfill_last_cycle := by
  rcases scalarStep_cases ops s line with h1 | ⟨lab, hl, h1⟩
  · rw [h1]; exact ⟨rfl, rfl, rfl⟩
  · rw [h1]
    cases lab
    case lc => rw [isLastCycleLine_eq, hl] at h; exact absurd h (by simp)
    case mc =>
      simp only [applyLabel]
      by_cases h0 : s.mc_count = 0
      · simp [h0]
      · by_cases h1 : s.mc_count = 1 <;> simp [h0, h1]
    all_goals exact ⟨rfl, rfl, rfl⟩

theorem scalarStep_mc_other {F : Type} (ops : Float64Ops F) (s : SchedulerLoop F) (line : Str)
    (h : isMeanCycleLine line = false) :
    (scalarStep ops s line).mc_count = s.mc_count ∧
      (scalarStep ops s line).sm.mean_cycle = s.sm.mean_cycle ∧
      (scalarStep ops s line).sm.backfill_mean_cycle = s.sm.backfill_mean_cycle := by
  rcases scalarStep_cases ops s line with h1 | ⟨lab, hl, h1⟩
  · rw [h1]; exact ⟨rfl, rfl, rfl⟩
  · rw [h1]
    cases lab
    case mc => rw [isMeanCycleLine_eq, hl] at h; exact absurd h (by simp)
    case lc =>
      simp only [applyLabel]
      by_cases h0 : s.lc_count = 0
      · simp [h0]
      · by_cases h1 : s.lc_count = 1 <;> simp [h0, h1]
    all_goals exact ⟨rfl, rfl, rfl⟩

theorem scalarStep_lc_first {F : Type} (ops : Float64Ops F) (s : SchedulerLoop F) (line : Str)
    (h : isLastCycleLine line = true) (h0 : s.lc_count = 0) :
    (scalarStep ops s line).lc_count = 1 ∧
      (scalarStep ops s line).sm.last_cycle = valueOf ops line ∧
      (scalarStep ops s line).sm.backfill_last_cycle = valueOf ops line := by
  rw [isLastCycleLine_eq] at h
  rw [scalarStep_of_label ops s line _ h]
  simp [applyLabel, h0]

theorem scalarStep_lc_later {F : Type} (ops : Float64Ops F) (s : SchedulerLoop F) (line : Str)
    (h : isLastCycleLine line = true) (h1 : s.lc_count = 1) :
    (scalarStep ops s line).lc_count = 1 ∧
      (scalarStep ops s line).sm.last_cycle = s.sm.last_cycle ∧
      (scalarStep ops s line).sm.backfill_last_cycle = valueOf ops line := by
  rw [isLastCycleLine_eq] at h
  rw [scalarStep_of_label ops s line _ h]
  simp [applyLabel, h1]

theorem scalarStep_mc_first {F : Type} (ops : Float64Ops F) (s : SchedulerLoop F) (line : Str)
    (h : isMeanCycleLine line = true) (h0 : s.mc_count = 0) :
    (scalarStep ops s line).mc_count = 1 ∧
      (scalarStep ops s line).sm.mean_cycle = valueOf ops line ∧
      (scalarStep ops s line).sm.backfill_mean_cycle = valueOf ops line := by
  rw [isMeanCycleLine_eq] at h
  rw [scalarStep_of_label ops s line _ h]
  simp [applyLabel, h0]

theorem scalarStep_mc_later {F : Type} (ops : Float64Ops F) (s : SchedulerLoop F) (line : Str)
    (h : isMeanCycleLine line = true) (h1 : s.mc_count = 1) :
    (scalarStep ops s line).mc_count = 1 ∧
      (scalarStep ops s line).sm.mean_cycle = s.sm.mean_cycle ∧
      (scalarStep ops s line).sm.backfill_mean_cycle = valueOf ops line := by
  rw [isMeanCycleLine_eq] at h
  rw [scalarStep_of_label ops s line _ h]
  simp [applyLabel, h1]

theorem foldl_last_cycle_seen {F : Type} (ops : Float64Ops F) (lines : List Str)
    (s : SchedulerLoop F) (h1 : s.lc_count = 1) :
    (lines.foldl (scalarStep ops) s).sm.last_cycle = s.sm.last_cycle := by
  induction lines generalizing s with
  | nil => rfl
  | cons l ls ih =>
    rw [List.foldl_cons]
    cases hl : isLastCycleLine l
    · obtain ⟨a, b, _⟩ := scalarStep_lc_other ops s l hl
      rw [ih _ (a.trans h1), b]
    · obtain ⟨a, b, _⟩ := scalarStep_lc_later ops s l hl h1
      rw [ih _ a, b]

theorem foldl_last_cycle_first {F : Type} (ops : Float64Ops F) (lines : List Str)
    (s : SchedulerLoop F) (h0 : s.lc_count = 0) (l : Str) (rest : List Str)
    (hf : lines.filter isLastCycleLine = l :: rest) :
    (lines.foldl (scalarStep ops) s).sm.last_cycle = valueOf ops l := by
  induction lines generalizing s with
  | nil => simp at hf
  | cons x xs ih =>
    rw [List.foldl_cons]
    cases hx : isLastCycleLine x
    · rw [List.filter_cons, hx] at hf
      obtain ⟨a, _, _⟩ := scalarStep_lc_other ops s x hx
      exact ih _ (a.trans h0) hf
    · rw [List.filter_cons, hx] at hf
      simp only [if_true, List.cons.injEq] at hf
      obtain ⟨a, b, _⟩ := scalarStep_lc_first ops s x hx h0
      rw [foldl_last_cycle_seen ops xs _ a, b, hf.1]

theorem foldl_mean_cycle_seen {F : Type} (ops : Float64Ops F) (lines : List Str)
    (s : SchedulerLoop F) (h1 : s.mc_count = 1) :
    (lines.foldl (scalarStep ops) s).sm.mean_cycle = s.sm.mean_cycle := by
  induction lines generalizing s with
  | nil => rfl
  | cons l ls ih =>
    rw [List.foldl_cons]
    cases hl : isMeanCycleLine l
    · obtain ⟨a, b, _⟩ := scalarStep_mc_other ops s l hl
      rw [ih _ (a.trans h1), b]
    · obtain ⟨a, b, _⟩ := scalarStep_mc_later ops s l hl h1
      rw [ih _ a, b]

theorem foldl_mean_cycle_first {F : Type} (ops : Float64Ops F) (lines : List Str)
    (s : SchedulerLoop F) (h0 : s.mc_count = 0) (l : Str) (rest : List Str)
    (hf : lines.filter isMeanCycleLine = l :: rest) :
    (lines.foldl (scalarStep ops) s).sm.mean_cycle = valueOf ops l := by
  induction lines generalizing s with
  | nil => simp at hf
  | cons x xs ih =>
    rw [List.foldl_cons]
    cases hx : isMeanCycleLine x
    · rw [List.filter_cons, hx] at hf
      obtain ⟨a, _, _⟩ := scalarStep_mc_other ops s x hx
      exact ih _ (a.trans h0) hf
    · rw [List.filter_cons, hx] at hf
      simp only [if_true, List.cons.injEq] at hf
      obtain ⟨a, b, _⟩ := scalarStep_mc_first ops s x hx h0
      rw [foldl_mean_cycle_seen ops xs _ a, b, hf.1]

/-! ## the section flags -/

theorem rpcSection_tables {F : Type} (s : RpcLoop F) (line : Str) :
    (rpcSection s line).count_stats = s.count_stats ∧
      (rpcSection s line).avg_stats = s.avg_stats ∧
      (rpcSection s line).total_stats = s.total_stats ∧
      (rpcSection s line).user_count_stats = s.user_count_stats ∧
      (rpcSection s line).user_avg_stats = s.user_avg_stats ∧
      (rpcSection s line).user_total_stats = s.user_total_stats := by
  unfold rpcSection
  split
  · exact ⟨rfl, rfl, rfl, rfl, rfl, rfl⟩
  · split <;> exact ⟨rfl, rfl, rfl, rfl, rfl, rfl⟩

theorem rpcStep_flags {F : Type} (ops : Float64Ops F) (s : RpcLoop F) (line : Str) :
    (rpcStep ops s line).in_rpc = (rpcSection s line).in_rpc ∧
      (rpcStep ops s line).in_rpc_per_user = (rpcSection s line).in_rpc_per_user := by
  unfold rpcStep
  generalize rpcSection s line = s1
  split
  · cases h1 : s1.in_rpc <;> cases h2 : s1.in_rpc_per_user <;> simp [h1, h2]
  · exact ⟨rfl, rfl⟩

theorem rpcSection_of_header {F : Type} (s : RpcLoop F) (line : Str)
    (h : isHeaderLine line = true) :
    ((rpcSection s line).in_rpc = true ∧ (rpcSection s line).in_rpc_per_user = false) ∨
      ((rpcSection s line).in_rpc = false ∧ (rpcSection s line).in_rpc_per_user = true) := by
  unfold rpcSection
  cases h1 : Contains line rpcTypeHeader
  · have h2 : Contains line rpcUserHeader = true := by
      simpa [isHeaderLine, h1] using h
    right; simp [h2]
  · left; simp

theorem rpcSection_of_no_header {F : Type} (s : RpcLoop F) (line : Str)
    (h : isHeaderLine line = false) : rpcSection s line = s := by
  simp only [isHeaderLine, Bool.or_eq_false_iff] at h
  simp [rpcSection, h.1, h.2]

theorem rpcStep_idle {F : Type} (ops : Float64Ops F) (s : RpcLoop F) (line : Str)
    (h : isHeaderLine line = false) (h1 : s.in_rpc = false) (h2 : s.in_rpc_per_user = false) :
    rpcStep ops s line = s := by
  unfold rpcStep
  rw [rpcSection_of_no_header s line h]
  split
  · simp [h1, h2]
  · rfl

theorem foldl_rpcStep_idle {F : Type} (ops : Float64Ops F) (s : RpcLoop F) (lines : List Str)
    (h : ∀ l ∈ lines, isHeaderLine l = false) (h1 : s.in_rpc = false)
    (h2 : s.in_rpc_per_user = false) : lines.foldl (rpcStep ops) s = s := by
  induction lines with
  | nil => rfl
  | cons l ls ih =>
    rw [List.foldl_cons, rpcStep_idle ops s l (h l (List.mem_cons_self _ _)) h1 h2]
    exact ih (fun x hx => h x (List.mem_cons_of_mem _ hx))

/-- Exactly one of the two section flags is set. -/
theorem rpcStep_one_flag {F : Type} (ops : Float64Ops F) (s : RpcLoop F) (line : Str)
    (h : isHeaderLine line = true ∨ (s.in_rpc != s.in_rpc_per_user) = true) :
    ((rpcStep ops s line).in_rpc != (rpcStep ops s line).in_rpc_per_user) = true := by
  obtain ⟨e1, e2⟩ := rpcStep_flags ops s line
  rw [e1, e2]
  cases hh : isHeaderLine line
  · rw [rpcSection_of_no_header s line hh]
    rcases h with h | h
    · rw [hh] at h; exact absurd h (by simp)
    · exact h
  · rcases rpcSection_of_header s line hh with ⟨a, b⟩ | ⟨a, b⟩ <;> simp [a, b]

theorem foldl_rpcStep_one_flag {F : Type} (ops : Float64Ops F) (s : RpcLoop F)
    (lines : List Str)
    (h : (∃ l ∈ lines, isHeaderLine l = true) ∨ (s.in_rpc != s.in_rpc_per_user) = true) :
    ((lines.foldl (rpcStep ops) s).in_rpc !=
      (lines.foldl (rpcStep ops) s).in_rpc_per_user) = true := by
  induction lines generalizing s with
  | nil =>
    rcases h with ⟨l, hl, _⟩ | h
    · simp at hl
    · exact h
  | cons x xs ih =>
    rw [List.foldl_cons]
    rcases h with ⟨l, hl, hh⟩ | h
    · rcases List.mem_cons.1 hl with rfl | hl'
      · exact ih _ (Or.inr (rpcStep_one_flag ops s l (Or.inl hh)))
      · exact ih _ (Or.inl ⟨l, hl', hh⟩)
    · exact ih _ (Or.inr (rpcStep_one_flag ops s x (Or.inr h)))

theorem rpcStep_not_both {F : Type} (ops : Float64Ops F) (s : RpcLoop F) (line : Str)
    (h : ¬ (s.in_rpc = true ∧ s.in_rpc_per_user = true)) :
    ¬ ((rpcStep ops s line).in_rpc = true ∧ (rpcStep ops s line).in_rpc_per_user = true) := by
  obtain ⟨e1, e2⟩ := rpcStep_flags ops s line
  rw [e1, e2]
  cases hh : isHeaderLine line
  · rw [rpcSection_of_no_header s line hh]; exact h
  · rcases rpcSection_of_header s line hh with ⟨a, b⟩ | ⟨a, b⟩ <;> simp [a, b]

theorem foldl_rpcStep_not_both {F : Type} (ops : Float64Ops F) (s : RpcLoop F)
    (lines : List Str) (h : ¬ (s.in_rpc = true ∧ s.in_rpc_per_user = true)) :
    ¬ ((lines.foldl (rpcStep ops) s).in_rpc = true ∧
      (lines.foldl (rpcStep ops) s).in_rpc_per_user = true) := by
  induction lines generalizing s with
  | nil => exact h
  | cons x xs ih =>
    rw [List.foldl_cons]
    exact ih _ (rpcStep_not_both ops s x h)

/-! ## the tables of ParseRpcStats -/

theorem mapFind_mapSet {F : Type} (m : FMap F) (k : Str) (v : F) (g : Str) :
    mapFind (mapSet m k v) g = if k = g then some v else mapFind m g := by
  induction m with
  | nil => simp [mapSet, mapFind]
  | cons p m ih =>
    obtain ⟨k', v'⟩ := p
    by_cases h : k' = k
    · subst h
      by_cases hg : k' = g <;> simp [mapSet, mapFind, hg]
    · by_cases hg : k' = g
      · subst hg
        have h' : ¬ k = k' := fun e => h e.symm
        simp [mapSet, mapFind, h, h']
      · simp [mapSet, mapFind, h, hg, ih]

theorem statKey_of_groups (line key c a t : Str)
    (h : matchItems stat_line_re.toEnd stat_line_re.items line = some [key, c, a, t]) :
    statKey line = some key := by
  simp [statKey, h]

theorem rpcStep_write_type {F : Type} (ops : Float64Ops F) (s : RpcLoop F)
    (line key c a t : Str)
    (hm : matchItems stat_line_re.toEnd stat_line_re.items line = some [key, c, a, t])
    (h : (rpcSection s line).in_rpc = true) :
    typeEntry (rpcStep ops s line) key =
      (some (ParseFloat ops c), some (ParseFloat ops a), some (ParseFloat ops t)) := by
  unfold rpcStep typeEntry
  rw [hm]
  simp [h, mapFind_mapSet]

theorem rpcStep_write_user {F : Type} (ops : Float64Ops F) (s : RpcLoop F)
    (line key c a t : Str)
    (hm : matchItems stat_line_re.toEnd stat_line_re.items line = some [key, c, a, t])
    (h1 : (rpcSection s line).in_rpc = false)
    (h2 : (rpcSection s line).in_rpc_per_user = true) :
    userEntry (rpcStep ops s line) key =
      (some (ParseFloat ops c), some (ParseFloat ops a), some (ParseFloat ops t)) := by
  unfold rpcStep userEntry
  rw [hm]
  simp [h1, h2, mapFind_mapSet]

theorem rpcStep_keep_type {F : Type} (ops : Float64Ops F) (s : RpcLoop F) (line key : Str)
    (h : writesType key s line = false) :
    typeEntry (rpcStep ops s line) key = typeEntry s key := by
  obtain ⟨e1, e2, e3, _, _, _⟩ := rpcSection_tables s line
  unfold writesType at h
  unfold rpcStep typeEntry
  cases hm : matchItems stat_line_re.toEnd stat_line_re.items line with
  | none => simp [e1, e2, e3]
  | some gs =>
    obtain ⟨k, c, a, t, rfl⟩ := stat_line_groups line gs hm
    rw [statKey_of_groups line k c a t hm] at h
    cases h1 : (rpcSection s line).in_rpc
    · cases h2 : (rpcSection s line).in_rpc_per_user <;> simp [h1, h2, e1, e2, e3]
    · have hk : ¬ k = key := by simpa [h1] using h
      simp [h1, mapFind_mapSet, hk, e1, e2, e3]

theorem rpcStep_keep_user {F : Type} (ops : Float64Ops F) (s : RpcLoop F) (line key : Str)
    (h : writesUser key s line = false) :
    userEntry (rpcStep ops s line) key = userEntry s key := by
  obtain ⟨_, _, _, e1, e2, e3⟩ := rpcSection_tables s line
  unfold writesUser at h
  unfold rpcStep userEntry
  cases hm : matchItems stat_line_re.toEnd stat_line_re.items line with
  | none => simp [e1, e2, e3]
  | some gs =>
    obtain ⟨k, c, a, t, rfl⟩ := stat_line_groups line gs hm
    rw [statKey_of_groups line k c a t hm] at h
    cases h1 : (rpcSection s line).in_rpc
    · cases h2 : (rpcSection s line).in_rpc_per_user
      · simp [h1, h2, e1, e2, e3]
      · have hk : ¬ k = key := by simpa [h1, h2] using h
        simp [h1, h2, mapFind_mapSet, hk, e1, e2, e3]
    · simp [h1, e1, e2, e3]

theorem foldl_keep_type {F : Type} (ops : Float64Ops F) (s : RpcLoop F) (lines : List Str)
    (key : Str) (h : noLaterWrite ops (writesType key) s lines = true) :
    typeEntry (lines.foldl (rpcStep ops) s) key = typeEntry s key := by
  induction lines generalizing s with
  | nil => rfl
  | cons l ls ih =>
    simp only [noLaterWrite, Bool.and_eq_true, Bool.not_eq_true'] at h
    rw [List.foldl_cons, ih _ h.2, rpcStep_keep_type ops s l key h.1]

theorem foldl_keep_user {F : Type} (ops : Float64Ops F) (s : RpcLoop F) (lines : List Str)
    (key : Str) (h : noLaterWrite ops (writesUser key) s lines = true) :
    userEntry (lines.foldl (rpcStep ops) s) key = userEntry s key := by
  induction lines generalizing s with
  | nil => rfl
  | cons l ls ih =>
    simp only [noLaterWrite, Bool.and_eq_true, Bool.not_eq_true'] at h
    rw [List.foldl_cons, ih _ h.2, rpcStep_keep_user ops s l key h.1]

/-! ## counts that are not numbers, and the sentinel -/

theorem ParseNodesLine_readErrorsAsZero {F : Type} (ops : Float64Ops F) (nm : NodesMetrics F)
    (line : Str) :
    ParseNodesLine (readErrorsAsZero ops) nm line = ParseNodesLine ops nm line := rfl

theorem ParseNodesLoop_readErrorsAsZero {F : Type} (ops : Float64Ops F) (nm : NodesMetrics F)
    (ls : List Str) :
    ParseNodesLoop (readErrorsAsZero ops) nm ls = ParseNodesLoop ops nm ls := by
  induction ls generalizing nm with
  | nil => rfl
  | cons l ls ih =>
    simp only [ParseNodesLoop, ParseNodesLine_readErrorsAsZero]
    cases ParseNodesLine ops nm l with
    | none => rfl
    | some nm1 => exact ih nm1

theorem ParseNodesLine_some_wellFormed {F : Type} (ops : Float64Ops F) (nm nm1 : NodesMetrics F)
    (line : Str) (h : ParseNodesLine ops nm line = some nm1) : WellFormedLine line := by
  intro hc
  rcases hs : Split '|' line with _ | ⟨a, _ | ⟨b, _ | ⟨c, r⟩⟩⟩
  · simp [ParseNodesLine, hc, hs] at h
  · simp [ParseNodesLine, hc, hs] at h
  · simp [ParseNodesLine, hc, hs] at h
  · simp

theorem ParseNodesLine_some_eq {F : Type} (ops : Float64Ops F) (nm nm1 : NodesMetrics F)
    (line : Str) (h : ParseNodesLine ops nm line = some nm1) :
    nm1 = accumulateLine ops nm line := by
  have hw := ParseNodesLine_wellFormed ops nm line (ParseNodesLine_some_wellFormed ops nm nm1 line h)
  rw [hw] at h
  injection h with h
  exact h.symm

theorem featureSetOf_ne_sentinel (field : Str) : featureSetOf field ≠ nullSentinel := by
  unfold featureSetOf
  simp only
  split
  · decide
  · rename_i h; exact h

theorem noSentinelKey_accumulateLine {F : Type} (ops : Float64Ops F) (nm : NodesMetrics F)
    (line : Str) (h : noSentinelKey nm) : noSentinelKey (accumulateLine ops nm line) := by
  have hne : ¬ nullSentinel = lineSignature line := fun e => featureSetOf_ne_sentinel _ e.symm
  constructor
  · intro c
    rw [mapKeys_catMap_accumulateLine]
    split
    · rw [mem_addKey]
      rintro (h1 | h1)
      · exact h.1 c h1
      · exact hne h1
    · exact h.1 c
  · rw [mapKeys_total_accumulateLine]
    split
    · rw [mem_addKey]
      rintro (h1 | h1)
      · exact h.2 h1
      · exact hne h1
    · exact h.2

theorem noSentinelKey_loop {F : Type} (ops : Float64Ops F) (nm nm1 : NodesMetrics F)
    (ls : List Str) (hl : ParseNodesLoop ops nm ls = some nm1) (h : noSentinelKey nm) :
    noSentinelKey nm1 := by
  induction ls generalizing nm with
  | nil =>
    simp only [ParseNodesLoop, Option.some.injEq] at hl
    rw [← hl]; exact h
  | cons l ls ih =>
    unfold ParseNodesLoop at hl
    cases hx : ParseNodesLine ops nm l with
    | none => rw [hx] at hl; exact absurd hl (by simp)
    | some nm2 =>
      rw [hx] at hl
      have he := ParseNodesLine_some_eq ops nm nm2 l hx
      exact ih nm2 hl (he ▸ noSentinelKey_accumulateLine ops nm l h)

/-! ## RemoveDuplicates as the list of first occurrences -/

theorem freshOnes_eq_firstOccurrences (m s : List Str) :
    freshOnes m s =
      (firstOccurrences (s.filter (fun v => decide (v ≠ [])))).filter
        (fun x => decide (¬ x ∈ m)) := by
  induction s generalizing m with
  | nil => simp [freshOnes, firstOccurrences]
  | cons v s ih =>
    by_cases hv : v = []
    · subst hv
      simp [freshOnes, ih]
    · have hf : (v :: s).filter (fun v => decide (v ≠ [])) =
          v :: s.filter (fun v => decide (v ≠ [])) := by simp [List.filter_cons, hv]
      rw [hf, firstOccurrences, List.filter_cons]
      by_cases hm : v ∈ m
      · have h1 : ¬ (¬ v ∈ m ∧ v ≠ []) := fun h => h.1 hm
        rw [freshOnes, if_neg h1, ih, List.filter_filter]
        simp only [hm, not_true_eq_false, decide_False, Bool.false_eq_true, if_false]
        apply List.filter_congr
        intro x _
        by_cases hx : x ∈ m
        · simp [hx]
        · have : x ≠ v := fun e => hx (e ▸ hm)
          simp [hx, this]
      · have h1 : ¬ v ∈ m ∧ v ≠ [] := ⟨hm, hv⟩
        rw [freshOnes, if_pos h1, ih, List.filter_filter]
        simp only [hm, not_false_eq_true, decide_True, if_true]
        congr 1
        apply List.filter_congr
        intro x _
        by_cases hx : x = v
        · simp [hx]
        · simp [hx]

theorem filter_not_mem_nil (l : List Str) :
    l.filter (fun x => decide (¬ x ∈ ([] : List Str))) = l := by
  simp

theorem freshOnes_self (m t : List Str) (hn : t.Nodup) (he : ¬ [] ∈ t)
    (hm : ∀ x ∈ t, ¬ x ∈ m) : freshOnes m t = t := by
  induction t generalizing m with
  | nil => rfl
  | cons v t ih =>
    have hv : ¬ v ∈ m ∧ v ≠ [] :=
      ⟨hm v (List.mem_cons_self _ _), fun e => he (e ▸ List.mem_cons_self _ _)⟩
    rw [freshOnes, if_pos hv]
    congr 1
    apply ih _ (List.nodup_cons.1 hn).2 (fun h => he (List.mem_cons_of_mem _ h))
    intro x hx hxm
    rcases List.mem_cons.1 hxm with e | h
    · exact (List.nodup_cons.1 hn).1 (e ▸ hx)
    · exact hm x (List.mem_cons_of_mem _ hx) h

/-! ## the backfill cycle fields -/

theorem getLast?_cons_getD (x : Str) (ys : List Str) :
    (x :: ys).getLast? = some (ys.getLast?.getD x) := by
  induction ys generalizing x with
  | nil => rfl
  | cons y ys ih => rw [List.getLast?_cons_cons, ih y]; rfl

theorem foldl_backfill_last_cycle {F : Type} (ops : Float64Ops F) (lines : List Str)
    (s : SchedulerLoop F) (h : s.lc_count = 0 ∨ s.lc_count = 1) :
    (lines.foldl (scalarStep ops) s).sm.backfill_last_cycle =
      match (lines.filter isLastCycleLine).getLast? with
      | some l => valueOf ops l
      | none => s.sm.backfill_last_cycle := by
  induction lines generalizing s with
  | nil => rfl
  | cons x xs ih =>
    rw [List.foldl_cons]
    cases hx : isLastCycleLine x
    · obtain ⟨a, _, c⟩ := scalarStep_lc_other ops s x hx
      rw [ih _ (a ▸ h), List.filter_cons, hx, c]
      rfl
    · have hs : (scalarStep ops s x).lc_count = 1 ∧
          (scalarStep ops s x).sm.backfill_last_cycle = valueOf ops x := by
        rcases h with h | h
        · obtain ⟨a, _, c⟩ := scalarStep_lc_first ops s x hx h
          exact ⟨a, c⟩
        · obtain ⟨a, _, c⟩ := scalarStep_lc_later ops s x hx h
          exact ⟨a, c⟩
      rw [ih _ (Or.inr hs.1), List.filter_cons, hx, if_pos rfl, getLast?_cons_getD, hs.2]
      cases (xs.filter isLastCycleLine).getLast? <;> rfl

theorem foldl_backfill_mean_cycle {F : Type} (ops : Float64Ops F) (lines : List Str)
    (s : SchedulerLoop F) (h : s.mc_count = 0 ∨ s.mc_count = 1) :
    (lines.foldl (scalarStep ops) s).sm.backfill_mean_cycle =
      match (lines.filter isMeanCycleLine).getLast? with
      | some l => valueOf ops l
      | none => s.sm.backfill_mean_cycle := by
  induction lines generalizing s with
  | nil => rfl
  | cons x xs ih =>
    rw [List.foldl_cons]
    cases hx : isMeanCycleLine x
    · obtain ⟨a, _, c⟩ := scalarStep_mc_other ops s x hx
      rw [ih _ (a ▸ h), List.filter_cons, hx, c]
      rfl
    · have hs : (scalarStep ops s x).mc_count = 1 ∧
          (scalarStep ops s x).sm.backfill_mean_cycle = valueOf ops x := by
        rcases h with h | h
        · obtain ⟨a, _, c⟩ := scalarStep_mc_first ops s x hx h
          exact ⟨a, c⟩
        · obtain ⟨a, _, c⟩ := scalarStep_mc_later ops s x hx h
          exact ⟨a, c⟩
      rw [ih _ (Or.inr hs.1), List.filter_cons, hx, if_pos rfl, getLast?_cons_getD, hs.2]
      cases (xs.filter isMeanCycleLine).getLast? <;> rfl

/-! ## the prefixes of the node states -/

theorem prefixTable_incomparable :
    ∀ p ∈ prefixTable, ∀ q ∈ prefixTable,
      p.1.toList.isPrefixOf q.1.toList = true → p = q := by
  decide

theorem prefixTable_unique (state : Str) (p q : String × NodeCategory)
    (hp : p ∈ prefixTable) (hq : q ∈ prefixTable)
    (h1 : p.1.toList.isPrefixOf state = true) (h2 : q.1.toList.isPrefixOf state = true) :
    p = q := by
  rcases List.prefix_or_prefix_of_prefix (List.isPrefixOf_iff_prefix.1 h1)
      (List.isPrefixOf_iff_prefix.1 h2) with h | h
  · exact prefixTable_incomparable p hp q hq (List.isPrefixOf_iff_prefix.2 h)
  · exact (prefixTable_incomparable q hq p hp (List.isPrefixOf_iff_prefix.2 h)).symm

theorem classifyWith_perm (table : List (String × NodeCategory)) (state : Str)
    (h : table.Perm prefixTable) : classifyWith table state = classifyWith prefixTable state := by
  unfold classifyWith
  cases h1 : table.find? (fun p => p.1.toList.isPrefixOf state) with
  | none =>
    cases h2 : prefixTable.find? (fun p => p.1.toList.isPrefixOf state) with
    | none => rfl
    | some q =>
      exfalso
      have hq := List.find?_some h2
      have hm := List.mem_of_find?_eq_some h2
      exact (List.find?_eq_none.1 h1) q (h.mem_iff.2 hm) hq
  | some p =>
    have hp := List.find?_some h1
    have hpm := h.mem_iff.1 (List.mem_of_find?_eq_some h1)
    cases h2 : prefixTable.find? (fun p => p.1.toList.isPrefixOf state) with
    | none =>
      exfalso
      exact (List.find?_eq_none.1 h2) p hpm hp
    | some q =>
      have hq := List.find?_some h2
      have hqm := List.mem_of_find?_eq_some h2
      rw [prefixTable_unique state p q hpm hqm hp hq]

/-! ## the order of the input lines, and the total map -/

theorem lines_uniq_congr_nonempty {l₁ l₂ : List Str}
    (h : ∀ x, x ≠ [] → (x ∈ l₁ ↔ x ∈ l₂)) :
    RemoveDuplicates (sortStrings l₁) = RemoveDuplicates (sortStrings l₂) := by
  apply eq_of_perm_of_sorted_strLe
  · apply (List.perm_ext_iff_of_nodup (RemoveDuplicates_nodup _) (RemoveDuplicates_nodup _)).2
    intro x
    simp only [mem_RemoveDuplicates, mem_sortStrings]
    constructor
    · rintro ⟨h1, h2⟩; exact ⟨(h x h2).1 h1, h2⟩
    · rintro ⟨h1, h2⟩; exact ⟨(h x h2).2 h1, h2⟩
  · exact (sortStrings_sorted l₁).sublist (RemoveDuplicates_sublist _)
  · exact (sortStrings_sorted l₂).sublist (RemoveDuplicates_sublist _)

theorem ParseNodesLoop_some_eq {F : Type} (ops : Float64Ops F) (nm nm1 : NodesMetrics F)
    (ls : List Str) (h : ParseNodesLoop ops nm ls = some nm1) :
    nm1 = ls.foldl (accumulateLine ops) nm := by
  induction ls generalizing nm with
  | nil =>
    simp only [ParseNodesLoop, Option.some.injEq] at h
    exact h.symm
  | cons l ls ih =>
    unfold ParseNodesLoop at h
    cases hx : ParseNodesLine ops nm l with
    | none => rw [hx] at h; exact absurd h (by simp)
    | some nm2 =>
      rw [hx] at h
      rw [List.foldl_cons, ← ParseNodesLine_some_eq ops nm nm2 l hx]
      exact ih nm2 h

theorem mapSet_self {F : Type} (z : F) (m : FMap F) (k : Str) :
    mapSet m k (mapGet z m k) = if k ∈ mapKeys m then m else m ++ [(k, z)] := by
  induction m with
  | nil => simp [mapSet, mapGet, mapKeys]
  | cons p m ih =>
    obtain ⟨k', v'⟩ := p
    by_cases h : k' = k
    · subst h
      simp only [mapSet, mapGet, if_true, mapKeys, List.map_cons, List.mem_cons, true_or]
    · have h' : ¬ k = k' := fun e => h e.symm
      simp only [mapKeys] at ih
      simp only [mapSet, mapGet, h, if_false, ih, mapKeys, List.map_cons, List.mem_cons, h',
        false_or]
      by_cases hm : k ∈ List.map Prod.fst m
      · rw [if_pos hm, if_pos hm]
      · rw [if_neg hm, if_neg hm]; rfl

theorem total_accumulateLine {F : Type} (ops : Float64Ops F) (nm : NodesMetrics F)
    (line : Str) :
    (accumulateLine ops nm line).total =
      if Contains line ['|'] then
        mapSet nm.total (lineSignature line) (mapGet ops.zero nm.total (lineSignature line))
      else nm.total := by
  unfold accumulateLine
  cases hc : Contains line ['|']
  · simp
  · simp [total_addToCategory, InitFeatureSet]

theorem total_values_accumulateLine {F : Type} (ops : Float64Ops F) (nm : NodesMetrics F)
    (line : Str) (h : ∀ p ∈ nm.total, p.2 = ops.zero) :
    ∀ p ∈ (accumulateLine ops nm line).total, p.2 = ops.zero := by
  rw [total_accumulateLine]
  split
  · rw [mapSet_self]
    split
    · exact h
    · intro p hp
      rcases List.mem_append.1 hp with h1 | h1
      · exact h p h1
      · simp only [List.mem_singleton] at h1
        rw [h1]
  · exact h

theorem total_values_foldl {F : Type} (ops : Float64Ops F) (nm : NodesMetrics F)
    (ls : List Str) (h : ∀ p ∈ nm.total, p.2 = ops.zero) :
    ∀ p ∈ (ls.foldl (accumulateLine ops) nm).total, p.2 = ops.zero := by
  induction ls generalizing nm with
  | nil => exact h
  | cons l ls ih =>
    rw [List.foldl_cons]
    exact ih _ (total_values_accumulateLine ops nm l h)

theorem mapGet_of_values {F : Type} (z : F) (m : FMap F) (g : Str)
    (h : ∀ p ∈ m, p.2 = z) : mapGet z m g = z := by
  induction m with
  | nil => rfl
  | cons p m ih =>
    obtain ⟨k, v⟩ := p
    unfold mapGet
    split
    · exact h (k, v) (List.mem_cons_self _ _)
    · exact ih (fun q hq => h q (List.mem_cons_of_mem _ hq))

/-! ## where a label starts -/

theorem matchLabel_some (state : Str) (lab : ScalarLabel) (h : matchLabel state = some lab) :
    ∃ p ∈ scalarPatterns, p.1 = lab ∧ p.2.MatchString state = true := by
  unfold matchLabel at h
  cases hf : scalarPatterns.find? (fun p => p.2.MatchString state) with
  | none => rw [hf] at h; exact absurd h (by simp)
  | some p =>
    rw [hf] at h
    simp only [Option.some.injEq] at h
    have hm := List.find?_some hf
    exact ⟨p, List.mem_of_find?_eq_some hf, h, hm⟩

theorem reIndented_starts_with_space (p : String) (e : Bool) (state : Str)
    (h : (reIndented p e).MatchString state = true) :
    ∃ c t, state = c :: t ∧ reSpace c = true := by
  obtain ⟨c, t, hs, hc, _⟩ := (reIndented_matches p e state).1 h
  exact ⟨c, t, hs, hc⟩

theorem matchLabel_indented (state : Str) (lab : ScalarLabel)
    (h : matchLabel state = some lab) (hl : lab ∈ indentedLabels) :
    ∃ c t, state = c :: t ∧ reSpace c = true := by
  obtain ⟨p, hp, h1, h2⟩ := matchLabel_some state lab h
  simp only [scalarPatterns, List.mem_cons, List.mem_singleton, List.not_mem_nil,
    or_false] at hp
  rcases hp with rfl | rfl | rfl | rfl | rfl | rfl | rfl | rfl | rfl | rfl
  · subst h1; exact absurd hl (by decide)
  · subst h1; exact absurd hl (by decide)
  · subst h1; exact absurd hl (by decide)
  · exact reIndented_starts_with_space _ _ state h2
  · exact reIndented_starts_with_space _ _ state h2
  · exact reIndented_starts_with_space _ _ state h2
  · exact reIndented_starts_with_space _ _ state h2
  · exact reIndented_starts_with_space _ _ state h2
  · exact reIndented_starts_with_space _ _ state h2
  · exact reIndented_starts_with_space _ _ state h2

theorem matchLabel_column_zero (state : Str) (lab : ScalarLabel)
    (h : matchLabel state = some lab) :
    (lab = ScalarLabel.st → "Server thread".toList.isPrefixOf state = true) ∧
      (lab = ScalarLabel.qs → "Agent queue".toList.isPrefixOf state = true) ∧
      (lab = ScalarLabel.dbd → "DBD Agent".toList.isPrefixOf state = true) := by
  obtain ⟨p, hp, h1, h2⟩ := matchLabel_some state lab h
  simp only [scalarPatterns, List.mem_cons, List.mem_singleton, List.not_mem_nil,
    or_false] at hp
  rcases hp with rfl | rfl | rfl | rfl | rfl | rfl | rfl | rfl | rfl | rfl <;> subst h1 <;>
    refine ⟨?_, ?_, ?_⟩ <;> intro hh <;> first
      | exact absurd hh (by decide)
      | (rw [← MatchString_rePrefix]; exact h2)

/-! ## exact accumulation -/

theorem val_foldl_of_exactFold {F M : Type} [AddCommMonoid M] (ops : Float64Ops F)
    (val : F → M) (a : F) (xs : List F) (h : ExactFold ops val a xs) :
    val (xs.foldl ops.add a) = val a + (xs.map val).sum := by
  induction xs generalizing a with
  | nil => simp
  | cons x xs ih =>
    obtain ⟨h1, h2⟩ := h
    rw [List.foldl_cons, ih _ h2, h1, List.map_cons, List.sum_cons, add_assoc]

theorem mem_allCategories (c : NodeCategory) : c ∈ allCategories := by
  cases c <;> decide

theorem bitLength_le (fuel n k : Nat) (h : n < 2 ^ k) : bitLength fuel n ≤ k := by
  induction fuel generalizing n k with
  | zero => exact Nat.zero_le _
  | succ fuel ih =>
    unfold bitLength
    split
    · exact Nat.zero_le _
    · rename_i hn
      cases k with
      | zero =>
        simp only [pow_zero, Nat.lt_one_iff] at h
        exact absurd h hn
      | succ k =>
        have : n / 2 < 2 ^ k := by
          rw [Nat.div_lt_iff_lt_mul (by decide)]
          rw [pow_succ] at h
          exact h
        exact Nat.succ_le_succ (ih _ _ this)

theorem Float64_ofNat_small (n : Nat) (h : n < 2 ^ 53) : Float64.ofNat n = Float64.fin n := by
  have hr : roundFloat64 n = n := by
    unfold roundFloat64
    rw [if_pos h]
  unfold Float64.ofNat
  rw [hr]
  have hb : bitLength (n + 1) n ≤ 1024 :=
    le_trans (bitLength_le (n + 1) n 53 h) (by decide)
  rw [if_pos hb]

theorem exactFold_float64_small (m : Nat) (ns : List Nat) (h : m + ns.sum < 2 ^ 53) :
    ExactFold float64Ops Float64.toNat (Float64.fin m) (ns.map Float64.fin) := by
  induction ns generalizing m with
  | nil => trivial
  | cons n ns ih =>
    rw [List.sum_cons, ← add_assoc] at h
    have hmn : m + n < 2 ^ 53 := lt_of_le_of_lt (Nat.le_add_right _ _) h
    have ha : float64Ops.add (Float64.fin m) (Float64.fin n) = Float64.fin (m + n) :=
      Float64_ofNat_small (m + n) hmn
    refine ⟨?_, ?_⟩
    · rw [ha]; rfl
    · rw [ha]; exact ih (m + n) h

/-! ## the guard counters -/

theorem foldl_lc_count {F : Type} (ops : Float64Ops F) (lines : List Str)
    (s : SchedulerLoop F) (h : s.lc_count = 0 ∨ s.lc_count = 1) :
    (lines.foldl (scalarStep ops) s).lc_count =
      if lines.filter isLastCycleLine = [] then s.lc_count else 1 := by
  induction lines generalizing s with
  | nil => rfl
  | cons x xs ih =>
    rw [List.foldl_cons]
    cases hx : isLastCycleLine x
    · obtain ⟨a, _, _⟩ := scalarStep_lc_other ops s x hx
      rw [ih _ (a ▸ h), List.filter_cons, hx, a]
      rfl
    · have hs : (scalarStep ops s x).lc_count = 1 := by
        rcases h with h | h
        · exact (scalarStep_lc_first ops s x hx h).1
        · exact (scalarStep_lc_later ops s x hx h).1
      rw [ih _ (Or.inr hs), List.filter_cons, hx, hs]
      simp

theorem foldl_mc_count {F : Type} (ops : Float64Ops F) (lines : List Str)
    (s : SchedulerLoop F) (h : s.mc_count = 0 ∨ s.mc_count = 1) :
    (lines.foldl (scalarStep ops) s).mc_count =
      if lines.filter isMeanCycleLine = [] then s.mc_count else 1 := by
  induction lines generalizing s with
  | nil => rfl
  | cons x xs ih =>
    rw [List.foldl_cons]
    cases hx : isMeanCycleLine x
    · obtain ⟨a, _, _⟩ := scalarStep_mc_other ops s x hx
      rw [ih _ (a ▸ h), List.filter_cons, hx, a]
      rfl
    · have hs : (scalarStep ops s x).mc_count = 1 := by
        rcases h with h | h
        · exact (scalarStep_mc_first ops s x hx h).1
        · exact (scalarStep_mc_later ops s x hx h).1
      rw [ih _ (Or.inr hs), List.filter_cons, hx, hs]
      simp

theorem lineCount_of_fields {F : Type} (ops : Float64Ops F) (line field0 : Str)
    (rest : List Str) (h : Split '|' line = field0 :: rest) :
    lineCount ops line = ParseFloat ops (TrimSpace field0) := by
  simp [lineCount, h]

/-! # Properties of the two parsers -/

/-- C1, at the input `5|alloc`: the line holds a delimiter and splits into two
fields, the loop body reads the third one, and ParseNodesMetrics aborts instead
of returning a value. -/
theorem ParseNodesMetrics_two_fields_aborts {F : Type} (ops : Float64Ops F) :
    ParseNodesMetrics ops "5|alloc".toList = none := by
  rfl

/-- C2, as stated, fails through the rounding of float64 addition.  On the
report with the counts 1 and 10999999999999988 in the same category the map
alloc stores 10999999999999988, so the values of the twelve maps sum to that
number while the counts sum to 10999999999999989.  On the report with three
categories, adding the values of the twelve maps in float64 gives two to the
power 53 while adding the counts of the lines in float64 gives that number
plus two. -/
theorem conservation_fails_by_rounding :
    (∀ l ∈ Split '\n' roundingReport, WellFormedLine l) ∧
      (ParseNodesMetrics float64Ops roundingReport).map (fun nm =>
        (allCategories.map (fun c =>
          (mapGet float64Ops.zero (catMap nm c) "a".toList).toNat)).sum) =
        some 10999999999999988 ∧
      (((distinctLines (Split '\n' roundingReport)).filter
        (fun l => Contains l ['|'] && decide (lineSignature l = "a".toList))).map
          (fun l => (lineCount float64Ops l).toNat)).sum = 10999999999999989 ∧
      (∀ l ∈ Split '\n' threeCategoriesReport, WellFormedLine l) ∧
      (ParseNodesMetrics float64Ops threeCategoriesReport).map (fun nm =>
        (allCategories.map (fun c => mapGet float64Ops.zero (catMap nm c) "a".toList)).foldl
          float64Ops.add float64Ops.zero) = some (Float64.fin 9007199254740992) ∧
      (((distinctLines (Split '\n' threeCategoriesReport)).filter
        (fun l => Contains l ['|'] && decide (lineSignature l = "a".toList))).map
          (lineCount float64Ops)).foldl float64Ops.add float64Ops.zero =
        Float64.fin 9007199254740994 := by
  decide

/-- C2, amended: when every line that holds a delimiter has at least three
fields and every addition the loop makes under a signature is exact, the
numbers stored under the signature in the twelve category maps sum to the sum
of the counts of the distinct non-empty lines that hold a delimiter and have
this signature; float64 additions of non-negative integers whose total is below
two to the power 53 are exact. -/
theorem ParseNodesMetrics_conservation_exact {F M : Type} [AddCommMonoid M]
    (ops : Float64Ops F) (val : F → M) (input g : Str)
    (hwf : ∀ l ∈ Split '\n' input, WellFormedLine l) (hz : val ops.zero = 0)
    (hex : ∀ c ∈ allCategories,
      ExactFold ops val ops.zero (countsAdded ops (Split '\n' input) g c)) :
    (∃ nm, ParseNodesMetrics ops input = some nm ∧
      (allCategories.map (fun c => val (mapGet ops.zero (catMap nm c) g))).sum =
        (((distinctLines (Split '\n' input)).filter
          (fun l => Contains l ['|'] && decide (lineSignature l = g))).map
            (fun l => val (lineCount ops l))).sum) ∧
      (∀ (m : Nat) (ns : List Nat), m + ns.sum < 2 ^ 53 →
        ExactFold float64Ops Float64.toNat (Float64.fin m) (ns.map Float64.fin)) := by
  refine ⟨⟨_, ParseNodesMetrics_wellFormed ops input hwf, ?_⟩, exactFold_float64_small⟩
  have hval : ∀ c ∈ allCategories,
      val (mapGet ops.zero (catMap ((RemoveDuplicates (sortStrings (Split '\n' input))).foldl
        (accumulateLine ops) (emptyNodesMetrics F)) c) g) =
      (((RemoveDuplicates (sortStrings (Split '\n' input))).filter
        (fun l => (Contains l ['|'] && decide (lineSignature l = g)) &&
          decide (classify (lineState l) = c))).map (fun l => val (lineCount ops l))).sum := by
    intro c hc
    have h := mapGet_catMap_foldl ops (emptyNodesMetrics F)
      (RemoveDuplicates (sortStrings (Split '\n' input))) c g
    have he : mapGet ops.zero (catMap (emptyNodesMetrics F) c) g = ops.zero := by
      cases c <;> rfl
    rw [he] at h
    have hx := val_foldl_of_exactFold ops val _ _ (hex c hc)
    unfold countsAdded countsAddedWith at hx
    rw [h, hx, hz, zero_add, List.map_map]
    rfl
  rw [List.map_congr_left hval]
  rw [sum_over_categories (fun l => val (lineCount ops l))
    (fun l => Contains l ['|'] && decide (lineSignature l = g))]
  exact (((lines_uniq_perm_distinctLines _).filter _).map _).sum_eq

theorem ParseNodesMetrics_conservation_exact_witness :
    ((∀ l ∈ Split '\n' smallCountsReport, WellFormedLine l) ∧
      Float64.toNat float64Ops.zero = 0 ∧
      ∀ c ∈ allCategories, ExactFold float64Ops Float64.toNat float64Ops.zero
        (countsAdded float64Ops (Split '\n' smallCountsReport) "a,b".toList c)) ∧
      ∃ nm, ParseNodesMetrics float64Ops smallCountsReport = some nm ∧
        (allCategories.map (fun c =>
          Float64.toNat (mapGet float64Ops.zero (catMap nm c) "a,b".toList))).sum =
          (((distinctLines (Split '\n' smallCountsReport)).filter
            (fun l => Contains l ['|'] && decide (lineSignature l = "a,b".toList))).map
              (fun l => Float64.toNat (lineCount float64Ops l))).sum :=
  ⟨by decide,
    (ParseNodesMetrics_conservation_exact float64Ops Float64.toNat smallCountsReport
      "a,b".toList (by decide) (by decide) (by decide)).1⟩

/-- C3: a line with three fields adds its count, under its feature signature,
to the map of the category that ordered prefix matching gives to its state
token, and to no other map; `alloc`, `alloc#` and `allocated-fragment` are
classified as alloc, `bogus` as other, and a token that holds a prefix without
starting with one is classified as other. -/
theorem ParseNodesLine_classifies {F : Type} (ops : Float64Ops F) (nm : NodesMetrics F)
    (line field0 state field2 : Str) (rest : List Str)
    (h : Split '|' line = field0 :: state :: field2 :: rest) :
    ParseNodesLine ops nm line =
        some (addToCategory ops (InitFeatureSet ops nm (featureSetOf field2)) (classify state)
          (featureSetOf field2) (ParseFloat ops (TrimSpace field0))) ∧
      classify "alloc".toList = NodeCategory.alloc ∧
      classify "alloc#".toList = NodeCategory.alloc ∧
      classify "allocated-fragment".toList = NodeCategory.alloc ∧
      classify "bogus".toList = NodeCategory.other ∧
      classify "unalloc".toList = NodeCategory.other ∧
      ((∀ p ∈ prefixTable, p.1.toList.isPrefixOf state = false) →
        classify state = NodeCategory.other) := by
  refine ⟨ParseNodesLine_fields ops nm line field0 state field2 rest h, by decide, by decide,
    by decide, by decide, by decide, ?_⟩
  intro hp
  have hf : prefixTable.find? (fun p => p.1.toList.isPrefixOf state) = none := by
    rw [List.find?_eq_none]
    intro p hmem
    rw [hp p hmem]
    exact Bool.false_ne_true
  unfold classify
  rw [hf]

theorem ParseNodesLine_classifies_witness :
    Split '|' "2|drain*|gpu,a100".toList =
        "2".toList :: "drain*".toList :: "gpu,a100".toList :: [] ∧
      (ParseNodesLine natOps (emptyNodesMetrics Nat) "2|drain*|gpu,a100".toList).map
        (fun nm => (nm.drain, nm.down, nm.other)) =
        some ([("a100,gpu".toList, 2)], [("a100,gpu".toList, 0)], [("a100,gpu".toList, 0)]) :=
  ⟨by decide, by
    rw [(ParseNodesLine_classifies natOps (emptyNodesMetrics Nat) "2|drain*|gpu,a100".toList
      "2".toList "drain*".toList "gpu,a100".toList [] (by decide)).1]
    decide⟩

/-- C4: a line that already occurs in the list of lines changes nothing when
one more copy of it is appended. -/
theorem ParseNodesLines_duplicate {F : Type} (ops : Float64Ops F) (L : List Str) (l : Str)
    (h : l ∈ L) : ParseNodesLines ops (L ++ [l]) = ParseNodesLines ops L := by
  unfold ParseNodesLines
  have hl : RemoveDuplicates (sortStrings (L ++ [l])) = RemoveDuplicates (sortStrings L) := by
    apply lines_uniq_congr
    intro x
    simp only [List.mem_append, List.mem_singleton]
    constructor
    · rintro (hx | hx)
      · exact hx
      · exact hx ▸ h
    · exact Or.inl
  simp only [hl]

theorem ParseNodesLines_duplicate_witness :
    "5|alloc|a".toList ∈ ["5|alloc|a".toList, "3|idle|b".toList] ∧
      ParseNodesLines natOps (["5|alloc|a".toList, "3|idle|b".toList] ++ ["5|alloc|a".toList]) =
        ParseNodesLines natOps ["5|alloc|a".toList, "3|idle|b".toList] :=
  ⟨by decide, ParseNodesLines_duplicate natOps _ _ (by decide)⟩

/-- C5: two feature lists that are permutations of one another have the same
signature, so a line with the second list writes under the key of the
first. -/
theorem featureSetOf_perm {F : Type} (ops : Float64Ops F) (a b : Str)
    (h : (Split ',' a).Perm (Split ',' b)) :
    featureSetOf a = featureSetOf b ∧
      ∀ (nm : NodesMetrics F) (line field0 state : Str) (rest : List Str),
        Split '|' line = field0 :: state :: b :: rest →
        ParseNodesLine ops nm line =
          some (addToCategory ops (InitFeatureSet ops nm (featureSetOf a)) (classify state)
            (featureSetOf a) (ParseFloat ops (TrimSpace field0))) := by
  have hab : featureSetOf a = featureSetOf b := by
    unfold featureSetOf
    rw [sortStrings_congr h]
  refine ⟨hab, ?_⟩
  intro nm line field0 state rest hs
  rw [hab]
  exact ParseNodesLine_fields ops nm line field0 state b rest hs

theorem featureSetOf_perm_witness :
    (Split ',' "gpu,a100,ib".toList).Perm (Split ',' "ib,gpu,a100".toList) ∧
      featureSetOf "gpu,a100,ib".toList = featureSetOf "ib,gpu,a100".toList :=
  ⟨by decide, (featureSetOf_perm natOps _ _ (by decide)).1⟩

/-- C6: when every line that holds a delimiter has at least three fields,
ParseNodesMetrics returns maps that all have the same keys, the feature
signatures of the lines it processed, and a signature that no processed line
brings to a category is stored in the map of that category with the value
zero. -/
theorem ParseNodesMetrics_zero_fill {F : Type} (ops : Float64Ops F) (input : Str)
    (hwf : ∀ l ∈ Split '\n' input, WellFormedLine l) :
    ∃ nm, ParseNodesMetrics ops input = some nm ∧
      (∀ c, mapKeys (catMap nm c) = mapKeys nm.alloc) ∧
      (∀ c g, g ∈ mapKeys (catMap nm c) ↔
        ∃ l ∈ processedLines (Split '\n' input), lineSignature l = g) ∧
      (∀ c g, g ∈ mapKeys nm.alloc →
        (∀ l ∈ processedLines (Split '\n' input),
          lineSignature l = g → classify (lineState l) ≠ c) →
        (g, ops.zero) ∈ catMap nm c) := by
  refine ⟨_, ParseNodesMetrics_wellFormed ops input hwf, ?_, ?_, ?_⟩
  · intro c
    have ha := mapKeys_catMap_foldl ops (emptyNodesMetrics F)
      (RemoveDuplicates (sortStrings (Split '\n' input))) NodeCategory.alloc
    simp only [catMap] at ha
    rw [mapKeys_catMap_foldl, ha]
    cases c <;> rfl
  · intro c g
    rw [mapKeys_catMap_foldl, mem_foldl_addKey]
    have he : mapKeys (catMap (emptyNodesMetrics F) c) = [] := by cases c <;> rfl
    simp only [he, List.not_mem_nil, false_or, List.mem_map, processedLines]
  · intro c g hg hnone
    have hk : g ∈ mapKeys (catMap ((RemoveDuplicates (sortStrings (Split '\n' input))).foldl
        (accumulateLine ops) (emptyNodesMetrics F)) c) := by
      have ha := mapKeys_catMap_foldl ops (emptyNodesMetrics F)
        (RemoveDuplicates (sortStrings (Split '\n' input))) NodeCategory.alloc
      simp only [catMap] at ha
      rw [ha] at hg
      rw [mapKeys_catMap_foldl]
      have he : mapKeys (catMap (emptyNodesMetrics F) c) =
          mapKeys (emptyNodesMetrics F).alloc := by cases c <;> rfl
      rw [he]; exact hg
    have hv := mapGet_catMap_foldl ops (emptyNodesMetrics F)
      (RemoveDuplicates (sortStrings (Split '\n' input))) c g
    have hnil : (RemoveDuplicates (sortStrings (Split '\n' input))).filter
        (fun l => (Contains l ['|'] && decide (lineSignature l = g)) &&
          decide (classify (lineState l) = c)) = [] := by
      rw [List.filter_eq_nil_iff]
      intro l hl hh
      simp only [Bool.and_eq_true, decide_eq_true_eq] at hh
      exact hnone l (by simp [processedLines, hl, hh.1.1]) hh.1.2 hh.2
    have he : mapGet ops.zero (catMap (emptyNodesMetrics F) c) g = ops.zero := by
      cases c <;> rfl
    rw [hnil, he] at hv
    have hm := mem_of_mapKeys ops.zero _ g hk
    rw [hv] at hm
    exact hm

theorem ParseNodesMetrics_zero_fill_witness :
    (∀ l ∈ Split '\n' "5|alloc|b,a\n3|idle|(null)\n".toList, WellFormedLine l) ∧
      ∃ nm, ParseNodesMetrics natOps "5|alloc|b,a\n3|idle|(null)\n".toList = some nm ∧
        (∀ c, mapKeys (catMap nm c) = mapKeys nm.alloc) ∧
        (∀ c g, g ∈ mapKeys (catMap nm c) ↔
          ∃ l ∈ processedLines (Split '\n' "5|alloc|b,a\n3|idle|(null)\n".toList),
            lineSignature l = g) ∧
        (∀ c g, g ∈ mapKeys nm.alloc →
          (∀ l ∈ processedLines (Split '\n' "5|alloc|b,a\n3|idle|(null)\n".toList),
            lineSignature l = g → classify (lineState l) ≠ c) →
          (g, natOps.zero) ∈ catMap nm c) :=
  ⟨by decide, ParseNodesMetrics_zero_fill natOps _ (by decide)⟩

/-- C7: ParseSchedulerMetrics returns a value whose last_cycle is the number
read on the first recognised `Last cycle` line and whose mean_cycle is the
number read on the first recognised `Mean cycle` line, whatever follows; on the
report with two `Last cycle` lines valued 100 then 55, last_cycle is 100. -/
theorem ParseSchedulerMetrics_first_cycle {F : Type} (ops : Float64Ops F) (input : Str) :
    (∃ sm, ParseSchedulerMetrics ops input = some sm ∧
      (∀ l rest, (Split '\n' input).filter isLastCycleLine = l :: rest →
        sm.last_cycle = valueOf ops l) ∧
      (∀ l rest, (Split '\n' input).filter isMeanCycleLine = l :: rest →
        sm.mean_cycle = valueOf ops l)) ∧
      (ParseSchedulerMetrics natOps twoCyclesReport).map (fun sm => sm.last_cycle) =
        some 100 := by
  refine ⟨⟨_, ParseSchedulerMetrics_eq ops input, ?_, ?_⟩, by decide⟩
  · intro l rest hf
    exact foldl_last_cycle_first ops _ _ rfl l rest hf
  · intro l rest hf
    exact foldl_mean_cycle_first ops _ _ rfl l rest hf

theorem ParseSchedulerMetrics_first_cycle_witness :
    ((Split '\n' cyclesReport).filter isMeanCycleLine =
        ["\tMean cycle: 20".toList, "\tMean cycle: 7".toList] ∧
      (Split '\n' cyclesReport).filter isLastCycleLine =
        ["\tLast cycle: 100".toList, "\tLast cycle: 55".toList]) ∧
      ∃ sm, ParseSchedulerMetrics natOps cyclesReport = some sm ∧
        sm.mean_cycle = 20 ∧ sm.last_cycle = 100 := by
  refine ⟨by decide, ?_⟩
  obtain ⟨sm, h, h1, h2⟩ := (ParseSchedulerMetrics_first_cycle natOps cyclesReport).1
  exact ⟨sm, h,
    (h2 "\tMean cycle: 20".toList ["\tMean cycle: 7".toList] (by decide)).trans (by decide),
    (h1 "\tLast cycle: 100".toList ["\tLast cycle: 55".toList] (by decide)).trans (by decide)⟩

/-- C8, at a report with three recognised `Last cycle` lines valued 100, 55
and 7: the second line is valued 55 and backfill_last_cycle is 7, the value of
the third line. -/
theorem ParseSchedulerMetrics_third_cycle_overwrites :
    (Split '\n' threeCyclesReport).filter isLastCycleLine =
        ["\tLast cycle: 100".toList, "\tLast cycle: 55".toList, "\tLast cycle: 7".toList] ∧
      valueOf natOps "\tLast cycle: 55".toList = 55 ∧
      (ParseSchedulerMetrics natOps threeCyclesReport).map
        (fun sm => (sm.last_cycle, sm.backfill_last_cycle)) = some (100, 7) := by
  decide

/-- C9: a line of ParseRpcStats always yields the next state; while the type
section is active the three user tables are left as they are and a statistics
line is written under its identifier into the three type tables, and while the
type section is not active the three type tables are left as they are and,
the user section being active, the line is written into the three user tables;
on the four lines of the specification the type tables hold REQUEST_JOB_INFO
with 12, 34, 408 and the user tables hold alice with 3, 10, 30, and nothing
else. -/
theorem ParseRpcLine_sections {F : Type} (ops : Float64Ops F) (s : RpcLoop F) (line : Str) :
    (∃ s1, ParseRpcLine ops s line = some s1 ∧
      ((rpcSection s line).in_rpc = true →
        s1.user_count_stats = s.user_count_stats ∧ s1.user_avg_stats = s.user_avg_stats ∧
          s1.user_total_stats = s.user_total_stats) ∧
      ((rpcSection s line).in_rpc = false →
        s1.count_stats = s.count_stats ∧ s1.avg_stats = s.avg_stats ∧
          s1.total_stats = s.total_stats) ∧
      (∀ key c a t, stat_line_re.FindAllStringSubmatch line = [[line, key, c, a, t]] →
        ((rpcSection s line).in_rpc = true →
          s1.count_stats = mapSet s.count_stats key (ParseFloat ops c) ∧
            s1.avg_stats = mapSet s.avg_stats key (ParseFloat ops a) ∧
            s1.total_stats = mapSet s.total_stats key (ParseFloat ops t)) ∧
        ((rpcSection s line).in_rpc = false → (rpcSection s line).in_rpc_per_user = true →
          s1.user_count_stats = mapSet s.user_count_stats key (ParseFloat ops c) ∧
            s1.user_avg_stats = mapSet s.user_avg_stats key (ParseFloat ops a) ∧
            s1.user_total_stats = mapSet s.user_total_stats key (ParseFloat ops t)))) ∧
      ParseRpcStats natOps rpcReport =
        some [[("REQUEST_JOB_INFO".toList, 12)], [("REQUEST_JOB_INFO".toList, 34)],
          [("REQUEST_JOB_INFO".toList, 408)], [("alice".toList, 3)], [("alice".toList, 10)],
          [("alice".toList, 30)]] := by
  refine ⟨⟨_, ParseRpcLine_eq ops s line, ?_, ?_, ?_⟩, by decide⟩
  · intro h
    have hs : (rpcSection s line).user_count_stats = s.user_count_stats ∧
        (rpcSection s line).user_avg_stats = s.user_avg_stats ∧
        (rpcSection s line).user_total_stats = s.user_total_stats := by
      unfold rpcSection; split
      · exact ⟨rfl, rfl, rfl⟩
      · split <;> exact ⟨rfl, rfl, rfl⟩
    unfold rpcStep
    split
    · simp [h, hs]
    · exact hs
  · intro h
    have hs : (rpcSection s line).count_stats = s.count_stats ∧
        (rpcSection s line).avg_stats = s.avg_stats ∧
        (rpcSection s line).total_stats = s.total_stats := by
      unfold rpcSection; split
      · exact ⟨rfl, rfl, rfl⟩
      · split <;> exact ⟨rfl, rfl, rfl⟩
    unfold rpcStep
    split
    · cases h2 : (rpcSection s line).in_rpc_per_user <;> simp [h, h2, hs]
    · exact hs
  · intro key c a t hm
    have hs : (rpcSection s line).count_stats = s.count_stats ∧
        (rpcSection s line).avg_stats = s.avg_stats ∧
        (rpcSection s line).total_stats = s.total_stats ∧
        (rpcSection s line).user_count_stats = s.user_count_stats ∧
        (rpcSection s line).user_avg_stats = s.user_avg_stats ∧
        (rpcSection s line).user_total_stats = s.user_total_stats := by
      unfold rpcSection; split
      · exact ⟨rfl, rfl, rfl, rfl, rfl, rfl⟩
      · split <;> exact ⟨rfl, rfl, rfl, rfl, rfl, rfl⟩
    have hg : matchItems stat_line_re.toEnd stat_line_re.items line = some [key, c, a, t] := by
      unfold Regexp.FindAllStringSubmatch at hm
      cases hx : matchItems stat_line_re.toEnd stat_line_re.items line with
      | none => rw [hx] at hm; simp at hm
      | some gs =>
        rw [hx] at hm
        simp only [List.cons.injEq, and_true, true_and] at hm
        rw [hm]
    unfold rpcStep
    rw [hg]
    obtain ⟨e1, e2, e3, e4, e5, e6⟩ := hs
    constructor
    · intro h
      simp [h, e1, e2, e3]
    · intro h h2
      simp [h, h2, e4, e5, e6]

theorem ParseRpcLine_sections_witness :
    (stat_line_re.FindAllStringSubmatch "alice count:3 ave_time:10 total_time:30".toList =
        [["alice count:3 ave_time:10 total_time:30".toList, "alice".toList, "3".toList,
          "10".toList, "30".toList]] ∧
      (rpcSection userSectionState "alice count:3 ave_time:10 total_time:30".toList).in_rpc =
        false ∧
      (rpcSection userSectionState
        "alice count:3 ave_time:10 total_time:30".toList).in_rpc_per_user = true) ∧
      ∃ s1, ParseRpcLine natOps userSectionState
          "alice count:3 ave_time:10 total_time:30".toList = some s1 ∧
        s1.count_stats = [("X".toList, 1)] ∧ s1.user_count_stats = [("alice".toList, 3)] := by
  refine ⟨by decide, ?_⟩
  obtain ⟨s1, h, _, h2, h3⟩ := (ParseRpcLine_sections natOps userSectionState
    "alice count:3 ave_time:10 total_time:30".toList).1
  exact ⟨s1, h, (h2 (by decide)).1,
    ((h3 "alice".toList "3".toList "10".toList "30".toList (by decide)).2 (by decide)
      (by decide)).1.trans (by decide)⟩

/-- C10, as stated, fails on two lines.  On `Server thread count: 3:4` the
code sets threads to 3, the number between the two colons, while all the text
after the first colon, `3:4`, is not a number and would give zero.  On
`Server thread count: 1e400` the text after the colon does not parse, since
strconv.ParseFloat returns the error ErrRange, and the code sets threads to the
infinity returned with the error, not to zero. -/
theorem scalar_extraction_fails :
    Contains "Server thread count: 3:4".toList [':'] = true ∧
      matchLabel (textBeforeColon "Server thread count: 3:4".toList) = some ScalarLabel.st ∧
      (ParseSchedulerMetrics natOps "Server thread count: 3:4".toList).map
        (fun sm => sm.threads) = some 3 ∧
      (ParseSchedulerMetrics float64Ops "Server thread count: 3:4".toList).map
        (fun sm => sm.threads) = some (Float64.fin 3) ∧
      SplitColonValueToFloat natOps "Server thread count: 3:4".toList = some 3 ∧
      TrimSpace (textAfterColon "Server thread count: 3:4".toList) = "3:4".toList ∧
      ParseFloat natOps (TrimSpace (textAfterColon "Server thread count: 3:4".toList)) = 0 ∧
      strconvParseFloat "3:4".toList = (Float64.fin 0, some NumError.ErrSyntax) ∧
      Contains "Server thread count: 1e400".toList [':'] = true ∧
      matchLabel (textBeforeColon "Server thread count: 1e400".toList) = some ScalarLabel.st ∧
      TrimSpace (textAfterColon "Server thread count: 1e400".toList) = "1e400".toList ∧
      strconvParseFloat "1e400".toList = (Float64.inf, some NumError.ErrRange) ∧
      (ParseSchedulerMetrics float64Ops "Server thread count: 1e400".toList).map
        (fun sm => sm.threads) = some Float64.inf ∧
      Float64.inf ≠ float64Ops.zero := by
  decide

/-- C10, amended: on a line that holds a colon and whose text before the first
colon matches a scalar label pattern, read after any lines, the loop body
yields a state in which the field of the first matching label holds the number
parsed from the trimmed text between the first colon and the next colon or the
end of the line; for `Last cycle` and `Mean cycle` the field is the one of the
main scheduler when no line of the label came before, and the backfill field
when one did.  The number is zero when strconv.ParseFloat reports that the text
is not a number, and the value strconv.ParseFloat returns in every other case;
the helper SplitColonValueToFloat reads the same number. -/
theorem ParseSchedulerLine_scalar {F : Type} (ops : Float64Ops F) (pre : List Str)
    (line : Str) (lab : ScalarLabel) (hc : Contains line [':'] = true)
    (hm : matchLabel (textBeforeColon line) = some lab) :
    (∃ s s1, ParseSchedulerLoop ops (initSchedulerLoop ops) pre = some s ∧
      ParseSchedulerLine ops s line = some s1 ∧
      (lab ≠ ScalarLabel.lc → lab ≠ ScalarLabel.mc →
        scalarField s1.sm lab = ParseFloat ops (TrimSpace (textBetweenColons line))) ∧
      (lab = ScalarLabel.lc → pre.filter isLastCycleLine = [] →
        s1.sm.last_cycle = ParseFloat ops (TrimSpace (textBetweenColons line))) ∧
      (lab = ScalarLabel.lc → pre.filter isLastCycleLine ≠ [] →
        s1.sm.backfill_last_cycle = ParseFloat ops (TrimSpace (textBetweenColons line))) ∧
      (lab = ScalarLabel.mc → pre.filter isMeanCycleLine = [] →
        s1.sm.mean_cycle = ParseFloat ops (TrimSpace (textBetweenColons line))) ∧
      (lab = ScalarLabel.mc → pre.filter isMeanCycleLine ≠ [] →
        s1.sm.backfill_mean_cycle = ParseFloat ops (TrimSpace (textBetweenColons line)))) ∧
      SplitColonValueToFloat ops line =
        some (ParseFloat ops (TrimSpace (textBetweenColons line))) ∧
      (ops.parseFloat (TrimSpace (textBetweenColons line)) = none →
        ParseFloat ops (TrimSpace (textBetweenColons line)) = ops.zero) ∧
      (∀ f, ops.parseFloat (TrimSpace (textBetweenColons line)) = some f →
        ParseFloat ops (TrimSpace (textBetweenColons line)) = f) := by
  have hlab : isLabelLine lab line = true := by simp [isLabelLine, hc, hm]
  refine ⟨⟨_, _, ParseSchedulerLoop_eq ops _ pre, ParseSchedulerLine_eq ops _ line,
    ?_, ?_, ?_, ?_, ?_⟩, SplitColonValueToFloat_eq ops line hc, ?_, ?_⟩
  · intro h1 h2
    rw [scalarStep_of_label ops _ line lab hlab]
    cases lab
    case lc => exact absurd rfl h1
    case mc => exact absurd rfl h2
    all_goals rfl
  · intro h1 h2
    subst h1
    have h0 := foldl_lc_count ops pre (initSchedulerLoop ops) (Or.inl rfl)
    rw [if_pos h2] at h0
    exact (scalarStep_lc_first ops _ line ((isLastCycleLine_eq line).trans hlab) h0).2.1
  · intro h1 h2
    subst h1
    have h0 := foldl_lc_count ops pre (initSchedulerLoop ops) (Or.inl rfl)
    rw [if_neg h2] at h0
    exact (scalarStep_lc_later ops _ line ((isLastCycleLine_eq line).trans hlab) h0).2.2
  · intro h1 h2
    subst h1
    have h0 := foldl_mc_count ops pre (initSchedulerLoop ops) (Or.inl rfl)
    rw [if_pos h2] at h0
    exact (scalarStep_mc_first ops _ line ((isMeanCycleLine_eq line).trans hlab) h0).2.1
  · intro h1 h2
    subst h1
    have h0 := foldl_mc_count ops pre (initSchedulerLoop ops) (Or.inl rfl)
    rw [if_neg h2] at h0
    exact (scalarStep_mc_later ops _ line ((isMeanCycleLine_eq line).trans hlab) h0).2.2
  · intro hn
    simp [ParseFloat, hn]
  · intro f hf
    simp [ParseFloat, hf]

theorem ParseSchedulerLine_scalar_witness :
    (Contains "\tLast cycle: 55 ".toList [':'] = true ∧
      matchLabel (textBeforeColon "\tLast cycle: 55 ".toList) = some ScalarLabel.lc ∧
      ["Agent queue size: 12".toList, "\tLast cycle: 100".toList].filter isLastCycleLine ≠
        []) ∧
      ∃ s s1, ParseSchedulerLoop float64Ops (initSchedulerLoop float64Ops)
          ["Agent queue size: 12".toList, "\tLast cycle: 100".toList] = some s ∧
        ParseSchedulerLine float64Ops s "\tLast cycle: 55 ".toList = some s1 ∧
        s1.sm.backfill_last_cycle = Float64.fin 55 := by
  refine ⟨by decide, ?_⟩
  obtain ⟨s, s1, h1, h2, _, _, h3, _⟩ := (ParseSchedulerLine_scalar float64Ops
    ["Agent queue size: 12".toList, "\tLast cycle: 100".toList] "\tLast cycle: 55 ".toList
    ScalarLabel.lc (by decide) (by decide)).1
  exact ⟨s, s1, h1, h2, (h3 rfl (by decide)).trans (by decide)⟩

/-- C11, as stated, fails on the line `1e400|mix|a`: its count field does not
parse, since strconv.ParseFloat returns the error ErrRange, and the code adds
the infinity returned with the error, where a count of zero would leave the
value zero. -/
theorem out_of_range_count_is_kept :
    Split '|' "1e400|mix|a".toList = ["1e400".toList, "mix".toList, "a".toList] ∧
      strconvParseFloat (TrimSpace "1e400".toList) = (Float64.inf, some NumError.ErrRange) ∧
      (ParseNodesMetrics float64Ops "1e400|mix|a".toList).map (fun nm => nm.mix) =
        some [("a".toList, Float64.inf)] ∧
      (ParseNodesMetrics float64Ops "0|mix|a".toList).map (fun nm => nm.mix) =
        some [("a".toList, Float64.fin 0)] ∧
      Float64.inf ≠ float64Ops.zero := by
  decide

/-- C11, amended: a line with three fields whose count strconv.ParseFloat
reports not to be a number does not abort the loop body: the body registers the
signature of the line in the map of every category and adds the number zero
under it in the map of the category of the line, leaving every other value as
it is; a batch whose lines are well formed returns a value in which every map
holds, under every signature, the sum of the counts of its lines accumulated
with zero for this line. -/
theorem ParseNodesLine_unparseable_count {F : Type} (ops : Float64Ops F)
    (nm : NodesMetrics F) (line field0 state field2 : Str) (rest : List Str)
    (h : Split '|' line = field0 :: state :: field2 :: rest)
    (hp : ops.parseFloat (TrimSpace field0) = none) :
    (∃ nm1, ParseNodesLine ops nm line = some nm1 ∧
      nm1 = addToCategory ops (InitFeatureSet ops nm (featureSetOf field2)) (classify state)
        (featureSetOf field2) ops.zero ∧
      (∀ c, featureSetOf field2 ∈ mapKeys (catMap nm1 c)) ∧
      mapGet ops.zero (catMap nm1 (classify state)) (featureSetOf field2) =
        ops.add (mapGet ops.zero (catMap nm (classify state)) (featureSetOf field2)) ops.zero ∧
      (∀ c g, ¬ (c = classify state ∧ g = featureSetOf field2) →
        mapGet ops.zero (catMap nm1 c) g = mapGet ops.zero (catMap nm c) g)) ∧
      (∀ input, (∀ l ∈ Split '\n' input, WellFormedLine l) →
        ∃ nm2, ParseNodesMetrics ops input = some nm2 ∧
          ∀ c g, mapGet ops.zero (catMap nm2 c) g =
            (countsAddedWith (fun l => if l = line then ops.zero else lineCount ops l)
              (Split '\n' input) g c).foldl ops.add ops.zero) := by
  have hz : ParseFloat ops (TrimSpace field0) = ops.zero := by simp [ParseFloat, hp]
  have hl := ParseNodesLine_fields ops nm line field0 state field2 rest h
  rw [hz] at hl
  refine ⟨⟨_, hl, rfl, ?_, ?_, ?_⟩, ?_⟩
  · intro c
    rw [catMap_addToCategory, catMap_InitFeatureSet]
    split
    · simp [mapAdd, mapKeys_mapSet, mem_addKey]
    · simp [mapKeys_mapSet, mem_addKey]
  · rw [catMap_addToCategory, catMap_InitFeatureSet]
    simp [mapAdd, mapGet_mapSet]
  · intro c g hcg
    rw [catMap_addToCategory, catMap_InitFeatureSet]
    by_cases hc : classify state = c
    · have hg : ¬ featureSetOf field2 = g := fun e => hcg ⟨hc.symm, e.symm⟩
      simp only [hc, if_true, mapAdd, mapGet_mapSet, hg, if_false]
    · simp only [hc, if_false, mapGet_mapSet]
      split
      · rename_i e; rw [e]
      · rfl
  · intro input hwf
    refine ⟨_, ParseNodesMetrics_wellFormed ops input hwf, ?_⟩
    intro c g
    have hv := mapGet_catMap_foldl ops (emptyNodesMetrics F)
      (RemoveDuplicates (sortStrings (Split '\n' input))) c g
    have he : mapGet ops.zero (catMap (emptyNodesMetrics F) c) g = ops.zero := by
      cases c <;> rfl
    rw [he] at hv
    rw [hv]
    unfold countsAddedWith
    congr 1
    apply List.map_congr_left
    intro l _
    by_cases hl : l = line
    · rw [if_pos hl, hl, lineCount_of_fields ops line field0 _ h, hz]
    · rw [if_neg hl]

theorem ParseNodesLine_unparseable_count_witness :
    (Split '|' "x|idle|(null)".toList = ["x".toList, "idle".toList, "(null)".toList] ∧
      float64Ops.parseFloat (TrimSpace "x".toList) = none ∧
      strconvParseFloat (TrimSpace "x".toList) = (Float64.fin 0, some NumError.ErrSyntax) ∧
      ∀ l ∈ Split '\n' oddCountsReport, WellFormedLine l) ∧
      (∃ nm1, ParseNodesLine float64Ops (emptyNodesMetrics Float64) "x|idle|(null)".toList =
          some nm1 ∧
        nm1.idle = [("null".toList, Float64.fin 0)] ∧
        nm1.alloc = [("null".toList, Float64.fin 0)]) ∧
      (ParseNodesMetrics float64Ops oddCountsReport).map (fun nm => (nm.idle, nm.alloc)) =
        some ([("null".toList, Float64.fin 4), ("gpu".toList, Float64.fin 0)],
          [("null".toList, Float64.fin 0), ("gpu".toList, Float64.fin 0)]) := by
  refine ⟨by decide, ?_, by decide⟩
  obtain ⟨nm1, h1, h2, _⟩ := (ParseNodesLine_unparseable_count float64Ops
    (emptyNodesMetrics Float64) "x|idle|(null)".toList "x".toList "idle".toList
    "(null)".toList [] (by decide) (by decide)).1
  exact ⟨nm1, h1, by rw [h2]; decide, by rw [h2]; decide⟩

/-- C12: ParseSchedulerMetrics returns a value on every input; on a line that
holds a colon the split at colons has an entry of index 1, and a non-empty
match list of the statistics expression has an entry of index 0, which holds
the matched text and the four groups. -/
theorem ParseSchedulerMetrics_total {F : Type} (ops : Float64Ops F) (input : Str) :
    (∃ sm, ParseSchedulerMetrics ops input = some sm) ∧
      (∀ lines : List Str, ∃ tables, ParseRpcStats ops lines = some tables) ∧
      (∀ line : Str, Contains line [':'] = true → 1 < (Split ':' line).length) ∧
      (∀ line : Str, stat_line_re.FindAllStringSubmatch line ≠ [] →
        ∃ first, (stat_line_re.FindAllStringSubmatch line)[0]? = some first ∧
          first.length = 5) := by
  refine ⟨⟨_, ParseSchedulerMetrics_eq ops input⟩, ?_, ?_, ?_⟩
  · intro lines
    unfold ParseRpcStats
    rw [ParseRpcLoop_eq]
    exact ⟨_, rfl⟩
  · intro line hc
    have h1 := Split_one ':' line ((Contains_singleton _ _).1 hc)
    by_contra hlt
    rw [List.getElem?_eq_none (Nat.le_of_not_lt hlt)] at h1
    exact absurd h1 (by simp)
  · intro line hne
    unfold Regexp.FindAllStringSubmatch at hne ⊢
    cases hm : matchItems stat_line_re.toEnd stat_line_re.items line with
    | none => rw [hm] at hne; exact absurd rfl hne
    | some gs =>
      obtain ⟨key, c, a, t, rfl⟩ := stat_line_groups line gs hm
      exact ⟨_, rfl, rfl⟩

theorem ParseSchedulerMetrics_total_witness :
    (Contains "Server thread count: 3".toList [':'] = true ∧
      stat_line_re.FindAllStringSubmatch "alice count:3 ave_time:10 total_time:30".toList ≠
        []) ∧
      1 < (Split ':' "Server thread count: 3".toList).length ∧
      ∃ first, (stat_line_re.FindAllStringSubmatch
          "alice count:3 ave_time:10 total_time:30".toList)[0]? = some first ∧
        first.length = 5 :=
  ⟨by decide,
    (ParseSchedulerMetrics_total natOps []).2.2.1 "Server thread count: 3".toList (by decide),
    (ParseSchedulerMetrics_total natOps []).2.2.2
      "alice count:3 ave_time:10 total_time:30".toList (by decide)⟩

/-- C13: after any number of lines the loop of ParseRpcStats has a state, the
two section flags are not both set, and once one of the lines read so far
holds a section header exactly one of the two flags is set; the flags after a
line are those the loop body tests on that line. -/
theorem ParseRpcLoop_section_machine {F : Type} (ops : Float64Ops F) (lines : List Str) :
    ∃ s, ParseRpcLoop ops (initRpcLoop F) lines = some s ∧
      ¬ (s.in_rpc = true ∧ s.in_rpc_per_user = true) ∧
      ((∃ l ∈ lines, isHeaderLine l = true) → (s.in_rpc != s.in_rpc_per_user) = true) ∧
      (∀ (s0 : RpcLoop F) (line : Str),
        (rpcStep ops s0 line).in_rpc = (rpcSection s0 line).in_rpc ∧
          (rpcStep ops s0 line).in_rpc_per_user = (rpcSection s0 line).in_rpc_per_user) := by
  refine ⟨_, ParseRpcLoop_eq ops _ lines, ?_, ?_, ?_⟩
  · exact foldl_rpcStep_not_both ops _ lines (by simp [initRpcLoop])
  · intro h
    exact foldl_rpcStep_one_flag ops _ lines (Or.inl h)
  · intro s0 line
    exact rpcStep_flags ops s0 line

theorem ParseRpcLoop_section_machine_witness :
    (∃ l ∈ rpcReport ++ noHeaderReport, isHeaderLine l = true) ∧
      ∃ s, ParseRpcLoop natOps (initRpcLoop Nat) (rpcReport ++ noHeaderReport) = some s ∧
        (s.in_rpc != s.in_rpc_per_user) = true := by
  refine ⟨by decide, ?_⟩
  obtain ⟨s, h, _, h2, _⟩ := ParseRpcLoop_section_machine natOps (rpcReport ++ noHeaderReport)
  exact ⟨s, h, h2 (by decide)⟩

/-- C14: lines that come before the first section header leave the six tables
as they are, so ParseRpcStats gives the same result with and without them, and
six empty tables on a report that has no header. -/
theorem ParseRpcStats_before_header {F : Type} (ops : Float64Ops F) (P R : List Str)
    (h : ∀ l ∈ P, Contains l rpcTypeHeader = false ∧ Contains l rpcUserHeader = false) :
    ParseRpcStats ops (P ++ R) = ParseRpcStats ops R ∧
      ParseRpcStats ops P = some [[], [], [], [], [], []] := by
  have hh : ∀ l ∈ P, isHeaderLine l = false := by
    intro l hl
    simp [isHeaderLine, (h l hl).1, (h l hl).2]
  have hP : P.foldl (rpcStep ops) (initRpcLoop F) = initRpcLoop F :=
    foldl_rpcStep_idle ops _ P hh rfl rfl
  constructor
  · unfold ParseRpcStats
    rw [ParseRpcLoop_eq, ParseRpcLoop_eq, List.foldl_append, hP]
  · unfold ParseRpcStats
    rw [ParseRpcLoop_eq, hP]
    rfl

theorem ParseRpcStats_before_header_witness :
    (∀ l ∈ noHeaderReport,
        Contains l rpcTypeHeader = false ∧ Contains l rpcUserHeader = false) ∧
      ParseRpcStats natOps (noHeaderReport ++ rpcReport) = ParseRpcStats natOps rpcReport ∧
      ParseRpcStats natOps noHeaderReport = some [[], [], [], [], [], []] :=
  ⟨by decide, ParseRpcStats_before_header natOps noHeaderReport rpcReport (by decide)⟩

/-- C15: when a statistics line is recorded under an identifier in a section
and no later line is recorded under this identifier in the same section, the
three tables of the section hold under the identifier the three numbers of
this line, whatever they held before; on a user section where alice occurs
with 3, 10, 30 and then with 5, 7, 35 the tables hold 5, 7, 35. -/
theorem ParseRpcStats_last_write_wins {F : Type} (ops : Float64Ops F) (pre post : List Str)
    (line key c a t : Str)
    (hm : matchItems stat_line_re.toEnd stat_line_re.items line = some [key, c, a, t]) :
    (∃ s, ParseRpcLoop ops (initRpcLoop F) (pre ++ line :: post) = some s ∧
      ((rpcSection (pre.foldl (rpcStep ops) (initRpcLoop F)) line).in_rpc = true →
        noLaterWrite ops (writesType key)
          (rpcStep ops (pre.foldl (rpcStep ops) (initRpcLoop F)) line) post = true →
        typeEntry s key =
          (some (ParseFloat ops c), some (ParseFloat ops a), some (ParseFloat ops t))) ∧
      ((rpcSection (pre.foldl (rpcStep ops) (initRpcLoop F)) line).in_rpc = false →
        (rpcSection (pre.foldl (rpcStep ops) (initRpcLoop F)) line).in_rpc_per_user = true →
        noLaterWrite ops (writesUser key)
          (rpcStep ops (pre.foldl (rpcStep ops) (initRpcLoop F)) line) post = true →
        userEntry s key =
          (some (ParseFloat ops c), some (ParseFloat ops a), some (ParseFloat ops t)))) ∧
      ParseRpcStats natOps repeatedKeyReport =
        some [[("alice".toList, 1)], [("alice".toList, 1)], [("alice".toList, 1)],
          [("alice".toList, 5)], [("alice".toList, 7)], [("alice".toList, 35)]] := by
  refine ⟨⟨_, ParseRpcLoop_eq ops _ _, ?_, ?_⟩, by decide⟩
  · intro h hn
    rw [List.foldl_append, List.foldl_cons, foldl_keep_type ops _ post key hn]
    exact rpcStep_write_type ops _ line key c a t hm h
  · intro h1 h2 hn
    rw [List.foldl_append, List.foldl_cons, foldl_keep_user ops _ post key hn]
    exact rpcStep_write_user ops _ line key c a t hm h1 h2

theorem ParseRpcStats_last_write_wins_witness :
    (matchItems stat_line_re.toEnd stat_line_re.items
        "alice count:5 ave_time:7 total_time:35".toList =
          some ["alice".toList, "5".toList, "7".toList, "35".toList] ∧
      (rpcSection ((repeatedKeyReport.take 2).foldl (rpcStep natOps) (initRpcLoop Nat))
        "alice count:5 ave_time:7 total_time:35".toList).in_rpc = false ∧
      (rpcSection ((repeatedKeyReport.take 2).foldl (rpcStep natOps) (initRpcLoop Nat))
        "alice count:5 ave_time:7 total_time:35".toList).in_rpc_per_user = true ∧
      noLaterWrite natOps (writesUser "alice".toList)
        (rpcStep natOps ((repeatedKeyReport.take 2).foldl (rpcStep natOps) (initRpcLoop Nat))
          "alice count:5 ave_time:7 total_time:35".toList) (repeatedKeyReport.drop 3) = true) ∧
      ∃ s, ParseRpcLoop natOps (initRpcLoop Nat)
          (repeatedKeyReport.take 2 ++
            "alice count:5 ave_time:7 total_time:35".toList :: repeatedKeyReport.drop 3) =
            some s ∧
        userEntry s "alice".toList = (some 5, some 7, some 35) := by
  refine ⟨by decide, ?_⟩
  obtain ⟨s, h, _, h2⟩ := (ParseRpcStats_last_write_wins natOps (repeatedKeyReport.take 2)
    (repeatedKeyReport.drop 3) "alice count:5 ave_time:7 total_time:35".toList "alice".toList
    "5".toList "7".toList "35".toList (by decide)).1
  exact ⟨s, h, (h2 (by decide) (by decide) (by decide)).trans (by decide)⟩

/-- C16: on the empty input ParseNodesMetrics returns the value whose maps are
all empty, and ParseSchedulerMetrics returns the value whose twelve scalar
fields are zero and whose six tables are empty. -/
theorem empty_input_accepted {F : Type} (ops : Float64Ops F) :
    ParseNodesMetrics ops [] = some (emptyNodesMetrics F) ∧
      (∀ c, catMap (emptyNodesMetrics F) c = []) ∧
      ParseSchedulerMetrics ops [] = some (zeroSchedulerMetrics ops) ∧
      (zeroSchedulerMetrics ops).threads = ops.zero ∧
      (zeroSchedulerMetrics ops).queue_size = ops.zero ∧
      (zeroSchedulerMetrics ops).dbd_queue_size = ops.zero ∧
      (zeroSchedulerMetrics ops).last_cycle = ops.zero ∧
      (zeroSchedulerMetrics ops).mean_cycle = ops.zero ∧
      (zeroSchedulerMetrics ops).cycle_per_minute = ops.zero ∧
      (zeroSchedulerMetrics ops).backfill_last_cycle = ops.zero ∧
      (zeroSchedulerMetrics ops).backfill_mean_cycle = ops.zero ∧
      (zeroSchedulerMetrics ops).backfill_depth_mean = ops.zero ∧
      (zeroSchedulerMetrics ops).total_backfilled_jobs_since_start = ops.zero ∧
      (zeroSchedulerMetrics ops).total_backfilled_jobs_since_cycle = ops.zero ∧
      (zeroSchedulerMetrics ops).total_backfilled_heterogeneous = ops.zero ∧
      (zeroSchedulerMetrics ops).rpc_stats_count = [] ∧
      (zeroSchedulerMetrics ops).rpc_stats_avg_time = [] ∧
      (zeroSchedulerMetrics ops).rpc_stats_total_time = [] ∧
      (zeroSchedulerMetrics ops).user_rpc_stats_count = [] ∧
      (zeroSchedulerMetrics ops).user_rpc_stats_avg_time = [] ∧
      (zeroSchedulerMetrics ops).user_rpc_stats_total_time = [] := by
  refine ⟨rfl, ?_, rfl, rfl, rfl, rfl, rfl, rfl, rfl, rfl, rfl, rfl, rfl, rfl, rfl, rfl, rfl,
    rfl, rfl, rfl, rfl⟩
  intro c
  cases c <;> rfl

/-- C17: a line whose feature field is `(null)` is aggregated under the
signature `null`, and no map of a value returned by ParseNodesMetrics has the
key `(null)`. -/
theorem ParseNodesMetrics_sentinel {F : Type} (ops : Float64Ops F) :
    featureSetOf nullSentinel = "null".toList ∧
      (∀ (nm : NodesMetrics F) (line field0 state : Str) (rest : List Str),
        Split '|' line = field0 :: state :: nullSentinel :: rest →
        ParseNodesLine ops nm line =
          some (addToCategory ops (InitFeatureSet ops nm "null".toList) (classify state)
            "null".toList (ParseFloat ops (TrimSpace field0)))) ∧
      (∀ (input : Str) (nm : NodesMetrics F), ParseNodesMetrics ops input = some nm →
        (∀ c, ¬ nullSentinel ∈ mapKeys (catMap nm c)) ∧ ¬ nullSentinel ∈ mapKeys nm.total) := by
  refine ⟨by decide, ?_, ?_⟩
  · intro nm line field0 state rest hs
    have hf : featureSetOf nullSentinel = "null".toList := by decide
    rw [ParseNodesLine_fields ops nm line field0 state nullSentinel rest hs, hf]
  · intro input nm h
    unfold ParseNodesMetrics ParseNodesLines at h
    exact noSentinelKey_loop ops _ nm _ h
      ⟨fun c => by cases c <;> simp [emptyNodesMetrics, catMap, mapKeys],
        by simp [emptyNodesMetrics, mapKeys]⟩

theorem ParseNodesMetrics_sentinel_witness :
    Split '|' "3|idle|(null)".toList = "3".toList :: "idle".toList :: nullSentinel :: [] ∧
      (ParseNodesLine natOps (emptyNodesMetrics Nat) "3|idle|(null)".toList).map
        (fun nm => nm.idle) = some [("null".toList, 3)] ∧
      ∃ nm, ParseNodesMetrics natOps oddCountsReport = some nm ∧
        mapKeys nm.idle = ["null".toList, "gpu".toList] ∧
        ¬ nullSentinel ∈ mapKeys nm.idle := by
  refine ⟨by decide, ?_, ?_⟩
  · rw [(ParseNodesMetrics_sentinel natOps).2.1 (emptyNodesMetrics Nat) "3|idle|(null)".toList
      "3".toList "idle".toList [] (by decide)]
    decide
  · have hk : (ParseNodesMetrics natOps oddCountsReport).map (fun nm => mapKeys nm.idle) =
        some ["null".toList, "gpu".toList] := by decide
    cases hx : ParseNodesMetrics natOps oddCountsReport with
    | none => rw [hx] at hk; exact absurd hk (by simp)
    | some nm =>
      refine ⟨nm, rfl, ?_, ((ParseNodesMetrics_sentinel natOps).2.2 oddCountsReport nm hx).1
        NodeCategory.idle⟩
      rw [hx] at hk
      simpa using hk

/-- C18: RemoveDuplicates returns the non-empty strings of its argument in the
order of their first occurrence, each of them once: the result holds no empty
string and no string twice, it holds every non-empty string of the argument, it
is a subsequence of the argument, and RemoveDuplicates leaves it as it is. -/
theorem RemoveDuplicates_first_occurrences (s : List Str) :
    RemoveDuplicates s = firstOccurrences (s.filter (fun v => decide (v ≠ []))) ∧
      ¬ [] ∈ RemoveDuplicates s ∧
      (RemoveDuplicates s).Nodup ∧
      (∀ x ∈ s, x ≠ [] → x ∈ RemoveDuplicates s) ∧
      (RemoveDuplicates s).Sublist s ∧
      RemoveDuplicates (RemoveDuplicates s) = RemoveDuplicates s := by
  have hne : ¬ [] ∈ RemoveDuplicates s := fun h => ((mem_RemoveDuplicates s []).1 h).2 rfl
  refine ⟨?_, hne, RemoveDuplicates_nodup s, ?_, RemoveDuplicates_sublist s, ?_⟩
  · rw [RemoveDuplicates_eq, freshOnes_eq_firstOccurrences, filter_not_mem_nil]
  · intro x hx hxe
    exact (mem_RemoveDuplicates s x).2 ⟨hx, hxe⟩
  · rw [RemoveDuplicates_eq (RemoveDuplicates s)]
    exact freshOnes_self [] _ (RemoveDuplicates_nodup s) hne (fun x _ h => by simp at h)

theorem RemoveDuplicates_first_occurrences_witness :
    "b".toList ∈ ["b".toList, [], "a".toList, "b".toList, "a".toList, []] ∧
      RemoveDuplicates ["b".toList, [], "a".toList, "b".toList, "a".toList, []] =
        ["b".toList, "a".toList] ∧
      "b".toList ∈ RemoveDuplicates ["b".toList, [], "a".toList, "b".toList, "a".toList, []] :=
  ⟨by decide, by decide,
    (RemoveDuplicates_first_occurrences
      ["b".toList, [], "a".toList, "b".toList, "a".toList, []]).2.2.2.1 "b".toList (by decide)
      (by decide)⟩

/-- C19: ParseSchedulerMetrics returns a value whose backfill_last_cycle is the
number read on the last recognised `Last cycle` line, zero when there is none,
and the same for backfill_mean_cycle and `Mean cycle`: the first recognised line
of a label is written to both fields of the label, so with exactly one
recognised line the two fields are equal. -/
theorem ParseSchedulerMetrics_backfill_is_last {F : Type} (ops : Float64Ops F) (input : Str) :
    ∃ sm, ParseSchedulerMetrics ops input = some sm ∧
      (sm.backfill_last_cycle =
        match ((Split '\n' input).filter isLastCycleLine).getLast? with
        | some l => valueOf ops l
        | none => ops.zero) ∧
      (sm.backfill_mean_cycle =
        match ((Split '\n' input).filter isMeanCycleLine).getLast? with
        | some l => valueOf ops l
        | none => ops.zero) ∧
      (∀ l, (Split '\n' input).filter isLastCycleLine = [l] →
        sm.backfill_last_cycle = sm.last_cycle) ∧
      (∀ l, (Split '\n' input).filter isMeanCycleLine = [l] →
        sm.backfill_mean_cycle = sm.mean_cycle) ∧
      (∀ (s : SchedulerLoop F) (line : Str), isLastCycleLine line = true → s.lc_count = 0 →
        (scalarStep ops s line).sm.last_cycle = valueOf ops line ∧
          (scalarStep ops s line).sm.backfill_last_cycle = valueOf ops line) ∧
      (∀ (s : SchedulerLoop F) (line : Str), isMeanCycleLine line = true → s.mc_count = 0 →
        (scalarStep ops s line).sm.mean_cycle = valueOf ops line ∧
          (scalarStep ops s line).sm.backfill_mean_cycle = valueOf ops line) := by
  have hl := foldl_backfill_last_cycle ops (Split '\n' input)
    { sm := zeroSchedulerMetrics ops, lc_count := 0, mc_count := 0 } (Or.inl rfl)
  have hm := foldl_backfill_mean_cycle ops (Split '\n' input)
    { sm := zeroSchedulerMetrics ops, lc_count := 0, mc_count := 0 } (Or.inl rfl)
  refine ⟨_, ParseSchedulerMetrics_eq ops input, hl, hm, ?_, ?_, ?_, ?_⟩
  · intro l hf
    have h1 := foldl_last_cycle_first ops (Split '\n' input)
      { sm := zeroSchedulerMetrics ops, lc_count := 0, mc_count := 0 } rfl l [] hf
    rw [hf] at hl
    exact hl.trans h1.symm
  · intro l hf
    have h1 := foldl_mean_cycle_first ops (Split '\n' input)
      { sm := zeroSchedulerMetrics ops, lc_count := 0, mc_count := 0 } rfl l [] hf
    rw [hf] at hm
    exact hm.trans h1.symm
  · intro s line h h0
    obtain ⟨_, b, c⟩ := scalarStep_lc_first ops s line h h0
    exact ⟨b, c⟩
  · intro s line h h0
    obtain ⟨_, b, c⟩ := scalarStep_mc_first ops s line h h0
    exact ⟨b, c⟩

theorem ParseSchedulerMetrics_backfill_is_last_witness :
    (Split '\n' oneCycleReport).filter isLastCycleLine = ["\tLast cycle: 42".toList] ∧
      ∃ sm, ParseSchedulerMetrics natOps oneCycleReport = some sm ∧
        sm.backfill_last_cycle = 42 ∧ sm.last_cycle = 42 := by
  refine ⟨by decide, ?_⟩
  obtain ⟨sm, h, h1, _, h3, _⟩ := ParseSchedulerMetrics_backfill_is_last natOps oneCycleReport
  have hb : sm.backfill_last_cycle = 42 := h1.trans (by decide)
  exact ⟨sm, h, hb, (h3 "\tLast cycle: 42".toList (by decide)).symm.trans hb⟩

/-- C20: no state token starts with two of the eleven prefixes, so at most one
of the eleven expressions of the switch matches a token, and ordered prefix
matching gives the same category in whatever order the prefixes are
tested. -/
theorem prefixes_incompatible (state : Str) :
    (∀ p ∈ prefixTable, ∀ q ∈ prefixTable,
      p.1.toList.isPrefixOf state = true → q.1.toList.isPrefixOf state = true → p = q) ∧
      (∀ p ∈ prefixTable, ∀ q ∈ prefixTable,
        (rePrefix p.1).MatchString state = true → (rePrefix q.1).MatchString state = true →
          p = q) ∧
      (∀ table : List (String × NodeCategory), table.Perm prefixTable →
        classifyWith table state = classify state) := by
  refine ⟨?_, ?_, ?_⟩
  · intro p hp q hq h1 h2
    exact prefixTable_unique state p q hp hq h1 h2
  · intro p hp q hq h1 h2
    rw [MatchString_rePrefix] at h1 h2
    exact prefixTable_unique state p q hp hq h1 h2
  · intro table h
    exact classifyWith_perm table state h

theorem prefixes_incompatible_witness :
    (prefixTable.reverse.Perm prefixTable ∧
      ("drain", NodeCategory.drain) ∈ prefixTable ∧
      "drain".toList.isPrefixOf "draining*".toList = true) ∧
      classifyWith prefixTable.reverse "draining*".toList = NodeCategory.drain :=
  ⟨⟨List.reverse_perm _, by decide, by decide⟩,
    ((prefixes_incompatible "draining*".toList).2.2 prefixTable.reverse
      (List.reverse_perm _)).trans (by decide)⟩

/-- C21: two lists of lines with the same non-empty lines, and so two lists
that are permutations of one another, give the same result; when every line
that holds a delimiter has at least three fields this result is a value, the
same maps for both. -/
theorem ParseNodesLines_order_independent {F : Type} (ops : Float64Ops F) (L₁ L₂ : List Str) :
    ((∀ x, x ≠ [] → (x ∈ L₁ ↔ x ∈ L₂)) → ParseNodesLines ops L₁ = ParseNodesLines ops L₂) ∧
      (L₁.Perm L₂ → ParseNodesLines ops L₁ = ParseNodesLines ops L₂) ∧
      (L₁.Perm L₂ → (∀ l ∈ L₁, WellFormedLine l) →
        ∃ nm, ParseNodesLines ops L₁ = some nm ∧ ParseNodesLines ops L₂ = some nm) ∧
      (∀ input₁ input₂ : Str, (Split '\n' input₁).Perm (Split '\n' input₂) →
        ParseNodesMetrics ops input₁ = ParseNodesMetrics ops input₂) := by
  have hset : ∀ A B : List Str, (∀ x, x ≠ [] → (x ∈ A ↔ x ∈ B)) →
      ParseNodesLines ops A = ParseNodesLines ops B := by
    intro A B h
    unfold ParseNodesLines
    simp only [lines_uniq_congr_nonempty h]
  have hperm : ∀ A B : List Str, A.Perm B → ParseNodesLines ops A = ParseNodesLines ops B :=
    fun A B h => hset A B (fun x _ => h.mem_iff)
  refine ⟨hset L₁ L₂, hperm L₁ L₂, ?_, ?_⟩
  · intro hp hwf
    refine ⟨_, ParseNodesLoop_wellFormed ops _ _ (lines_uniq_wellFormed L₁ hwf), ?_⟩
    rw [← hperm L₁ L₂ hp]
    exact ParseNodesLoop_wellFormed ops _ _ (lines_uniq_wellFormed L₁ hwf)
  · intro input₁ input₂ hp
    exact hperm _ _ hp

theorem ParseNodesLines_order_independent_witness :
    (shuffledReport.reverse.Perm shuffledReport ∧ ∀ l ∈ shuffledReport.reverse, WellFormedLine l) ∧
      ∃ nm, ParseNodesLines natOps shuffledReport.reverse = some nm ∧
        ParseNodesLines natOps shuffledReport = some nm ∧
        nm.alloc = [("a".toList, 7), ("b".toList, 0)] := by
  refine ⟨⟨List.reverse_perm _, by decide⟩, ?_⟩
  obtain ⟨nm, h1, h2⟩ := (ParseNodesLines_order_independent natOps shuffledReport.reverse
    shuffledReport).2.2.1 (List.reverse_perm _) (by decide)
  refine ⟨nm, h1, h2, ?_⟩
  have hk : (ParseNodesLines natOps shuffledReport).map (fun nm => nm.alloc) =
      some [("a".toList, 7), ("b".toList, 0)] := by decide
  rw [h2] at hk
  simpa using hk

/-- C22: in every value returned by ParseNodesMetrics the map total has the
keys of the category maps and holds the value zero under each of them, whatever
the counts of the lines are; a well-formed input does return a value. -/
theorem ParseNodesMetrics_total_zero {F : Type} (ops : Float64Ops F) (input : Str) :
    (∀ nm, ParseNodesMetrics ops input = some nm →
      (∀ c, mapKeys nm.total = mapKeys (catMap nm c)) ∧
      (∀ p ∈ nm.total, p.2 = ops.zero) ∧
      (∀ g, mapGet ops.zero nm.total g = ops.zero)) ∧
      ((∀ l ∈ Split '\n' input, WellFormedLine l) →
        ∃ nm, ParseNodesMetrics ops input = some nm) := by
  constructor
  · intro nm h
    unfold ParseNodesMetrics ParseNodesLines at h
    have he := ParseNodesLoop_some_eq ops _ nm _ h
    have hv : ∀ p ∈ nm.total, p.2 = ops.zero := by
      rw [he]
      exact total_values_foldl ops _ _ (by simp [emptyNodesMetrics])
    refine ⟨?_, hv, fun g => mapGet_of_values ops.zero nm.total g hv⟩
    intro c
    rw [he, mapKeys_total_foldl, mapKeys_catMap_foldl]
    cases c <;> rfl
  · intro hwf
    exact ⟨_, ParseNodesMetrics_wellFormed ops input hwf⟩

theorem ParseNodesMetrics_total_zero_witness :
    (∀ l ∈ Split '\n' "5|alloc|a\n3|idle|b".toList, WellFormedLine l) ∧
      ∃ nm, ParseNodesMetrics natOps "5|alloc|a\n3|idle|b".toList = some nm ∧
        nm.total = [("b".toList, 0), ("a".toList, 0)] ∧
        mapKeys nm.total = mapKeys nm.alloc ∧
        mapGet natOps.zero nm.total "a".toList = natOps.zero := by
  refine ⟨by decide, ?_⟩
  have hk : (ParseNodesMetrics natOps "5|alloc|a\n3|idle|b".toList).map (fun nm => nm.total) =
      some [("b".toList, 0), ("a".toList, 0)] := by decide
  cases hx : ParseNodesMetrics natOps "5|alloc|a\n3|idle|b".toList with
  | none => rw [hx] at hk; exact absurd hk (by simp)
  | some nm =>
    obtain ⟨h1, _, h3⟩ := (ParseNodesMetrics_total_zero natOps "5|alloc|a\n3|idle|b".toList).1 nm hx
    rw [hx] at hk
    exact ⟨nm, rfl, by simpa using hk, h1 NodeCategory.alloc, h3 "a".toList⟩

/-- C23: a text before the first colon that takes the case of `Last cycle`,
`Mean cycle`, `Cycles per`, `Depth Mean` or of one of the three
`Total backfilled` labels starts with a white-space character, and one that
takes the case of `Server thread`, `Agent queue` or `DBD Agent` starts with the
label itself; the report with the two lines `Last cycle: 100` and
`Last cycle: 55`, not indented, leaves last_cycle and backfill_last_cycle at
zero, and an indented `Server thread` line leaves threads at zero. -/
theorem label_positions (state : Str) (lab : ScalarLabel)
    (h : matchLabel state = some lab) :
    (lab ∈ indentedLabels → ∃ c t, state = c :: t ∧ reSpace c = true) ∧
      (lab = ScalarLabel.st → "Server thread".toList.isPrefixOf state = true) ∧
      (lab = ScalarLabel.qs → "Agent queue".toList.isPrefixOf state = true) ∧
      (lab = ScalarLabel.dbd → "DBD Agent".toList.isPrefixOf state = true) ∧
      (Split '\n' unindentedCyclesReport).filter isLastCycleLine = [] ∧
      (ParseSchedulerMetrics natOps unindentedCyclesReport).map
        (fun sm => (sm.last_cycle, sm.backfill_last_cycle)) = some (0, 0) ∧
      (ParseSchedulerMetrics natOps twoCyclesReport).map
        (fun sm => (sm.last_cycle, sm.backfill_last_cycle)) = some (100, 55) ∧
      (ParseSchedulerMetrics natOps indentedThreadReport).map (fun sm => sm.threads) =
        some 0 ∧
      (ParseSchedulerMetrics natOps "Server thread count: 3".toList).map
        (fun sm => sm.threads) = some 3 := by
  obtain ⟨h1, h2, h3⟩ := matchLabel_column_zero state lab h
  exact ⟨matchLabel_indented state lab h, h1, h2, h3, by decide, by decide, by decide,
    by decide, by decide⟩

theorem label_positions_witness :
    (matchLabel "\tCycles per minute".toList = some ScalarLabel.cpm ∧
      ScalarLabel.cpm ∈ indentedLabels) ∧
      ∃ c t, "\tCycles per minute".toList = c :: t ∧ reSpace c = true :=
  ⟨by decide,
    (label_positions "\tCycles per minute".toList ScalarLabel.cpm (by decide)).1 (by decide)⟩

end SlurmExporter
